import Mathlib

/-!
# Secrets-Manager: the sync / consistency model of `frontend/src/lib/api.js`

A shallow embedding of the local-store branch (`if (!supabase) { ... }`) of the
`api` object, together with the registry update that `updateSecretDescription`
issues on the Supabase branch.

Conventions of the embedding.

* The database is the JSON document kept under `localStorage`; `getDb()` /
  `saveDb(db)` load and store it whole, so every operation is a function from
  the document to the new document (and a return value).
* Every timestamp in the document is the output of `new Date().toISOString()`;
  `new Date(t)` maps it back to the same millisecond count, so a timestamp is
  that count and `new Date(a) < new Date(b)` is `a < b`.  The clock reading
  `now` and the identifiers drawn from `uuidv4()` are arguments of the
  operation that takes them.
* `version` is a counter that starts at 1: a JavaScript number holding a
  non-negative integer.  `version += 1` is the sum rounded to the nearest double
  (`roundToDouble`), which is the sum itself while the counter is below `2 ^ 53`.
* A JavaScript object used as a dictionary is the list of its own properties in
  creation order.  Property names are ordinary data-property names (every name
  the key input of `ProjectView.jsx` lets through, `[A-Z0-9_]*`, is one);
  `Object.entries` lists array-index names first, in ascending numeric order,
  then the other names in creation order.  The name `__proto__` is no
  data-property name: `obj["__proto__"] = value` sets the prototype of `obj`.
  The list keeps that value under the name, where the expression
  `obj["__proto__"]` finds it (`registryLookup`); `Object.entries` does not
  list it, so for this one name the list has an entry more than the object has
  properties, and a count of rows per key is stated for the other names.
* The expression `registry[key]` also finds what the object inherits: the
  members of `Object.prototype`, and the two properties of a prototype set
  through `__proto__` (`registryLookup`).
* A property that may be `null` or left out is an `Option`.  Every member row of
  the store has a `userId` (the seed row and the rows `addProjectMember` pushes),
  so for `userId` `none` is `null` and `none == none` is `null === null`; for
  `inviteEmail`, `hasPermission` and `invitedBy` `none` is a property that is
  not there, and it is only compared with strings or tested for truthiness.
* A call that throws returns `Except.error` with the message of the `Error`.
* `Array.prototype.sort` is stable; with the comparator
  `new Date(b.t) - new Date(a.t)` it is the insertion sort for the relation
  `b.t ≤ a.t`.
-/

namespace SecretsManager

abbrev Id := String

/-- Milliseconds since the epoch: the value of `new Date(iso).getTime()`. -/
abbrev Timestamp := Int

structure User where
  id : Id
  email : String
  name : String
  isAdmin : Bool
  deriving DecidableEq, Repr

structure Project where
  id : Id
  name : String
  slug : String
  description : String
  deriving DecidableEq, Repr

structure Environment where
  id : Id
  projectId : Id
  name : String
  slug : String
  isProduction : Bool
  parentId : Option Id
  deriving DecidableEq, Repr

structure Secret where
  id : Id
  projectId : Id
  environmentId : Id
  key : String
  value : String
  version : Nat
  updatedAt : Timestamp
  lastChangedBy : Option String
  deriving DecidableEq, Repr

structure RegistryEntry where
  id : Id
  projectId : Id
  key : String
  description : String
  lastUpdatedAt : Timestamp
  deriving DecidableEq, Repr

structure ProjectMember where
  id : Id
  projectId : Id
  userId : Option Id
  inviteEmail : Option String
  environments : List Id
  status : String
  hasPermission : Option Bool
  invitedBy : Option Id
  invitedAt : Timestamp
  deriving DecidableEq, Repr

structure AuditLog where
  id : Id
  projectId : Id
  environmentId : Option Id
  action : String
  description : String
  timestamp : Timestamp
  performedBy : Option String
  deriving DecidableEq, Repr

/-- The document `getDb()` returns. -/
structure Db where
  users : List User
  projects : List Project
  environments : List Environment
  secrets : List Secret
  projectSecretRegistry : List RegistryEntry
  projectMembers : List ProjectMember
  auditLogs : List AuditLog
  deriving DecidableEq, Repr

/-- The seed document `initialData`; the arguments are the clock readings of its four
`new Date().toISOString()` calls (secret `s1`, secret `s2`, registry entry `r1`, member
`m1`). -/
def initialData (tS1 tS2 tR1 tM1 : Timestamp) : Db :=
  { users :=
      [ { id := "u1", email := "admin@growthjockey.com", name := "Admin User", isAdmin := true },
        { id := "u2", email := "dev@growthjockey.com", name := "Developer User",
          isAdmin := false } ]
    projects :=
      [ { id := "p1", name := "Growth Platform", slug := "growth-platform",
          description := "Main monolithic application" } ]
    environments :=
      [ { id := "e1", projectId := "p1", name := "Development", slug := "dev",
          isProduction := false, parentId := none },
        { id := "e2", projectId := "p1", name := "Staging", slug := "staging",
          isProduction := false, parentId := none },
        { id := "e3", projectId := "p1", name := "Production", slug := "prod",
          isProduction := true, parentId := none } ]
    secrets :=
      [ { id := "s1", projectId := "p1", environmentId := "e1", key := "DATABASE_URL",
          value := "postgres://localhost:5432/db", version := 1, updatedAt := tS1,
          lastChangedBy := none },
        { id := "s2", projectId := "p1", environmentId := "e2", key := "DATABASE_URL",
          value := "postgres://staging-db.internal:5432/db", version := 1, updatedAt := tS2,
          lastChangedBy := none } ]
    projectSecretRegistry :=
      [ { id := "r1", projectId := "p1", key := "DATABASE_URL",
          description := "Connection string for the primary database",
          lastUpdatedAt := tR1 } ]
    projectMembers :=
      [ { id := "m1", projectId := "p1", userId := some "u2", inviteEmail := none,
          environments := ["e1"], status := "ACTIVE", hasPermission := none,
          invitedBy := some "u1", invitedAt := tM1 } ]
    auditLogs := [] }

/-! ## JavaScript objects as dictionaries -/

/-- Own properties of an object, in creation order. -/
abbrev JsObject (V : Type) := List (String × V)

/-- The assignment `obj[k] = v`: an existing property keeps its place and takes the
new value, a new property is created last. -/
def JsObject.assign {V : Type} : JsObject V → String → V → JsObject V
  | [], k, v => [(k, v)]
  | (k0, v0) :: t, k, v => if k0 = k then (k, v) :: t else (k0, v0) :: JsObject.assign t k v

/-- The read `obj[k]` (`none` for `undefined`). -/
def JsObject.get {V : Type} (o : JsObject V) (k : String) : Option V :=
  (o.find? (fun p => p.1 == k)).map (fun p => p.2)

/-- The number a string of decimal digits denotes. -/
def digitsValue (cs : List Char) : Nat :=
  cs.foldl (fun n c => 10 * n + (c.toNat - 48)) 0

/-- Array-index property names: the canonical decimal numerals of `0 .. 2^32 - 2`. -/
def isArrayIndex (s : String) : Bool :=
  let cs := s.toList
  !cs.isEmpty && cs.all Char.isDigit && (cs.head? != some '0' || cs.length == 1)
    && decide (digitsValue cs < 2 ^ 32 - 1)

def arrayIndexValue (s : String) : Nat :=
  digitsValue s.toList

/-- The order of `Object.entries(obj)`: array-index names ascending, then the other
names in creation order. -/
def JsObject.entries {V : Type} (o : JsObject V) : List (String × V) :=
  List.insertionSort (fun a b => arrayIndexValue a.1 ≤ arrayIndexValue b.1)
      (o.filter (fun p => isArrayIndex p.1))
    ++ o.filter (fun p => !isArrayIndex p.1)

/-! ## Reads -/

/-- The value stored per key in the object `getSecretRegistry` returns. -/
structure RegData where
  lastUpdatedAt : Timestamp
  description : String
  deriving DecidableEq, Repr

/-- `api.getSecretRegistry(projectId)`, local store. -/
def getSecretRegistry (db : Db) (projectId : Id) : JsObject RegData :=
  let registryList := db.projectSecretRegistry.filter (fun r => r.projectId == projectId)
  registryList.foldl
    (fun registryObj r =>
      JsObject.assign registryObj r.key
        { lastUpdatedAt := r.lastUpdatedAt, description := r.description })
    []

/-- `api.getSecrets(projectId, envId)`, local store (`envId` may be omitted). -/
def getSecrets (db : Db) (projectId : Id) (envId : Option Id) : List Secret :=
  match envId with
  | some e =>
    if e ≠ "" then
      db.secrets.filter (fun s => s.projectId == projectId && s.environmentId == e)
    else db.secrets.filter (fun s => s.projectId == projectId)
  | none => db.secrets.filter (fun s => s.projectId == projectId)

/-- One element of the array `getEnvironmentSyncStatus` returns. -/
structure SyncRow where
  environment_id : Id
  environment_name : String
  project_id : Id
  key_name : String
  global_last_updated : Timestamp
  description : String
  local_last_updated : Option Timestamp
  value : Option String
  sync_status : String
  deriving DecidableEq, Repr

/-- The body of the inner `forEach` of `getEnvironmentSyncStatus`: the row pushed for
one environment and one registry property. -/
def syncRow (projectId : Id) (allSecrets : List Secret) (env : Environment)
    (key : String) (regData : RegData) : SyncRow :=
  let secret := allSecrets.find? (fun s => s.environmentId == env.id && s.key == key)
  let value := secret.map (fun s => s.value)
  let status :=
    match secret with
    | none => "MISSING"
    | some s => if s.updatedAt < regData.lastUpdatedAt then "OUTDATED" else "SYNCED"
  { environment_id := env.id
    environment_name := env.name
    project_id := projectId
    key_name := key
    global_last_updated := regData.lastUpdatedAt
    description := regData.description
    local_last_updated := secret.map (fun s => s.updatedAt)
    value := value
    sync_status := status }

/-- `api.getEnvironmentSyncStatus(projectId)`. -/
def getEnvironmentSyncStatus (db : Db) (projectId : Id) : List SyncRow :=
  let registry := getSecretRegistry db projectId
  let allSecrets := db.secrets.filter (fun s => s.projectId == projectId)
  let envs := db.environments.filter (fun e => e.projectId == projectId)
  envs.flatMap (fun env =>
    (JsObject.entries registry).map (fun p => syncRow projectId allSecrets env p.1 p.2))

/-! ## Writes (local store) -/

/-- `arr.find(p)` followed by an assignment to a field of the object found: the first
element that satisfies `p` is replaced, in place, by its update. -/
def updateFirst {α : Type} (p : α → Bool) (f : α → α) : List α → List α
  | [] => []
  | a :: t => if p a then f a :: t else a :: updateFirst p f t

/-- The label `user?.email || 'Unknown'`. -/
def userEmail (user : Option User) : String :=
  match user with
  | some u => if u.email ≠ "" then u.email else "Unknown"
  | none => "Unknown"

/-- The identifiers `saveSecret` draws from `uuidv4()`. -/
structure SaveIds where
  registryId : Id
  secretId : Id
  auditId : Id
  deriving DecidableEq, Repr

/-- The distance between neighbouring doubles around an integer `n ≥ 2 ^ 53`: `2` below
`2 ^ 54`, `4` below `2 ^ 55`, and so on; `gap` is the candidate, doubled at each step. -/
def doubleGap : Nat → Nat → Nat → Nat
  | 0, _, gap => gap
  | fuel + 1, n, gap =>
    if n < 9007199254740992 * gap then gap else doubleGap fuel n (2 * gap)

/-- The double nearest to the integer `n`, ties going to the even significand: the value
of a JavaScript number for an integer result.  The integers up to `2 ^ 53` are doubles;
the exponent of a double is below 1024. -/
def roundToDouble (n : Nat) : Nat :=
  if n ≤ 9007199254740992 then n
  else
    let gap := doubleGap 1024 n 2
    let q := n / gap
    let r := n % gap
    if 2 * r < gap then q * gap
    else if gap < 2 * r then (q + 1) * gap
    else if q % 2 = 0 then q * gap
    else (q + 1) * gap

/-- `api.saveSecret(projectId, envId, key, value, user)`, local store: the new document
and the secret returned. -/
def saveSecret (db : Db) (now : Timestamp) (ids : SaveIds) (projectId envId : Id)
    (key value : String) (user : Option User) : Db × Secret :=
  let email := userEmail user
  let isSecret := fun (s : Secret) =>
    s.projectId == projectId && s.environmentId == envId && s.key == key
  let isEntry := fun (r : RegistryEntry) => r.projectId == projectId && r.key == key
  let registry :=
    match db.projectSecretRegistry.find? isEntry with
    | some _ => updateFirst isEntry (fun r => { r with lastUpdatedAt := now })
        db.projectSecretRegistry
    | none => db.projectSecretRegistry ++
        [{ id := ids.registryId, projectId := projectId, key := key, description := "",
           lastUpdatedAt := now }]
  let written : List Secret × Secret :=
    match db.secrets.find? isSecret with
    | some s =>
      let touch := fun (x : Secret) =>
        { x with value := value, updatedAt := now,
                 version := roundToDouble (x.version + 1),
                 lastChangedBy := some email }
      (updateFirst isSecret touch db.secrets, touch s)
    | none =>
      let s : Secret :=
        { id := ids.secretId, projectId := projectId, environmentId := envId, key := key,
          value := value, version := 1, updatedAt := now, lastChangedBy := some email }
      (db.secrets ++ [s], s)
  let log : AuditLog :=
    { id := ids.auditId, projectId := projectId, environmentId := some envId,
      action := "SECRET_UPDATE", description := "Updated secret " ++ key,
      timestamp := now, performedBy := some email }
  ({ db with projectSecretRegistry := registry, secrets := written.1,
             auditLogs := log :: db.auditLogs }, written.2)

/-- `api.deleteSecret(secretId)`, local store. -/
def deleteSecret (db : Db) (now : Timestamp) (auditId : Id) (secretId : Id) : Db × Bool :=
  match db.secrets.findIdx? (fun s => s.id == secretId) with
  | some idx =>
    match db.secrets[idx]? with
    | some secret =>
      let log : AuditLog :=
        { id := auditId, projectId := secret.projectId,
          environmentId := some secret.environmentId, action := "SECRET_DELETE",
          description := "Deleted secret " ++ secret.key, timestamp := now,
          performedBy := none }
      ({ db with secrets := db.secrets.eraseIdx idx, auditLogs := log :: db.auditLogs }, true)
    | none => (db, true)
  | none => (db, true)

/-- `api.deleteEnvironment(envId)`, local store. -/
def deleteEnvironment (db : Db) (envId : Id) : Db × Bool :=
  let environments :=
    match db.environments.findIdx? (fun e => e.id == envId) with
    | some idx => db.environments.eraseIdx idx
    | none => db.environments
  ({ db with environments := environments,
             secrets := db.secrets.filter (fun s => s.environmentId != envId) }, true)

/-- `api.updateSecretDescription(projectId, keyName, description)`, local store. -/
def updateSecretDescription (db : Db) (projectId : Id) (keyName description : String) :
    Db × Bool :=
  let isEntry := fun (r : RegistryEntry) => r.projectId == projectId && r.key == keyName
  match db.projectSecretRegistry.find? isEntry with
  | some _ =>
    let registry :=
      updateFirst isEntry (fun r => { r with description := description })
        db.projectSecretRegistry
    ({ db with projectSecretRegistry := registry }, true)
  | none => (db, true)

/-- `api.syncSecret(secretId)`, local store. -/
def syncSecret (db : Db) (now : Timestamp) (secretId : Id) : Db × Bool :=
  let isSecret := fun (s : Secret) => s.id == secretId
  match db.secrets.find? isSecret with
  | some _ =>
    let secrets := updateFirst isSecret (fun s => { s with updatedAt := now }) db.secrets
    ({ db with secrets := secrets }, true)
  | none => (db, true)

/-! ## The registry table on the Supabase branch -/

/-- A row of the table `project_secret_registry`. -/
structure RegistryRow where
  id : Id
  project_id : Id
  key_name : String
  description : String
  last_updated_at : Timestamp
  deriving DecidableEq, Repr

/-- The statement `updateSecretDescription` issues when `supabase` is configured:
`from('project_secret_registry').update({ description, last_updated_at: now })
 .eq('project_id', projectId).eq('key_name', keyName)`, on a table that accepts it. -/
def updateSecretDescriptionSupabase (table : List RegistryRow) (now : Timestamp)
    (projectId : Id) (keyName description : String) : List RegistryRow :=
  table.map (fun r =>
    if r.project_id == projectId && r.key_name == keyName then
      { r with description := description, last_updated_at := now }
    else r)

/-- `api.getSecretRegistry(projectId)` when `supabase` is configured, on the rows the
select returns. -/
def getSecretRegistrySupabase (table : List RegistryRow) (projectId : Id) : JsObject RegData :=
  let data := table.filter (fun r => r.project_id == projectId)
  data.foldl
    (fun registryObj r =>
      JsObject.assign registryObj r.key_name
        { lastUpdatedAt := r.last_updated_at, description := r.description })
    []

/-! ## Sequences of local-store operations -/

/-- A call of one of the mutating operations, with the clock reading and the
identifiers it draws. -/
inductive Op where
  | saveSecret (now : Timestamp) (ids : SaveIds) (projectId envId : Id)
      (key value : String) (user : Option User)
  | updateSecretDescription (now : Timestamp) (projectId : Id) (keyName description : String)
  | syncSecret (now : Timestamp) (secretId : Id)
  | deleteSecret (now : Timestamp) (auditId : Id) (secretId : Id)
  | deleteEnvironment (now : Timestamp) (envId : Id)
  deriving DecidableEq, Repr

/-- The clock reading `new Date().toISOString()` taken on entry. -/
def Op.now : Op → Timestamp
  | .saveSecret now _ _ _ _ _ _ => now
  | .updateSecretDescription now _ _ _ => now
  | .syncSecret now _ => now
  | .deleteSecret now _ _ => now
  | .deleteEnvironment now _ => now

/-- The document after one call. -/
def step (db : Db) : Op → Db
  | .saveSecret now ids projectId envId key value user =>
    (saveSecret db now ids projectId envId key value user).1
  | .updateSecretDescription _ projectId keyName description =>
    (updateSecretDescription db projectId keyName description).1
  | .syncSecret now secretId => (syncSecret db now secretId).1
  | .deleteSecret now auditId secretId => (deleteSecret db now auditId secretId).1
  | .deleteEnvironment _ envId => (deleteEnvironment db envId).1

/-- The documents a sequence of calls goes through, the starting one first. -/
def trace (db : Db) : List Op → List Db
  | [] => [db]
  | op :: ops => db :: trace (step db op) ops

/-! ## Writes that the storage may refuse -/

/-- What one call of a writing operation takes from its surroundings: the clock reading,
the identifiers drawn from `uuidv4()`, and the exception that `localStorage.setItem`
throws inside `saveDb`, if it throws (`none`: the document is stored). -/
structure Draw where
  now : Timestamp
  ids : SaveIds
  storageError : Option String
  deriving DecidableEq, Repr

/-- A call of the `api` object made by a handler of `ProjectView.jsx`. -/
inductive ApiCall where
  | saveSecret (projectId envId : Id) (key value : String) (user : Option User)
  | updateSecretDescription (projectId : Id) (keyName description : String)
  deriving DecidableEq, Repr

/-- The promise a call returns, once settled: the stored document and the reason of the
rejection, if the call was rejected.  A call whose `saveDb` throws leaves the stored
document as it was; `updateSecretDescription` reaches `saveDb` only when it finds the
entry. -/
def ApiCall.attempt (db : Db) (d : Draw) : ApiCall → Db × Option String
  | .saveSecret projectId envId key value user =>
    match d.storageError with
    | some message => (db, some message)
    | none =>
      ((SecretsManager.saveSecret db d.now d.ids projectId envId key value user).1, none)
  | .updateSecretDescription projectId keyName description =>
    match db.projectSecretRegistry.find?
        (fun r => r.projectId == projectId && r.key == keyName), d.storageError with
    | some _, some message => (db, some message)
    | _, _ =>
      ((SecretsManager.updateSecretDescription db projectId keyName description).1, none)

/-- The loop `for (...) { await call }` inside `try`: the calls are made one after the
other, the `n`-th call made takes `draws n`, and the first rejection ends the loop. -/
def awaitEach (draws : Nat → Draw) : Nat → Db → List ApiCall → Db × Option String
  | _, db, [] => (db, none)
  | n, db, call :: calls =>
    match call.attempt db (draws n) with
    | (db1, some message) => (db1, some message)
    | (db1, none) => awaitEach draws (n + 1) db1 calls

/-- The loop `promises.push(call)`: every call is made, in order, whatever the others
return; the result is the stored document and the settled promises. -/
def callEach (draws : Nat → Draw) : Nat → Db → List ApiCall → Db × List (Option String)
  | _, db, [] => (db, [])
  | n, db, call :: calls =>
    let settled := call.attempt db (draws n)
    let rest := callEach draws (n + 1) settled.1 calls
    (rest.1, settled.2 :: rest.2)

/-- The promise `Promise.all(promises)` of settled promises: rejected with the reason of
the first rejected one, fulfilled when none is rejected. -/
def promiseAll (settled : List (Option String)) : Option String :=
  settled.findSome? (fun reason => reason)

/-! ## The handlers of `ProjectView.jsx` -/

/-- An element of `propagation.affectedSecrets` / `affectedDescriptions`. -/
structure KeyValue where
  key : String
  value : String
  deriving DecidableEq, Repr

/-- The state `propagation`. -/
structure Propagation where
  isOpen : Bool
  affectedSecrets : List KeyValue
  affectedDescriptions : Option (List KeyValue)
  deriving DecidableEq, Repr

/-- The state `secretForm`. -/
structure SecretForm where
  key : String
  value : String
  description : String
  deriving DecidableEq, Repr

/-- The React state of `ProjectView` that the save handlers read and set, for a loaded
project with an environment selected. -/
structure View where
  projectId : Id
  currentEnvId : Id
  user : Option User
  secrets : List Secret
  allSecrets : List Secret
  registry : JsObject RegData
  drafts : JsObject String
  descDrafts : JsObject String
  saving : Bool
  error : Option String
  isSecretModalOpen : Bool
  secretForm : SecretForm
  propagation : Propagation
  deriving DecidableEq, Repr

/-- The state of `ProjectView` as its `useState` calls create it, for a loaded project
with an environment selected. -/
def initialView (projectId currentEnvId : Id) (user : Option User) : View :=
  { projectId := projectId
    currentEnvId := currentEnvId
    user := user
    secrets := []
    allSecrets := []
    registry := []
    drafts := []
    descDrafts := []
    saving := false
    error := none
    isSecretModalOpen := false
    secretForm := { key := "", value := "", description := "" }
    propagation := { isOpen := false, affectedSecrets := [], affectedDescriptions := none } }

/-- The handler `loadSecrets`, local store. -/
def loadSecrets (db : Db) (view : View) : View :=
  if view.currentEnvId ≠ "" then
    let s := getSecrets db view.projectId none
    { view with
      allSecrets := s
      secrets := s.filter (fun secret => secret.environmentId == view.currentEnvId)
      registry := getSecretRegistry db view.projectId }
  else view

/-- The array `updates` of `handleGlobalSave`: one element per draft whose secret is
found in the state `secrets`, in the order of `Object.keys(drafts)`. -/
def pendingUpdates (view : View) : List KeyValue :=
  (JsObject.entries view.drafts).filterMap (fun draft =>
    (view.secrets.find? (fun s => s.id == draft.1)).map
      (fun secret => { key := secret.key, value := draft.2 }))

/-- The calls `handleGlobalSave` awaits, in order: a `saveSecret` on the current
environment per element of `updates`, then an `updateSecretDescription` per key of
`descDrafts`.  The loops read the states `drafts`, `descDrafts` and `secrets` of the
render that created the handler, so the calls are fixed before the first one is made. -/
def globalSaveCalls (view : View) : List ApiCall :=
  (pendingUpdates view).map (fun u =>
      ApiCall.saveSecret view.projectId view.currentEnvId u.key u.value view.user)
    ++ (JsObject.entries view.descDrafts).map (fun draft =>
      ApiCall.updateSecretDescription view.projectId draft.1 draft.2)

/-- The handler `handleGlobalSave`: the stored document and the state afterwards. -/
def handleGlobalSave (draws : Nat → Draw) (db : Db) (view : View) : Db × View :=
  let secretIds := (JsObject.entries view.drafts).map (fun draft => draft.1)
  let descKeys := (JsObject.entries view.descDrafts).map (fun draft => draft.1)
  if secretIds.length == 0 && descKeys.length == 0 then (db, view)
  else
    let updates := pendingUpdates view
    match awaitEach draws 0 db (globalSaveCalls view) with
    | (db1, some message) => (db1, { view with error := some message, saving := false })
    | (db1, none) =>
      let loaded := loadSecrets db1 view
      let offered :=
        if updates.length > 0 || descKeys.length > 0 then
          { loaded with
            propagation :=
              { isOpen := true
                affectedSecrets := updates
                affectedDescriptions :=
                  some ((JsObject.entries view.descDrafts).map
                    (fun draft => { key := draft.1, value := draft.2 })) } }
        else loaded
      (db1, { offered with drafts := [], descDrafts := [], saving := false })

/-- The calls `handlePropagationConfirm` pushes: for every selected environment, in
order, a `saveSecret` per affected secret. -/
def propagationCalls (view : View) (targetEnvIds : List Id) : List ApiCall :=
  targetEnvIds.flatMap (fun envId =>
    view.propagation.affectedSecrets.map (fun a =>
      ApiCall.saveSecret view.projectId envId a.key a.value view.user))

/-- The handler `handlePropagationConfirm(targetEnvIds)`: the stored document and the state
afterwards. -/
def handlePropagationConfirm (draws : Nat → Draw) (db : Db) (view : View)
    (targetEnvIds : List Id) : Db × View :=
  if view.propagation.affectedSecrets.length == 0 then (db, view)
  else
    let settled := callEach draws 0 db (propagationCalls view targetEnvIds)
    match promiseAll settled.2 with
    | none =>
      (settled.1,
        { view with
          propagation := { view.propagation with isOpen := false }
          saving := false })
    | some message =>
      (settled.1,
        { view with error := some ("Propagation failed: " ++ message), saving := false })

/-! ## The key input of the secret form -/

/-- The characters of the class `[A-Z0-9_]`. -/
def isKeyChar (c : Char) : Bool :=
  ('A' ≤ c && c ≤ 'Z') || ('0' ≤ c && c ≤ '9') || c == '_'

/-- The test `/^[A-Z0-9_]+$/`. -/
def matchesKeyFormat (key : String) : Bool :=
  !key.toList.isEmpty && key.toList.all isKeyChar

/-- The `onChange` of the key input:
`e.target.value.toUpperCase().replace(/[^A-Z0-9_]/g, '')`; the built-in
`toUpperCase` is an argument. -/
def sanitizeKeyInput (toUpperCase : String → String) (text : String) : String :=
  String.mk ((toUpperCase text).toList.filter isKeyChar)

/-! ## Projects and members -/

/-- The object `{ ...project, environments: envs }` that `getProject` returns. -/
structure ProjectDetails where
  id : Id
  name : String
  slug : String
  description : String
  environments : List Environment
  deriving DecidableEq, Repr

/-- `api.getProject(slug, userId, isAdmin)`, local store; `none` for `null`.  `userId` is
`none` when the argument is left out; the test `!isAdmin && userId` holds for a
non-admin call with a non-empty `userId`. -/
def getProject (db : Db) (slug : String) (userId : Option Id) (isAdmin : Bool) :
    Option ProjectDetails :=
  match db.projects.find? (fun p => p.slug == slug) with
  | none => none
  | some project =>
    let envs := db.environments.filter (fun e => e.projectId == project.id)
    let shown :=
      match isAdmin, userId with
      | false, some u =>
        if u ≠ "" then
          let member := db.projectMembers.find?
            (fun m => m.projectId == project.id && m.userId == some u)
          let allowedEnvIds :=
            match member with
            | some m => m.environments
            | none => []
          envs.filter (fun e => allowedEnvIds.contains e.id)
        else envs
      | _, _ => envs
    some { id := project.id, name := project.name, slug := project.slug,
           description := project.description, environments := shown }

/-- `api.getProjects(userId, isAdmin)`, local store, for a given `userId`. -/
def getProjects (db : Db) (userId : Id) (isAdmin : Bool) : List Project :=
  if isAdmin then db.projects
  else
    let memberProjectIds :=
      (db.projectMembers.filter
        (fun m => m.userId == some userId && m.hasPermission == some true)).map
        (fun m => m.projectId)
    db.projects.filter (fun p => memberProjectIds.contains p.id)

/-- `api.addProjectMember(projectId, email, envIds)`, local store: the error thrown, or
the new document and the member returned. -/
def addProjectMember (db : Db) (now : Timestamp) (memberId auditId : Id) (projectId : Id)
    (email : String) (envIds : List Id) : Except String (Db × ProjectMember) :=
  let user := db.users.find? (fun u => u.email == email)
  let userId := user.map (fun u => u.id)
  let status :=
    match user with
    | some _ => "ACTIVE"
    | none => "INVITED"
  match db.projectMembers.find?
      (fun m => m.projectId == projectId && (m.userId == userId || m.inviteEmail == some email))
    with
  | some _ => Except.error "User is already a member of this project"
  | none =>
    let newMember : ProjectMember :=
      { id := memberId, projectId := projectId, userId := userId, inviteEmail := some email,
        environments := envIds, status := status, hasPermission := some true,
        invitedBy := none, invitedAt := now }
    let log : AuditLog :=
      { id := auditId, projectId := projectId, environmentId := none, action := "MEMBER_ADD",
        description := "Added member " ++ email, timestamp := now, performedBy := none }
    Except.ok
      ({ db with projectMembers := db.projectMembers ++ [newMember],
                 auditLogs := log :: db.auditLogs }, newMember)

/-- The text of `${member.userId || member.inviteEmail}`. -/
def memberLabel (m : ProjectMember) : String :=
  match m.userId with
  | some u => if u ≠ "" then u else m.inviteEmail.getD "undefined"
  | none => m.inviteEmail.getD "undefined"

/-- `api.updateProjectMember(projectId, memberId, envIds)`, local store. -/
def updateProjectMember (db : Db) (now : Timestamp) (auditId : Id) (projectId memberId : Id)
    (envIds : List Id) : Db × Bool :=
  match db.projectMembers.find? (fun m => m.id == memberId) with
  | some member =>
    let members :=
      updateFirst (fun m => m.id == memberId) (fun m => { m with environments := envIds })
        db.projectMembers
    let log : AuditLog :=
      { id := auditId, projectId := projectId, environmentId := none,
        action := "MEMBER_UPDATE",
        description := "Updated access for member " ++ memberLabel member,
        timestamp := now, performedBy := none }
    ({ db with projectMembers := members, auditLogs := log :: db.auditLogs }, true)
  | none => (db, true)

/-- `api.removeProjectMember(projectId, memberId)`, local store. -/
def removeProjectMember (db : Db) (now : Timestamp) (auditId : Id) (projectId memberId : Id) :
    Db × Bool :=
  match db.projectMembers.findIdx? (fun m => m.id == memberId) with
  | some idx =>
    match db.projectMembers[idx]? with
    | some member =>
      let log : AuditLog :=
        { id := auditId, projectId := projectId, environmentId := none,
          action := "MEMBER_REMOVE",
          description := "Removed member " ++ memberLabel member,
          timestamp := now, performedBy := none }
      ({ db with projectMembers := db.projectMembers.eraseIdx idx,
                 auditLogs := log :: db.auditLogs }, true)
    | none => (db, true)
  | none => (db, true)

/-- `api.getAuditLogs(projectId, envId)`, local store: the filtered copy of the log,
sorted (stably, as `Array.prototype.sort` does) with the comparator
`new Date(b.timestamp) - new Date(a.timestamp)`. -/
def getAuditLogs (db : Db) (projectId : Id) (envId : Option Id) : List AuditLog :=
  let logs := db.auditLogs.filter (fun log => log.projectId == projectId)
  let logs :=
    match envId with
    | some e => if e ≠ "" then logs.filter (fun log => log.environmentId == some e) else logs
    | none => logs
  List.insertionSort (fun a b => b.timestamp ≤ a.timestamp) logs

/-- A call of a mutating operation of the local store: one of the five operations on
secrets and registry, or one of the three on members. -/
inductive StoreOp where
  | secrets (op : Op)
  | addProjectMember (now : Timestamp) (memberId auditId : Id) (projectId : Id)
      (email : String) (envIds : List Id)
  | updateProjectMember (now : Timestamp) (auditId : Id) (projectId memberId : Id)
      (envIds : List Id)
  | removeProjectMember (now : Timestamp) (auditId : Id) (projectId memberId : Id)
  deriving DecidableEq, Repr

/-- The document after one call; a call that throws leaves it as it was. -/
def StoreOp.apply (db : Db) : StoreOp → Db
  | .secrets op => step db op
  | .addProjectMember now memberId auditId projectId email envIds =>
    match SecretsManager.addProjectMember db now memberId auditId projectId email envIds with
    | Except.ok r => r.1
    | Except.error _ => db
  | .updateProjectMember now auditId projectId memberId envIds =>
    (SecretsManager.updateProjectMember db now auditId projectId memberId envIds).1
  | .removeProjectMember now auditId projectId memberId =>
    (SecretsManager.removeProjectMember db now auditId projectId memberId).1

/-! ## The secret form and the row status -/

/-- The handler `handleSaveSecret`: the stored document and the state afterwards. -/
def handleSaveSecret (draws : Nat → Draw) (db : Db) (view : View) : Db × View :=
  if view.secretForm.key == "" || view.secretForm.value == "" then (db, view)
  else
    let calls :=
      [ApiCall.saveSecret view.projectId view.currentEnvId view.secretForm.key
        view.secretForm.value view.user]
      ++ (if view.secretForm.description ≠ "" then
            [ApiCall.updateSecretDescription view.projectId view.secretForm.key
              view.secretForm.description]
          else [])
    match awaitEach draws 0 db calls with
    | (db1, some message) => (db1, { view with error := some message, saving := false })
    | (db1, none) =>
      (db1, { loadSecrets db1 { view with isSecretModalOpen := false } with saving := false })

/-- What the expression `registry[key]` evaluates to: `undefined`, an object that
`getSecretRegistry` stored, or a member found on the prototype chain that is no such
object (a function of `Object.prototype`, `Object.prototype` itself, a string), of which
only the truthiness is recorded. -/
inductive RegistryValue where
  | undefined
  | entry (data : RegData)
  | inherited (truthy : Bool)
  deriving DecidableEq, Repr

/-- The test `if (value)`. -/
def RegistryValue.truthy : RegistryValue → Bool
  | .undefined => false
  | .entry _ => true
  | .inherited t => t

/-- The number `new Date(value.lastUpdatedAt).getTime()` of a truthy value; `none` is
`NaN`, the time of `new Date(undefined)`. -/
def RegistryValue.time : RegistryValue → Option Timestamp
  | .entry data => some data.lastUpdatedAt
  | _ => none

/-- The names of the members of `Object.prototype`. -/
def objectPrototypeNames : List String :=
  ["constructor", "__defineGetter__", "__defineSetter__", "hasOwnProperty",
   "__lookupGetter__", "__lookupSetter__", "isPrototypeOf", "propertyIsEnumerable",
   "toString", "valueOf", "__proto__", "toLocaleString"]

/-- The expression `registry[key]` on the object `getSecretRegistry` returns.  A property
of the object itself comes first.  The pair named `__proto__`, when the list has one, is
the object the assignment `registryObj["__proto__"] = ...` made the prototype: the name
`__proto__` reads it, and its two properties `lastUpdatedAt` (a non-empty string) and
`description` (a string) are inherited.  Then come the members of `Object.prototype`. -/
def registryLookup (registry : JsObject RegData) (key : String) : RegistryValue :=
  match JsObject.get registry key with
  | some data => RegistryValue.entry data
  | none =>
    match JsObject.get registry "__proto__" with
    | some proto =>
      if key = "lastUpdatedAt" then RegistryValue.inherited true
      else if key = "description" then RegistryValue.inherited (proto.description ≠ "")
      else if key ∈ objectPrototypeNames then RegistryValue.inherited true
      else RegistryValue.undefined
    | none =>
      if key ∈ objectPrototypeNames then RegistryValue.inherited true
      else RegistryValue.undefined

/-- `getSyncStatus` of `SecretRow.jsx`, on the props `secret`, `registryEntry` and
`allSecrets`.  `localTime >= globalTime` is false when `globalTime` is `NaN`. -/
def SecretRow.getSyncStatus (secret : Secret) (registryEntry : RegistryValue)
    (allSecrets : List Secret) : String :=
  if !registryEntry.truthy then "synced"
  else
    let localTime := secret.updatedAt
    let globalTime := registryEntry.time
    let notEarlier :=
      match globalTime with
      | some t => decide (localTime ≥ t)
      | none => false
    if notEarlier then "synced"
    else
      let latestSecret :=
        (List.insertionSort (fun a b : Secret => b.updatedAt ≤ a.updatedAt)
          (allSecrets.filter (fun s => s.key == secret.key))).head?
      match latestSecret with
      | some latest => if latest.value == secret.value then "synced" else "outdated"
      | none => "outdated"

/-- `getSyncStatus(secret)` of `ProjectView.jsx`, on the states `registry` and
`allSecrets`. -/
def ProjectView.getSyncStatus (view : View) (secret : Secret) : String :=
  let globalEntry := registryLookup view.registry secret.key
  if !globalEntry.truthy then "synced"
  else
    let localTime := secret.updatedAt
    let globalTime := globalEntry.time
    let notEarlier :=
      match globalTime with
      | some t => decide (localTime ≥ t)
      | none => false
    if notEarlier then "synced"
    else
      let latestSecret :=
        (List.insertionSort (fun a b : Secret => b.updatedAt ≤ a.updatedAt)
          (view.allSecrets.filter (fun s => s.key == secret.key))).head?
      match latestSecret with
      | some latest => if latest.value == secret.value then "synced" else "outdated"
      | none => "outdated"

/-! ## Vocabulary of the statements -/

/-- The watermark of `(projectId, key)` as `getSecretRegistry` reads it. -/
def watermark (db : Db) (projectId : Id) (key : String) : Option Timestamp :=
  (JsObject.get (getSecretRegistry db projectId) key).map (fun d => d.lastUpdatedAt)

/-- The evaluation has a row for `(envId, key)` and every such row carries `status`. -/
def Reports (rows : List SyncRow) (envId : Id) (key : String) (status : String) : Prop :=
  (∃ row ∈ rows, row.environment_id = envId ∧ row.key_name = key) ∧
  ∀ row ∈ rows, row.environment_id = envId → row.key_name = key → row.sync_status = status

/-- The property value `getSecretRegistry` stores for a registry entry. -/
def RegistryEntry.data (r : RegistryEntry) : RegData :=
  { lastUpdatedAt := r.lastUpdatedAt, description := r.description }

/-- The document after a sequence of calls. -/
def run (db : Db) (ops : List Op) : Db :=
  ops.foldl step db

/-- The invariant of the data model: at most one secret per
(projectId, environmentId, key). -/
def UniqueSecrets (db : Db) : Prop :=
  (db.secrets.map (fun s => (s.projectId, s.environmentId, s.key))).Nodup

/-- What the row of a pair becomes when the secret of the pair is gone. -/
def SyncRow.missing (row : SyncRow) : SyncRow :=
  { row with local_last_updated := none, value := none, sync_status := "MISSING" }

/-- The words of the specification, "the most recently updated secret in allSecrets
sharing its key": among the secrets of `allSecrets` with the key, one of greatest
`updatedAt`, the first in the list when several have it. -/
def specMostRecentlySharingKey (allSecrets : List Secret) (key : String) : Option Secret :=
  List.argmax (fun s : Secret => s.updatedAt) (allSecrets.filter (fun s => s.key == key))

/-! ## Dictionaries and the registry object -/

theorem JsObject.get_assign_self {V : Type} (o : JsObject V) (k : String) (v : V) :
    JsObject.get (JsObject.assign o k v) k = some v := by
  induction o with
  | nil => simp [JsObject.assign, JsObject.get]
  | cons h t ih =>
    obtain ⟨k0, v0⟩ := h
    by_cases hk : k0 = k
    · simp [JsObject.assign, JsObject.get, hk]
    · have ih2 := ih
      simp only [JsObject.get] at ih2 ⊢
      simp [JsObject.assign, hk, List.find?_cons, ih2]

theorem JsObject.get_assign_ne {V : Type} (o : JsObject V) (k k1 : String) (v : V)
    (h : k1 ≠ k) : JsObject.get (JsObject.assign o k v) k1 = JsObject.get o k1 := by
  induction o with
  | nil => simp [JsObject.assign, JsObject.get, List.find?_cons, Ne.symm h]
  | cons hd t ih =>
    obtain ⟨k0, v0⟩ := hd
    by_cases hk : k0 = k
    · subst hk
      simp [JsObject.assign, JsObject.get, List.find?_cons, Ne.symm h]
    · simp only [JsObject.get] at ih ⊢
      by_cases hk1 : k0 = k1
      · subst hk1
        simp [JsObject.assign, hk, List.find?_cons]
      · simp [JsObject.assign, hk, List.find?_cons, hk1, ih]

theorem JsObject.keys_assign {V : Type} (o : JsObject V) (k : String) (v : V) :
    (JsObject.assign o k v).map Prod.fst =
      if k ∈ o.map Prod.fst then o.map Prod.fst else o.map Prod.fst ++ [k] := by
  induction o with
  | nil => simp [JsObject.assign]
  | cons hd t ih =>
    obtain ⟨k0, v0⟩ := hd
    by_cases hk : k0 = k
    · simp [JsObject.assign, hk]
    · have hk2 : ¬ k = k0 := fun h => hk h.symm
      simp only [JsObject.assign, hk, if_false, List.map_cons, ih, List.mem_cons, hk2, false_or]
      split <;> simp

theorem JsObject.nodup_keys_assign {V : Type} (o : JsObject V) (k : String) (v : V)
    (h : (o.map Prod.fst).Nodup) : ((JsObject.assign o k v).map Prod.fst).Nodup := by
  rw [JsObject.keys_assign]
  split
  · exact h
  · rename_i hk
    exact List.Nodup.append h (List.nodup_singleton k) (by simpa using hk)

theorem JsObject.get_eq_some_iff {V : Type} (o : JsObject V) (h : (o.map Prod.fst).Nodup)
    (k : String) (v : V) : JsObject.get o k = some v ↔ (k, v) ∈ o := by
  induction o with
  | nil => simp [JsObject.get]
  | cons hd t ih =>
    obtain ⟨k0, v0⟩ := hd
    simp only [List.map_cons, List.nodup_cons] at h
    have ih2 := ih h.2
    simp only [JsObject.get] at ih2 ⊢
    by_cases hk : k0 = k
    · subst hk
      simp only [List.find?_cons, beq_self_eq_true, Option.map_some', Option.some.injEq,
        List.mem_cons, Prod.mk.injEq, true_and]
      constructor
      · intro e; exact Or.inl e.symm
      · rintro (e | e)
        · exact e.symm
        · exact absurd (List.mem_map_of_mem Prod.fst e) h.1
    · have hk2 : ¬ k = k0 := fun h => hk h.symm
      simp [List.find?_cons, hk, ih2, hk2]

theorem JsObject.entries_perm {V : Type} (o : JsObject V) : (JsObject.entries o).Perm o := by
  unfold JsObject.entries
  refine List.Perm.trans (List.Perm.append_right _ (List.perm_insertionSort _ _)) ?_
  exact List.filter_append_perm _ _

theorem JsObject.mem_entries {V : Type} (o : JsObject V) (p : String × V) :
    p ∈ JsObject.entries o ↔ p ∈ o :=
  (JsObject.entries_perm o).mem_iff

theorem get_foldl_assign (l : List RegistryEntry) (acc : JsObject RegData) (k : String) :
    JsObject.get
      (l.foldl (fun registryObj r => JsObject.assign registryObj r.key
        { lastUpdatedAt := r.lastUpdatedAt, description := r.description }) acc) k
      = (((l.filter (fun r => r.key == k)).getLast?).map RegistryEntry.data).or
          (JsObject.get acc k) := by
  induction l generalizing acc with
  | nil => simp
  | cons r t ih =>
    rw [List.foldl_cons, ih]
    by_cases hk : r.key = k
    · subst hk
      rw [JsObject.get_assign_self]
      simp only [List.filter_cons, beq_self_eq_true, if_true, List.getLast?_cons]
      cases h : (List.filter (fun x => x.key == r.key) t).getLast? <;>
        simp [RegistryEntry.data]
    · rw [JsObject.get_assign_ne _ _ _ _ (Ne.symm hk)]
      simp [List.filter_cons, hk]

theorem nodup_keys_foldl_assign (l : List RegistryEntry) (acc : JsObject RegData)
    (h : (acc.map Prod.fst).Nodup) :
    ((l.foldl (fun registryObj r => JsObject.assign registryObj r.key
        { lastUpdatedAt := r.lastUpdatedAt, description := r.description }) acc).map
      Prod.fst).Nodup := by
  induction l generalizing acc with
  | nil => simpa using h
  | cons r t ih =>
    rw [List.foldl_cons]
    exact ih _ (JsObject.nodup_keys_assign _ _ _ h)

theorem nodup_keys_getSecretRegistry (db : Db) (p : Id) :
    ((getSecretRegistry db p).map Prod.fst).Nodup :=
  nodup_keys_foldl_assign _ [] List.nodup_nil

theorem get_getSecretRegistry (db : Db) (p : Id) (k : String) :
    JsObject.get (getSecretRegistry db p) k =
      ((db.projectSecretRegistry.filter
        (fun r => r.projectId == p && r.key == k)).getLast?).map RegistryEntry.data := by
  unfold getSecretRegistry
  simp only []
  rw [get_foldl_assign, List.filter_filter]
  simp [JsObject.get, Bool.and_comm]

theorem mem_getEnvironmentSyncStatus (db : Db) (p : Id) (row : SyncRow) :
    row ∈ getEnvironmentSyncStatus db p ↔
      ∃ env ∈ db.environments, env.projectId = p ∧
        ∃ k d, JsObject.get (getSecretRegistry db p) k = some d ∧
          row = syncRow p (db.secrets.filter (fun s => s.projectId == p)) env k d := by
  unfold getEnvironmentSyncStatus
  simp only [List.mem_flatMap, List.mem_map, List.mem_filter, JsObject.mem_entries,
    beq_iff_eq, Prod.exists]
  constructor
  · rintro ⟨env, ⟨henv, hp⟩, k, d, hkd, rfl⟩
    exact ⟨env, henv, hp, k, d,
      (JsObject.get_eq_some_iff _ (nodup_keys_getSecretRegistry db p) k d).2 hkd, rfl⟩
  · rintro ⟨env, henv, hp, k, d, hkd, rfl⟩
    exact ⟨env, ⟨henv, hp⟩, k, d,
      (JsObject.get_eq_some_iff _ (nodup_keys_getSecretRegistry db p) k d).1 hkd, rfl⟩

theorem syncRow_environment_id (p : Id) (l : List Secret) (env : Environment) (k : String)
    (d : RegData) : (syncRow p l env k d).environment_id = env.id := rfl

theorem syncRow_key_name (p : Id) (l : List Secret) (env : Environment) (k : String)
    (d : RegData) : (syncRow p l env k d).key_name = k := rfl

/-- The status and value of a row depend on the environment through its id only. -/
theorem syncRow_congr_id (p : Id) (l : List Secret) (env1 env2 : Environment) (k : String)
    (d : RegData) (h : env1.id = env2.id) :
    (syncRow p l env1 k d).sync_status = (syncRow p l env2 k d).sync_status ∧
    (syncRow p l env1 k d).value = (syncRow p l env2 k d).value := by
  simp [syncRow, h]

/-- Every row of the evaluation for `(env.id, k)` is, in status and value, the row
computed from `env`, `k` and the registry data of `k`. -/
theorem rows_of_pair (db : Db) (p : Id) (env : Environment) (k : String) (d : RegData)
    (henv : env ∈ db.environments) (hp : env.projectId = p)
    (hd : JsObject.get (getSecretRegistry db p) k = some d) :
    (∃ row ∈ getEnvironmentSyncStatus db p, row.environment_id = env.id ∧ row.key_name = k) ∧
    ∀ row ∈ getEnvironmentSyncStatus db p, row.environment_id = env.id → row.key_name = k →
      row.sync_status =
        (syncRow p (db.secrets.filter (fun s => s.projectId == p)) env k d).sync_status ∧
      row.value = (syncRow p (db.secrets.filter (fun s => s.projectId == p)) env k d).value := by
  constructor
  · exact ⟨_, (mem_getEnvironmentSyncStatus db p _).2 ⟨env, henv, hp, k, d, hd, rfl⟩, rfl, rfl⟩
  · intro row hrow he hk
    obtain ⟨env2, _, _, k2, d2, hd2, rfl⟩ := (mem_getEnvironmentSyncStatus db p row).1 hrow
    rw [syncRow_environment_id] at he
    rw [syncRow_key_name] at hk
    subst hk
    rw [hd] at hd2
    cases hd2
    exact syncRow_congr_id p _ env2 env k2 d he

/-- A registry entry for `(p, k)` makes `k` a property of the registry object. -/
theorem get_getSecretRegistry_of_mem (db : Db) (p : Id) (k : String) (r : RegistryEntry)
    (hr : r ∈ db.projectSecretRegistry) (hp : r.projectId = p) (hk : r.key = k) :
    ∃ d, JsObject.get (getSecretRegistry db p) k = some d := by
  rw [get_getSecretRegistry]
  have hne : db.projectSecretRegistry.filter (fun r => r.projectId == p && r.key == k) ≠ [] := by
    intro h
    have : r ∈ db.projectSecretRegistry.filter (fun r => r.projectId == p && r.key == k) := by
      simp [List.mem_filter, hr, hp, hk]
    rw [h] at this
    exact List.not_mem_nil _ this
  rw [List.getLast?_eq_getLast _ hne]
  exact ⟨_, rfl⟩

/-- A property of the registry object comes from a registry entry. -/
theorem mem_of_get_getSecretRegistry (db : Db) (p : Id) (k : String) (d : RegData)
    (h : JsObject.get (getSecretRegistry db p) k = some d) :
    ∃ r ∈ db.projectSecretRegistry, r.projectId = p ∧ r.key = k := by
  rw [get_getSecretRegistry] at h
  cases hl : (db.projectSecretRegistry.filter (fun r => r.projectId == p && r.key == k)).getLast? with
  | none => rw [hl] at h; cases h
  | some r =>
    have hm := List.mem_of_getLast?_eq_some hl
    simp only [List.mem_filter, Bool.and_eq_true, beq_iff_eq] at hm
    exact ⟨r, hm.1, hm.2.1, hm.2.2⟩

/-- C1 (sync evaluator, present secret). For an environment of the project, a key with
registry entry `r` (the entry `getSecretRegistry` reports: the last one for the key) and
the secret `s` the evaluator finds for the pair, `getEnvironmentSyncStatus` has a row for
the pair, and every such row is `OUTDATED` exactly when `s.updatedAt < r.lastUpdatedAt` and
`SYNCED` exactly otherwise: the stored values do not enter.  Two environments holding the
same value can receive different statuses. -/
theorem C1_status_outdated_iff_updatedAt_lt_watermark (db : Db) (p : Id) (env : Environment)
    (k : String) (r : RegistryEntry) (s : Secret)
    (henv : env ∈ db.environments) (hp : env.projectId = p)
    (hr : (db.projectSecretRegistry.filter
            (fun r => r.projectId == p && r.key == k)).getLast? = some r)
    (hs : (db.secrets.filter (fun s => s.projectId == p)).find?
            (fun s => s.environmentId == env.id && s.key == k) = some s) :
    ((∃ row ∈ getEnvironmentSyncStatus db p, row.environment_id = env.id ∧ row.key_name = k) ∧
     ∀ row ∈ getEnvironmentSyncStatus db p, row.environment_id = env.id → row.key_name = k →
        (row.sync_status = "OUTDATED" ↔ s.updatedAt < r.lastUpdatedAt) ∧
        (row.sync_status = "SYNCED" ↔ ¬ s.updatedAt < r.lastUpdatedAt)) ∧
    (∃ (db0 : Db) (s1 s2 : Secret), s1 ∈ db0.secrets ∧ s2 ∈ db0.secrets ∧
        s1.projectId = "p1" ∧ s2.projectId = "p1" ∧ s1.key = "K" ∧ s2.key = "K" ∧
        s1.value = s2.value ∧
        Reports (getEnvironmentSyncStatus db0 "p1") s1.environmentId "K" "OUTDATED" ∧
        Reports (getEnvironmentSyncStatus db0 "p1") s2.environmentId "K" "SYNCED") := by
  have hd : JsObject.get (getSecretRegistry db p) k = some r.data := by
    rw [get_getSecretRegistry, hr]; rfl
  obtain ⟨hex, hall⟩ := rows_of_pair db p env k r.data henv hp hd
  refine ⟨⟨hex, ?_⟩, ?_⟩
  · intro row hrow he hk
    have hst := (hall row hrow he hk).1
    have hval : (syncRow p (db.secrets.filter (fun s => s.projectId == p)) env k r.data).sync_status
        = if s.updatedAt < r.lastUpdatedAt then "OUTDATED" else "SYNCED" := by
      simp only [syncRow, hs, RegistryEntry.data]
    rw [hval] at hst
    rw [hst]
    by_cases hlt : s.updatedAt < r.lastUpdatedAt
    · simp [hlt]
    · simp [hlt]
  · refine ⟨{ users := [], projects := [], 
              environments := [⟨"e1", "p1", "Development", "dev", false, none⟩,
                               ⟨"e2", "p1", "Staging", "staging", false, none⟩],
              secrets := [⟨"s1", "p1", "e1", "K", "same", 1, 100, none⟩,
                          ⟨"s2", "p1", "e2", "K", "same", 1, 200, none⟩],
              projectSecretRegistry := [⟨"r1", "p1", "K", "", 200⟩],
              projectMembers := [], auditLogs := [] },
            ⟨"s1", "p1", "e1", "K", "same", 1, 100, none⟩,
            ⟨"s2", "p1", "e2", "K", "same", 1, 200, none⟩, ?_⟩
    unfold Reports
    decide

/-- C2 (missing precedes outdated). For an environment of the project and a key that
has a registry entry while no secret of the project exists for (environment, key),
`getEnvironmentSyncStatus` has a row for the pair and every such row has status
`MISSING` and value `null`, whatever the timestamps in the registry and in the
other secrets are. -/
theorem C2_missing_when_no_secret (db : Db) (p : Id) (env : Environment) (k : String)
    (r : RegistryEntry)
    (henv : env ∈ db.environments) (hp : env.projectId = p)
    (hr : r ∈ db.projectSecretRegistry) (hrp : r.projectId = p) (hrk : r.key = k)
    (hs : ∀ s ∈ db.secrets, s.projectId = p → s.environmentId = env.id → s.key ≠ k) :
    (∃ row ∈ getEnvironmentSyncStatus db p, row.environment_id = env.id ∧ row.key_name = k) ∧
    ∀ row ∈ getEnvironmentSyncStatus db p, row.environment_id = env.id → row.key_name = k →
      row.sync_status = "MISSING" ∧ row.value = none := by
  obtain ⟨d, hd⟩ := get_getSecretRegistry_of_mem db p k r hr hrp hrk
  obtain ⟨hex, hall⟩ := rows_of_pair db p env k d henv hp hd
  refine ⟨hex, ?_⟩
  intro row hrow he hk
  have hnone : (db.secrets.filter (fun s => s.projectId == p)).find?
      (fun s => s.environmentId == env.id && s.key == k) = none := by
    rw [List.find?_eq_none]
    intro s hsmem
    simp only [List.mem_filter, beq_iff_eq] at hsmem
    have := hs s hsmem.1 hsmem.2
    simp only [Bool.and_eq_true, beq_iff_eq, not_and]
    exact this
  obtain ⟨h1, h2⟩ := hall row hrow he hk
  rw [h1, h2]
  simp only [syncRow, hnone, Option.map_none', and_self]

theorem pairs_getEnvironmentSyncStatus (db : Db) (p : Id) :
    (getEnvironmentSyncStatus db p).map (fun row => (row.environment_id, row.key_name)) =
      List.product ((db.environments.filter (fun e => e.projectId == p)).map (fun e => e.id))
        ((JsObject.entries (getSecretRegistry db p)).map Prod.fst) := by
  unfold getEnvironmentSyncStatus List.product
  simp only [List.map_flatMap, List.flatMap_map, List.map_map]
  rfl

theorem nodup_pairs_getEnvironmentSyncStatus (db : Db) (p : Id)
    (hids : ((db.environments.filter (fun e => e.projectId == p)).map (fun e => e.id)).Nodup) :
    ((getEnvironmentSyncStatus db p).map
      (fun row => (row.environment_id, row.key_name))).Nodup := by
  rw [pairs_getEnvironmentSyncStatus]
  refine List.Nodup.product hids ?_
  exact ((JsObject.entries_perm _).map Prod.fst).nodup_iff.2 (nodup_keys_getSecretRegistry db p)

theorem countP_eq_one_of_nodup_map {α β : Type} [DecidableEq β] (f : α → β) (x : β) :
    ∀ (l : List α), (l.map f).Nodup → (∃ a ∈ l, f a = x) →
      l.countP (fun b => decide (f b = x)) = 1
  | [], _, h => by obtain ⟨a, ha, _⟩ := h; cases ha
  | hd :: t, hn, h => by
    rw [List.map_cons, List.nodup_cons] at hn
    by_cases hx : f hd = x
    · have hz : t.countP (fun b => decide (f b = x)) = 0 := by
        rw [List.countP_eq_zero]
        intro b hb hfb
        simp only [decide_eq_true_eq] at hfb
        exact hn.1 (by rw [hx, ← hfb]; exact List.mem_map_of_mem f hb)
      simp [List.countP_cons, hx, hz]
    · obtain ⟨a, ha, hfa⟩ := h
      rcases List.mem_cons.1 ha with rfl | ha
      · exact absurd hfa hx
      · have ih := countP_eq_one_of_nodup_map f x t hn.2 ⟨a, ha, hfa⟩
        simp [List.countP_cons, hx, ih]

theorem countP_pair_eq (rows : List SyncRow) (e : Id) (k : String) :
    rows.countP (fun row => row.environment_id == e && row.key_name == k) =
      rows.countP (fun row => decide ((row.environment_id, row.key_name) = (e, k))) := by
  congr 1
  funext row
  rw [Bool.eq_iff_iff]
  simp

/-- C3 (classification totality). When the environments of the project have distinct
ids, `getEnvironmentSyncStatus` returns exactly one row for every pair of an environment
of the project and a key with a registry entry in the project, the key being a
data-property name (any name but `__proto__`, which `registryObj[r.key] = ...` does
not create as a property); it returns no row for a pair that is not of an environment
of the project and a key with a registry entry in the project, and every row carries
one of `SYNCED`, `OUTDATED`, `MISSING`. -/
theorem C3_one_row_per_environment_and_registry_key (db : Db) (p : Id)
    (hids : ((db.environments.filter (fun e => e.projectId == p)).map (fun e => e.id)).Nodup) :
    (∀ (e : Id) (k : String), k ≠ "__proto__" →
      (∃ env ∈ db.environments, env.projectId = p ∧ env.id = e) →
      (∃ r ∈ db.projectSecretRegistry, r.projectId = p ∧ r.key = k) →
      (getEnvironmentSyncStatus db p).countP
        (fun row => row.environment_id == e && row.key_name == k) = 1) ∧
    (∀ (e : Id) (k : String),
      ¬ ((∃ env ∈ db.environments, env.projectId = p ∧ env.id = e) ∧
         (∃ r ∈ db.projectSecretRegistry, r.projectId = p ∧ r.key = k)) →
      (getEnvironmentSyncStatus db p).countP
        (fun row => row.environment_id == e && row.key_name == k) = 0) ∧
    (∀ row ∈ getEnvironmentSyncStatus db p,
      row.sync_status = "SYNCED" ∨ row.sync_status = "OUTDATED" ∨
        row.sync_status = "MISSING") := by
  refine ⟨?_, ?_, ?_⟩
  · rintro e k _ ⟨env, henv, hp, rfl⟩ ⟨r, hr, hrp, hrk⟩
    obtain ⟨d, hd⟩ := get_getSecretRegistry_of_mem db p k r hr hrp hrk
    obtain ⟨⟨row, hrow, he, hk⟩, _⟩ := rows_of_pair db p env k d henv hp hd
    rw [countP_pair_eq]
    exact countP_eq_one_of_nodup_map _ _ _ (nodup_pairs_getEnvironmentSyncStatus db p hids)
      ⟨row, hrow, by rw [he, hk]⟩
  · intro e k hnot
    rw [List.countP_eq_zero]
    intro row hrow hpair
    simp only [Bool.and_eq_true, beq_iff_eq] at hpair
    obtain ⟨env, henv, hp, k2, d, hd, rfl⟩ := (mem_getEnvironmentSyncStatus db p row).1 hrow
    rw [syncRow_environment_id, syncRow_key_name] at hpair
    obtain ⟨he, hk⟩ := hpair
    subst hk
    exact hnot ⟨⟨env, henv, hp, he⟩, mem_of_get_getSecretRegistry db p k2 d hd⟩
  · intro row hrow
    obtain ⟨env, _, _, k, d, _, rfl⟩ := (mem_getEnvironmentSyncStatus db p row).1 hrow
    simp only [syncRow]
    split
    · exact Or.inr (Or.inr rfl)
    · split
      · exact Or.inr (Or.inl rfl)
      · exact Or.inl rfl

/-! ## In-place updates -/

theorem length_updateFirst {α : Type} (p : α → Bool) (f : α → α) (l : List α) :
    (updateFirst p f l).length = l.length := by
  induction l with
  | nil => rfl
  | cons a t ih => by_cases h : p a <;> simp [updateFirst, h, ih]

theorem updateFirst_of_find?_eq_none {α : Type} (p : α → Bool) (f : α → α) (l : List α)
    (h : l.find? p = none) : updateFirst p f l = l := by
  induction l with
  | nil => rfl
  | cons a t ih =>
    by_cases hp : p a
    · simp [List.find?_cons, hp] at h
    · simp only [List.find?_cons, hp] at h
      simp [updateFirst, hp, ih h]

/-- The update replaces the element `find` returns, at its position. -/
theorem updateFirst_eq_set {α : Type} (p : α → Bool) (f : α → α) (l : List α) (a : α)
    (h : l.find? p = some a) :
    ∃ i, l[i]? = some a ∧ updateFirst p f l = l.set i (f a) := by
  induction l with
  | nil => cases h
  | cons b t ih =>
    by_cases hp : p b
    · simp only [List.find?_cons, hp, Option.some.injEq] at h
      subst h
      exact ⟨0, by simp, by simp [updateFirst, hp]⟩
    · simp only [List.find?_cons, hp] at h
      obtain ⟨i, hi, hset⟩ := ih h
      exact ⟨i + 1, by simpa using hi, by simp [updateFirst, hp, hset]⟩

theorem find?_updateFirst_self {α : Type} (p : α → Bool) (f : α → α) (l : List α)
    (hf : ∀ a, p a = true → p (f a) = true) :
    (updateFirst p f l).find? p = (l.find? p).map f := by
  induction l with
  | nil => rfl
  | cons a t ih =>
    by_cases hp : p a
    · simp [updateFirst, List.find?_cons, hp, hf a hp]
    · simp [updateFirst, List.find?_cons, hp, ih]

theorem find?_updateFirst_of_disjoint {α : Type} (p q : α → Bool) (f : α → α) (l : List α)
    (hf : ∀ a, q (f a) = q a) (hd : ∀ a, p a = true → q a = false) :
    (updateFirst p f l).find? q = l.find? q := by
  induction l with
  | nil => rfl
  | cons a t ih =>
    by_cases hp : p a
    · simp [updateFirst, List.find?_cons, hp, hf a, hd a hp]
    · simp [updateFirst, List.find?_cons, hp, ih]

theorem filter_updateFirst_self {α : Type} (p : α → Bool) (f : α → α) (l : List α)
    (hf : ∀ a, p a = true → p (f a) = true) :
    (updateFirst p f l).filter p =
      match l.filter p with
      | [] => []
      | a :: t => f a :: t := by
  induction l with
  | nil => rfl
  | cons a t ih =>
    by_cases hp : p a
    · simp [updateFirst, List.filter_cons, hp, hf a hp]
    · simp [updateFirst, List.filter_cons, hp, ih]

theorem filter_updateFirst_of_disjoint {α : Type} (p q : α → Bool) (f : α → α) (l : List α)
    (hf : ∀ a, q (f a) = q a) (hd : ∀ a, p a = true → q a = false) :
    (updateFirst p f l).filter q = l.filter q := by
  induction l with
  | nil => rfl
  | cons a t ih =>
    by_cases hp : p a
    · simp [updateFirst, List.filter_cons, hp, hf a, hd a hp]
    · by_cases hq : q a <;> simp [updateFirst, List.filter_cons, hp, hq, ih]

theorem map_updateFirst_of_invariant {α β : Type} (p : α → Bool) (f : α → α) (g : α → β)
    (l : List α) (hg : ∀ a, g (f a) = g a) : (updateFirst p f l).map g = l.map g := by
  induction l with
  | nil => rfl
  | cons a t ih => by_cases hp : p a <;> simp [updateFirst, hp, hg, ih]

theorem find?_eq_head?_filter {α : Type} (p : α → Bool) (l : List α) :
    l.find? p = (l.filter p).head? := by
  induction l with
  | nil => rfl
  | cons a t ih =>
    by_cases hp : p a
    · simp [List.find?_cons, List.filter_cons, hp]
    · rw [List.find?_cons_of_neg _ hp, List.filter_cons_of_neg hp, ih]

/-! ## Effect of `saveSecret` -/

theorem saveSecret_environments (db : Db) (now : Timestamp) (ids : SaveIds) (p e : Id)
    (k v : String) (u : Option User) :
    (saveSecret db now ids p e k v u).1.environments = db.environments := rfl

/-- The registry entries of the written `(p, k)` after `saveSecret`. -/
theorem saveSecret_registry_filter_self (db : Db) (now : Timestamp) (ids : SaveIds) (p e : Id)
    (k v : String) (u : Option User) :
    (saveSecret db now ids p e k v u).1.projectSecretRegistry.filter
        (fun r => r.projectId == p && r.key == k) =
      match db.projectSecretRegistry.filter (fun r => r.projectId == p && r.key == k) with
      | [] => [{ id := ids.registryId, projectId := p, key := k, description := "",
                 lastUpdatedAt := now }]
      | r :: t => { r with lastUpdatedAt := now } :: t := by
  have hfind := find?_eq_head?_filter (fun r : RegistryEntry => r.projectId == p && r.key == k)
    db.projectSecretRegistry
  simp only [saveSecret]
  cases hfl : db.projectSecretRegistry.filter (fun r => r.projectId == p && r.key == k) with
  | nil =>
    rw [hfl] at hfind
    simp only [List.head?_nil] at hfind
    rw [hfind]
    simp [List.filter_append, hfl]
  | cons r t =>
    rw [hfl] at hfind
    simp only [List.head?_cons] at hfind
    rw [hfind]
    simp only []
    refine (filter_updateFirst_self _ _ _ ?_).trans ?_
    · intro a ha; exact ha
    · rw [hfl]

/-- The registry entries of any other `(p2, k2)` are untouched by `saveSecret`. -/
theorem saveSecret_registry_filter_other (db : Db) (now : Timestamp) (ids : SaveIds) (p e : Id)
    (k v : String) (u : Option User) (p2 : Id) (k2 : String) (hne : ¬ (p2 = p ∧ k2 = k)) :
    (saveSecret db now ids p e k v u).1.projectSecretRegistry.filter
        (fun r => r.projectId == p2 && r.key == k2) =
      db.projectSecretRegistry.filter (fun r => r.projectId == p2 && r.key == k2) := by
  have hd : ∀ a : RegistryEntry, (a.projectId == p && a.key == k) = true →
      (a.projectId == p2 && a.key == k2) = false := by
    intro a ha
    simp only [Bool.and_eq_true, beq_iff_eq] at ha
    rw [Bool.eq_false_iff]
    simp only [ne_eq, Bool.and_eq_true, beq_iff_eq, not_and]
    intro h1 h2
    exact hne ⟨by rw [← h1, ha.1], by rw [← h2, ha.2]⟩
  simp only [saveSecret]
  cases hf : db.projectSecretRegistry.find? (fun r => r.projectId == p && r.key == k) with
  | none =>
    simp only [List.filter_append, List.filter_cons, List.filter_nil]
    have : ¬ ((p == p2 && k == k2) = true) := by
      simp only [Bool.and_eq_true, beq_iff_eq, not_and]
      intro h1 h2
      exact hne ⟨h1.symm, h2.symm⟩
    simp [this]
  | some r =>
    exact filter_updateFirst_of_disjoint _ _ _ _ (fun a => rfl) hd

/-- The secrets of the written triple after `saveSecret`. -/
theorem saveSecret_secrets_filter_self (db : Db) (now : Timestamp) (ids : SaveIds) (p e : Id)
    (k v : String) (u : Option User) :
    (saveSecret db now ids p e k v u).1.secrets.filter
        (fun s => s.projectId == p && s.environmentId == e && s.key == k) =
      match db.secrets.filter
          (fun s => s.projectId == p && s.environmentId == e && s.key == k) with
      | [] => [{ id := ids.secretId, projectId := p, environmentId := e, key := k, value := v,
                 version := 1, updatedAt := now, lastChangedBy := some (userEmail u) }]
      | s :: t => { s with value := v, updatedAt := now,
                           version := roundToDouble (s.version + 1),
                           lastChangedBy := some (userEmail u) } :: t := by
  have hfind := find?_eq_head?_filter
    (fun s : Secret => s.projectId == p && s.environmentId == e && s.key == k) db.secrets
  simp only [saveSecret]
  cases hfl : db.secrets.filter
      (fun s => s.projectId == p && s.environmentId == e && s.key == k) with
  | nil =>
    rw [hfl] at hfind
    simp only [List.head?_nil] at hfind
    rw [hfind]
    simp [List.filter_append, hfl]
  | cons s t =>
    rw [hfl] at hfind
    simp only [List.head?_cons] at hfind
    rw [hfind]
    simp only []
    refine (filter_updateFirst_self _ _ _ ?_).trans ?_
    · intro a ha; exact ha
    · rw [hfl]

/-- The secrets of any other triple are untouched by `saveSecret`. -/
theorem saveSecret_secrets_filter_other (db : Db) (now : Timestamp) (ids : SaveIds) (p e : Id)
    (k v : String) (u : Option User) (p2 e2 : Id) (k2 : String)
    (hne : ¬ (p2 = p ∧ e2 = e ∧ k2 = k)) :
    (saveSecret db now ids p e k v u).1.secrets.filter
        (fun s => s.projectId == p2 && s.environmentId == e2 && s.key == k2) =
      db.secrets.filter (fun s => s.projectId == p2 && s.environmentId == e2 && s.key == k2) := by
  have hd : ∀ a : Secret, (a.projectId == p && a.environmentId == e && a.key == k) = true →
      (a.projectId == p2 && a.environmentId == e2 && a.key == k2) = false := by
    intro a ha
    simp only [Bool.and_eq_true, beq_iff_eq] at ha
    rw [Bool.eq_false_iff]
    simp only [ne_eq, Bool.and_eq_true, beq_iff_eq, not_and]
    rintro ⟨h1, h2⟩ h3
    exact hne ⟨by rw [← h1, ha.1.1], by rw [← h2, ha.1.2], by rw [← h3, ha.2]⟩
  simp only [saveSecret]
  cases hf : db.secrets.find?
      (fun s => s.projectId == p && s.environmentId == e && s.key == k) with
  | none =>
    simp only [List.filter_append, List.filter_cons, List.filter_nil]
    have : ¬ ((p == p2 && e == e2 && k == k2) = true) := by
      simp only [Bool.and_eq_true, beq_iff_eq, not_and]
      rintro ⟨h1, h2⟩ h3
      exact hne ⟨h1.symm, h2.symm, h3.symm⟩
    simp [this]
  | some r =>
    exact filter_updateFirst_of_disjoint _ _ _ _ (fun a => rfl) hd

/-! ## The evaluation in terms of the stored lists -/

theorem watermark_eq (db : Db) (p : Id) (k : String) :
    watermark db p k =
      ((db.projectSecretRegistry.filter
        (fun r => r.projectId == p && r.key == k)).getLast?).map (fun r => r.lastUpdatedAt) := by
  unfold watermark
  rw [get_getSecretRegistry, Option.map_map]
  rfl

/-- The secret the evaluator looks up is the first stored secret of the triple. -/
theorem find?_allSecrets_eq (db : Db) (p e : Id) (k : String) :
    (db.secrets.filter (fun s => s.projectId == p)).find?
        (fun s => s.environmentId == e && s.key == k) =
      (db.secrets.filter
        (fun s => s.projectId == p && s.environmentId == e && s.key == k)).head? := by
  rw [List.find?_filter, find?_eq_head?_filter]
  congr 2
  funext s
  rw [Bool.eq_iff_iff]
  simp [and_assoc]

/-- The status reported for an environment of the project and a key of the
registry, from the stored registry entries and secrets of the pair. -/
theorem reports_of_stored (db : Db) (p : Id) (env : Environment) (k : String) (r : RegistryEntry)
    (henv : env ∈ db.environments) (hp : env.projectId = p)
    (hr : (db.projectSecretRegistry.filter
            (fun r => r.projectId == p && r.key == k)).getLast? = some r) :
    Reports (getEnvironmentSyncStatus db p) env.id k
      (match (db.secrets.filter
          (fun s => s.projectId == p && s.environmentId == env.id && s.key == k)).head? with
       | none => "MISSING"
       | some s => if s.updatedAt < r.lastUpdatedAt then "OUTDATED" else "SYNCED") := by
  have hd : JsObject.get (getSecretRegistry db p) k = some r.data := by
    rw [get_getSecretRegistry, hr]; rfl
  obtain ⟨hex, hall⟩ := rows_of_pair db p env k r.data henv hp hd
  refine ⟨hex, ?_⟩
  intro row hrow he hk
  rw [(hall row hrow he hk).1]
  simp only [syncRow, find?_allSecrets_eq, RegistryEntry.data]

theorem filter_eq_nil_of_forall {α : Type} (q : α → Bool) (l : List α)
    (h : ∀ a ∈ l, q a = false) : l.filter q = [] := by
  rw [List.filter_eq_nil_iff]
  intro a ha
  rw [h a ha]
  exact Bool.false_ne_true

/-- C4 (scenario). In a project with environments `e1`, `e2`, `e3` (distinct ids) that has
no secret and no registry entry for key `K`: after `saveSecret(e1, K, v1)` at `T1` the
watermark of `K` is `T1` and the evaluation gives `e1 = SYNCED`, `e2 = MISSING`,
`e3 = MISSING`; after then `saveSecret(e2, K, v2)` at `T2 > T1` the watermark is `T2` and
the evaluation gives `e1 = OUTDATED`, `e2 = SYNCED`, `e3 = MISSING`; after then
`saveSecret(e1, K, v2)` at `T3 ≥ T2` the one secret of `(e1, K)` has value `v2` and
`updatedAt = T3`, and `e1` evaluates to `SYNCED`. -/
theorem C4_scenario_write_write_propagate (db : Db) (p : Id) (e1 e2 e3 : Environment)
    (K v1 v2 : String) (T1 T2 T3 : Timestamp) (i1 i2 i3 : SaveIds) (u1 u2 u3 : Option User)
    (h1 : e1 ∈ db.environments) (h2 : e2 ∈ db.environments) (h3 : e3 ∈ db.environments)
    (hp1 : e1.projectId = p) (hp2 : e2.projectId = p) (hp3 : e3.projectId = p)
    (h12 : e1.id ≠ e2.id) (h13 : e1.id ≠ e3.id) (h23 : e2.id ≠ e3.id)
    (hnosec : ∀ s ∈ db.secrets, s.projectId = p → s.key ≠ K)
    (hnoreg : ∀ r ∈ db.projectSecretRegistry, r.projectId = p → r.key ≠ K)
    (hT12 : T1 < T2) (_hT23 : T2 ≤ T3) :
    (watermark (saveSecret db T1 i1 p e1.id K v1 u1).1 p K = some T1 ∧
     Reports (getEnvironmentSyncStatus (saveSecret db T1 i1 p e1.id K v1 u1).1 p)
       e1.id K "SYNCED" ∧
     Reports (getEnvironmentSyncStatus (saveSecret db T1 i1 p e1.id K v1 u1).1 p)
       e2.id K "MISSING" ∧
     Reports (getEnvironmentSyncStatus (saveSecret db T1 i1 p e1.id K v1 u1).1 p)
       e3.id K "MISSING") ∧
    (watermark (saveSecret (saveSecret db T1 i1 p e1.id K v1 u1).1
        T2 i2 p e2.id K v2 u2).1 p K = some T2 ∧
     Reports (getEnvironmentSyncStatus (saveSecret (saveSecret db T1 i1 p e1.id K v1 u1).1
        T2 i2 p e2.id K v2 u2).1 p) e1.id K "OUTDATED" ∧
     Reports (getEnvironmentSyncStatus (saveSecret (saveSecret db T1 i1 p e1.id K v1 u1).1
        T2 i2 p e2.id K v2 u2).1 p) e2.id K "SYNCED" ∧
     Reports (getEnvironmentSyncStatus (saveSecret (saveSecret db T1 i1 p e1.id K v1 u1).1
        T2 i2 p e2.id K v2 u2).1 p) e3.id K "MISSING") ∧
    ((∃ s, (saveSecret (saveSecret (saveSecret db T1 i1 p e1.id K v1 u1).1
          T2 i2 p e2.id K v2 u2).1 T3 i3 p e1.id K v2 u3).1.secrets.filter
          (fun s => s.projectId == p && s.environmentId == e1.id && s.key == K) = [s] ∧
        s.value = v2 ∧ s.updatedAt = T3) ∧
     Reports (getEnvironmentSyncStatus (saveSecret (saveSecret (saveSecret db T1 i1 p e1.id K
        v1 u1).1 T2 i2 p e2.id K v2 u2).1 T3 i3 p e1.id K v2 u3).1 p) e1.id K "SYNCED") := by
  have hR0 : db.projectSecretRegistry.filter (fun r => r.projectId == p && r.key == K) = [] := by
    apply filter_eq_nil_of_forall
    intro r hr
    rw [Bool.eq_false_iff]
    simp only [ne_eq, Bool.and_eq_true, beq_iff_eq, not_and]
    exact hnoreg r hr
  have hS0 : ∀ e : Id, db.secrets.filter
      (fun s => s.projectId == p && s.environmentId == e && s.key == K) = [] := by
    intro e
    apply filter_eq_nil_of_forall
    intro s hs
    rw [Bool.eq_false_iff]
    simp only [ne_eq, Bool.and_eq_true, beq_iff_eq, not_and]
    intro hsp
    exact hnosec s hs hsp.1
  -- first write
  have hR1 := saveSecret_registry_filter_self db T1 i1 p e1.id K v1 u1
  rw [hR0] at hR1
  have hS1a := saveSecret_secrets_filter_self db T1 i1 p e1.id K v1 u1
  rw [hS0] at hS1a
  have hS1b := saveSecret_secrets_filter_other db T1 i1 p e1.id K v1 u1 p e2.id K
    (fun h => h12 h.2.1.symm)
  rw [hS0] at hS1b
  have hS1c := saveSecret_secrets_filter_other db T1 i1 p e1.id K v1 u1 p e3.id K
    (fun h => h13 h.2.1.symm)
  rw [hS0] at hS1c
  -- second write
  have hR2 := saveSecret_registry_filter_self (saveSecret db T1 i1 p e1.id K v1 u1).1
    T2 i2 p e2.id K v2 u2
  rw [hR1] at hR2
  have hS2b := saveSecret_secrets_filter_self (saveSecret db T1 i1 p e1.id K v1 u1).1
    T2 i2 p e2.id K v2 u2
  rw [hS1b] at hS2b
  have hS2a := saveSecret_secrets_filter_other (saveSecret db T1 i1 p e1.id K v1 u1).1
    T2 i2 p e2.id K v2 u2 p e1.id K (fun h => h12 h.2.1)
  rw [hS1a] at hS2a
  have hS2c := saveSecret_secrets_filter_other (saveSecret db T1 i1 p e1.id K v1 u1).1
    T2 i2 p e2.id K v2 u2 p e3.id K (fun h => h23 h.2.1.symm)
  rw [hS1c] at hS2c
  -- third write
  have hR3 := saveSecret_registry_filter_self
    (saveSecret (saveSecret db T1 i1 p e1.id K v1 u1).1 T2 i2 p e2.id K v2 u2).1
    T3 i3 p e1.id K v2 u3
  rw [hR2] at hR3
  have hS3a := saveSecret_secrets_filter_self
    (saveSecret (saveSecret db T1 i1 p e1.id K v1 u1).1 T2 i2 p e2.id K v2 u2).1
    T3 i3 p e1.id K v2 u3
  rw [hS2a] at hS3a
  simp only [] at hR1 hR2 hR3 hS1a hS2b hS3a
  refine ⟨⟨?_, ?_, ?_, ?_⟩, ⟨?_, ?_, ?_, ?_⟩, ⟨?_, ?_⟩⟩
  · rw [watermark_eq, hR1]; rfl
  · have h := reports_of_stored (saveSecret db T1 i1 p e1.id K v1 u1).1 p e1 K _ h1 hp1
      (by rw [hR1]; rfl)
    rw [hS1a] at h
    simpa using h
  · have h := reports_of_stored (saveSecret db T1 i1 p e1.id K v1 u1).1 p e2 K _ h2 hp2
      (by rw [hR1]; rfl)
    rw [hS1b] at h
    simpa using h
  · have h := reports_of_stored (saveSecret db T1 i1 p e1.id K v1 u1).1 p e3 K _ h3 hp3
      (by rw [hR1]; rfl)
    rw [hS1c] at h
    simpa using h
  · rw [watermark_eq, hR2]; rfl
  · have h := reports_of_stored
      (saveSecret (saveSecret db T1 i1 p e1.id K v1 u1).1 T2 i2 p e2.id K v2 u2).1 p e1 K _
      h1 hp1 (by rw [hR2]; rfl)
    rw [hS2a] at h
    simpa [hT12] using h
  · have h := reports_of_stored
      (saveSecret (saveSecret db T1 i1 p e1.id K v1 u1).1 T2 i2 p e2.id K v2 u2).1 p e2 K _
      h2 hp2 (by rw [hR2]; rfl)
    rw [hS2b] at h
    simpa using h
  · have h := reports_of_stored
      (saveSecret (saveSecret db T1 i1 p e1.id K v1 u1).1 T2 i2 p e2.id K v2 u2).1 p e3 K _
      h3 hp3 (by rw [hR2]; rfl)
    rw [hS2c] at h
    simpa using h
  · exact ⟨_, hS3a, rfl, rfl⟩
  · have h := reports_of_stored
      (saveSecret (saveSecret (saveSecret db T1 i1 p e1.id K v1 u1).1 T2 i2 p e2.id K v2 u2).1
        T3 i3 p e1.id K v2 u3).1 p e1 K _ h1 hp1 (by rw [hR3]; rfl)
    rw [hS3a] at h
    simpa using h

/-- The integers up to `2 ^ 53` are doubles. -/
theorem roundToDouble_of_le (n : Nat) (h : n ≤ 9007199254740992) : roundToDouble n = n := by
  rw [roundToDouble, if_pos h]

/-- One more than `2 ^ 53` is no double: the sum `2 ^ 53 + 1` is `2 ^ 53`, and
`2 ^ 53 + 2 + 1` is `2 ^ 53 + 4`. -/
theorem roundToDouble_above_two_pow_53 :
    roundToDouble (9007199254740992 + 1) = 9007199254740992 ∧
    roundToDouble (9007199254740994 + 1) = 9007199254740996 := by
  decide

/-- C5 (secret upsert). `saveSecret` on the local store upserts the secret of the triple
(project, environment, key).  If `find` returns a secret `s` for the triple, it is
replaced at its position by `s` with the new value, `updatedAt = now`,
`lastChangedBy` = the actor label and `version` the JavaScript number
`s.version + 1` (same id; no comparison with the stored value is made), which is
exactly one greater than `s.version` while `s.version` is below `2 ^ 53`; if there is
none, a secret with `version = 1`, the given value and `updatedAt = now` is appended.
In both cases the secret returned is the one stored for the triple. -/
theorem C5_saveSecret_upserts_secret (db : Db) (now : Timestamp) (ids : SaveIds) (p e : Id)
    (k v : String) (u : Option User) :
    (∀ s, db.secrets.find?
        (fun s => s.projectId == p && s.environmentId == e && s.key == k) = some s →
      (saveSecret db now ids p e k v u).2 =
        { id := s.id, projectId := s.projectId, environmentId := s.environmentId,
          key := s.key, value := v, version := roundToDouble (s.version + 1),
          updatedAt := now, lastChangedBy := some (userEmail u) } ∧
      (s.version < 9007199254740992 →
        (saveSecret db now ids p e k v u).2.version = s.version + 1) ∧
      ∃ i, db.secrets[i]? = some s ∧
        (saveSecret db now ids p e k v u).1.secrets =
          db.secrets.set i (saveSecret db now ids p e k v u).2) ∧
    (db.secrets.find?
        (fun s => s.projectId == p && s.environmentId == e && s.key == k) = none →
      (saveSecret db now ids p e k v u).2 =
        { id := ids.secretId, projectId := p, environmentId := e, key := k, value := v,
          version := 1, updatedAt := now, lastChangedBy := some (userEmail u) } ∧
      (saveSecret db now ids p e k v u).1.secrets =
        db.secrets ++ [(saveSecret db now ids p e k v u).2]) ∧
    (saveSecret db now ids p e k v u).1.secrets.find?
        (fun s => s.projectId == p && s.environmentId == e && s.key == k) =
      some (saveSecret db now ids p e k v u).2 := by
  refine ⟨?_, ?_, ?_⟩
  · intro s hs
    have hret : (saveSecret db now ids p e k v u).2 =
        { id := s.id, projectId := s.projectId, environmentId := s.environmentId,
          key := s.key, value := v, version := roundToDouble (s.version + 1),
          updatedAt := now, lastChangedBy := some (userEmail u) } := by
      simp only [saveSecret, hs]
    refine ⟨hret, ?_, ?_⟩
    · intro hlt
      rw [hret]
      exact roundToDouble_of_le _ (by omega)
    simp only [saveSecret, hs]
    exact updateFirst_eq_set _ _ _ s hs
  · intro hs
    exact ⟨by simp only [saveSecret, hs], by simp only [saveSecret, hs]⟩
  · cases hs : db.secrets.find?
        (fun s => s.projectId == p && s.environmentId == e && s.key == k) with
    | none =>
      simp only [saveSecret, hs]
      rw [List.find?_append, hs]
      simp
    | some s =>
      simp only [saveSecret, hs]
      refine (find?_updateFirst_self _ _ _ ?_).trans ?_
      · intro a ha; exact ha
      · rw [hs]; rfl

/-- C6 (registry write of `saveSecret`). Every `saveSecret(project, env, key, ...)` on the
local store writes the registry entry of (project, key): if `find` returns none, an entry
with empty description and `lastUpdatedAt = now` is appended; if it returns an entry `r`,
that entry is replaced at its position by `r` with `lastUpdatedAt = now`, its description
(and id, project, key) exactly as before, and no other entry changes. -/
theorem C6_saveSecret_writes_registry (db : Db) (now : Timestamp) (ids : SaveIds) (p e : Id)
    (k v : String) (u : Option User) :
    (db.projectSecretRegistry.find? (fun r => r.projectId == p && r.key == k) = none →
      (saveSecret db now ids p e k v u).1.projectSecretRegistry =
        db.projectSecretRegistry ++
          [{ id := ids.registryId, projectId := p, key := k, description := "",
             lastUpdatedAt := now }]) ∧
    (∀ r, db.projectSecretRegistry.find? (fun r => r.projectId == p && r.key == k) = some r →
      (∃ i, db.projectSecretRegistry[i]? = some r ∧
        (saveSecret db now ids p e k v u).1.projectSecretRegistry =
          db.projectSecretRegistry.set i
            { id := r.id, projectId := r.projectId, key := r.key,
              description := r.description, lastUpdatedAt := now }) ∧
      (saveSecret db now ids p e k v u).1.projectSecretRegistry.find?
          (fun r => r.projectId == p && r.key == k) =
        some { id := r.id, projectId := r.projectId, key := r.key,
               description := r.description, lastUpdatedAt := now }) := by
  refine ⟨?_, ?_⟩
  · intro hr
    simp only [saveSecret, hr]
  · intro r hr
    simp only [saveSecret, hr]
    refine ⟨updateFirst_eq_set _ _ _ r hr, ?_⟩
    refine (find?_updateFirst_self _ _ _ ?_).trans ?_
    · intro a ha; exact ha
    · rw [hr]; rfl

/-! ## Descriptions do not enter the statuses -/

theorem JsObject.assign_map {V W : Type} (g : V → W) (o : JsObject V) (k : String) (v : V) :
    (JsObject.assign o k v).map (Prod.map id g) =
      JsObject.assign (o.map (Prod.map id g)) k (g v) := by
  induction o with
  | nil => rfl
  | cons hd t ih =>
    obtain ⟨k0, v0⟩ := hd
    by_cases hk : k0 = k
    · simp [JsObject.assign, hk]
    · simp [JsObject.assign, hk, ih]

theorem JsObject.entries_map {V W : Type} (g : V → W) (o : JsObject V) :
    JsObject.entries (o.map (Prod.map id g)) = (JsObject.entries o).map (Prod.map id g) := by
  unfold JsObject.entries
  rw [List.map_append, List.filter_map, List.filter_map]
  congr 1
  exact (List.map_insertionSort _ _ (Prod.map id g) _ (fun a _ b _ => Iff.rfl)).symm

/-- The registry object with its descriptions blanked is determined by the keys and
watermarks of the project's registry entries, in order. -/
theorem map_foldl_assign_blank (l : List RegistryEntry) (acc : JsObject RegData) :
    (l.foldl (fun registryObj r => JsObject.assign registryObj r.key
        { lastUpdatedAt := r.lastUpdatedAt, description := r.description }) acc).map
      (Prod.map id (fun d : RegData => { d with description := "" })) =
    (l.map (fun r => (r.key, r.lastUpdatedAt))).foldl
      (fun o (x : String × Timestamp) =>
        JsObject.assign o x.1 { lastUpdatedAt := x.2, description := "" })
      (acc.map (Prod.map id (fun d : RegData => { d with description := "" }))) := by
  induction l generalizing acc with
  | nil => rfl
  | cons r t ih =>
    rw [List.foldl_cons, ih, JsObject.assign_map]
    rfl

theorem map_filter_updateFirst {α β : Type} (p q : α → Bool) (f : α → α) (g : α → β)
    (l : List α) (hq : ∀ a, q (f a) = q a) (hg : ∀ a, g (f a) = g a) :
    ((updateFirst p f l).filter q).map g = (l.filter q).map g := by
  induction l with
  | nil => rfl
  | cons a t ih =>
    by_cases hp : p a
    · by_cases hqa : q a <;> simp [updateFirst, List.filter_cons, hp, hq a, hqa, hg a]
    · by_cases hqa : q a <;> simp [updateFirst, List.filter_cons, hp, hqa, ih]

theorem syncRow_blank (q : Id) (l : List Secret) (env : Environment) (k : String)
    (d : RegData) :
    { syncRow q l env k d with description := "" } =
      syncRow q l env k { d with description := "" } := rfl

/-- The rows of the evaluation, descriptions blanked, in terms of the blanked registry
object. -/
theorem map_blank_getEnvironmentSyncStatus (db : Db) (q : Id) :
    (getEnvironmentSyncStatus db q).map (fun row => { row with description := "" }) =
      (db.environments.filter (fun e => e.projectId == q)).flatMap (fun env =>
        (JsObject.entries ((getSecretRegistry db q).map
            (Prod.map id (fun d : RegData => { d with description := "" })))).map
          (fun x => syncRow q (db.secrets.filter (fun s => s.projectId == q)) env x.1 x.2)) := by
  unfold getEnvironmentSyncStatus
  simp only [List.map_flatMap, List.map_map, JsObject.entries_map]
  rfl

/-- C7 (description independence, local store). `updateSecretDescription` leaves every
secret unchanged and leaves the `lastUpdatedAt` (and id, project, key) of every registry
entry unchanged; so for every project the evaluation `getEnvironmentSyncStatus` returns
the same rows as before in every field other than the description: same environments
and keys, same watermarks, same values, same statuses. -/
theorem C7_updateSecretDescription_keeps_watermarks (db : Db) (p : Id) (k d : String) :
    (updateSecretDescription db p k d).1.secrets = db.secrets ∧
    (updateSecretDescription db p k d).1.projectSecretRegistry.map
        (fun r => (r.id, r.projectId, r.key, r.lastUpdatedAt)) =
      db.projectSecretRegistry.map (fun r => (r.id, r.projectId, r.key, r.lastUpdatedAt)) ∧
    ∀ q : Id,
      (getEnvironmentSyncStatus (updateSecretDescription db p k d).1 q).map
          (fun row => { row with description := "" }) =
        (getEnvironmentSyncStatus db q).map (fun row => { row with description := "" }) := by
  cases hf : db.projectSecretRegistry.find? (fun r => r.projectId == p && r.key == k) with
  | none =>
    have hdb : (updateSecretDescription db p k d).1 = db := by
      simp only [updateSecretDescription, hf]
    rw [hdb]
    exact ⟨rfl, rfl, fun _ => rfl⟩
  | some r =>
    have hdb : (updateSecretDescription db p k d).1 =
        { db with projectSecretRegistry :=
            (updateFirst (fun r => r.projectId == p && r.key == k)
              (fun r => { r with description := d }) db.projectSecretRegistry) } := by
      simp only [updateSecretDescription, hf]
    rw [hdb]
    refine ⟨rfl, ?_, ?_⟩
    · exact map_updateFirst_of_invariant _ _ _ _ (fun a => rfl)
    · intro q
      have h := map_filter_updateFirst (fun r : RegistryEntry => r.projectId == p && r.key == k)
        (fun r => r.projectId == q) (fun r => { r with description := d })
        (fun r => (r.key, r.lastUpdatedAt)) db.projectSecretRegistry
        (fun a => rfl) (fun a => rfl)
      rw [map_blank_getEnvironmentSyncStatus, map_blank_getEnvironmentSyncStatus]
      simp only [getSecretRegistry]
      rw [map_foldl_assign_blank, map_foldl_assign_blank, h]

/-- C8 (Supabase branch). The update `updateSecretDescription` issues on the Supabase
branch sets `last_updated_at` to `now` together with the description: on the table with
the one row `(r1, p1, DATABASE_URL, "old", 100)`, the call at `now = 200` leaves the row
with watermark `200`, and a secret written at `100`, `SYNCED` against the registry read
before the call, is `OUTDATED` against the registry read after it. -/
theorem C8_supabase_description_update_moves_watermark :
    updateSecretDescriptionSupabase [⟨"r1", "p1", "DATABASE_URL", "old", 100⟩]
        200 "p1" "DATABASE_URL" "new" =
      [⟨"r1", "p1", "DATABASE_URL", "new", 200⟩] ∧
    (JsObject.entries (getSecretRegistrySupabase
        [⟨"r1", "p1", "DATABASE_URL", "old", 100⟩] "p1")).map
      (fun x => (syncRow "p1" [⟨"s1", "p1", "e1", "DATABASE_URL", "v", 1, 100, none⟩]
          ⟨"e1", "p1", "Development", "dev", false, none⟩ x.1 x.2).sync_status) =
      ["SYNCED"] ∧
    (JsObject.entries (getSecretRegistrySupabase
        (updateSecretDescriptionSupabase [⟨"r1", "p1", "DATABASE_URL", "old", 100⟩]
          200 "p1" "DATABASE_URL" "new") "p1")).map
      (fun x => (syncRow "p1" [⟨"s1", "p1", "e1", "DATABASE_URL", "v", 1, 100, none⟩]
          ⟨"e1", "p1", "Development", "dev", false, none⟩ x.1 x.2).sync_status) =
      ["OUTDATED"] := by
  decide

/-- C9, as stated, fails: on a store with no registry entry for `(p1, API_KEY)`,
after `updateSecretDescription(p1, API_KEY, "the key")` the registry read by
`getSecretRegistry(p1)` has no entry for `API_KEY`. -/
theorem C9_counterexample_no_entry_created :
    ¬ ∃ x, JsObject.get
        (getSecretRegistry
          (updateSecretDescription
            { users := [], projects := [⟨"p1", "Growth Platform", "growth-platform", ""⟩],
              environments := [⟨"e1", "p1", "Development", "dev", false, none⟩],
              secrets := [], projectSecretRegistry := [], projectMembers := [],
              auditLogs := [] }
            "p1" "API_KEY" "the key").1 "p1") "API_KEY" = some x ∧
      x.description = "the key" := by
  rintro ⟨x, hx, _⟩
  have hnone : JsObject.get
      (getSecretRegistry
        (updateSecretDescription
          { users := [], projects := [⟨"p1", "Growth Platform", "growth-platform", ""⟩],
            environments := [⟨"e1", "p1", "Development", "dev", false, none⟩],
            secrets := [], projectSecretRegistry := [], projectMembers := [],
            auditLogs := [] }
          "p1" "API_KEY" "the key").1 "p1") "API_KEY" = none := by decide
  rw [hnone] at hx
  cases hx

/-- C9, amended. `updateSecretDescription` sets the description of the existing registry
entry and creates none: when the store holds exactly one registry entry `r` for
(project, key), after the call the registry read by `getSecretRegistry(project)` has an
entry for the key with description `d` and the watermark of `r`; when it holds none, the
store is unchanged and the registry read has no entry for the key. -/
theorem C9_updateSecretDescription_sets_existing_description (db : Db) (p : Id)
    (k d : String) :
    (∀ r, db.projectSecretRegistry.filter (fun r => r.projectId == p && r.key == k) = [r] →
      JsObject.get (getSecretRegistry (updateSecretDescription db p k d).1 p) k =
        some { lastUpdatedAt := r.lastUpdatedAt, description := d }) ∧
    (db.projectSecretRegistry.filter (fun r => r.projectId == p && r.key == k) = [] →
      (updateSecretDescription db p k d).1 = db ∧
      JsObject.get (getSecretRegistry (updateSecretDescription db p k d).1 p) k = none) := by
  have hfind := find?_eq_head?_filter (fun r : RegistryEntry => r.projectId == p && r.key == k)
    db.projectSecretRegistry
  refine ⟨?_, ?_⟩
  · intro r hr
    rw [hr] at hfind
    simp only [List.head?_cons] at hfind
    have hdb : (updateSecretDescription db p k d).1 =
        { db with projectSecretRegistry :=
            (updateFirst (fun r => r.projectId == p && r.key == k)
              (fun r => { r with description := d }) db.projectSecretRegistry) } := by
      simp only [updateSecretDescription, hfind]
    rw [hdb, get_getSecretRegistry]
    have hfl := filter_updateFirst_self (fun r : RegistryEntry => r.projectId == p && r.key == k)
      (fun r => { r with description := d }) db.projectSecretRegistry (fun a ha => ha)
    rw [hr] at hfl
    simp only [] at hfl
    rw [hfl]
    rfl
  · intro hr
    rw [hr] at hfind
    simp only [List.head?_nil] at hfind
    have hdb : (updateSecretDescription db p k d).1 = db := by
      simp only [updateSecretDescription, hfind]
    rw [hdb, get_getSecretRegistry, hr]
    exact ⟨rfl, rfl⟩

/-! ## The watermark along a sequence of operations -/

theorem mem_updateFirst {α : Type} (p : α → Bool) (f : α → α) (l : List α) (x : α)
    (h : x ∈ updateFirst p f l) : x ∈ l ∨ ∃ a ∈ l, x = f a := by
  induction l with
  | nil => cases h
  | cons b t ih =>
    by_cases hp : p b = true
    · rw [updateFirst, if_pos hp] at h
      rcases List.mem_cons.1 h with h1 | h1
      · exact Or.inr ⟨b, List.mem_cons_self _ _, h1⟩
      · exact Or.inl (List.mem_cons_of_mem _ h1)
    · rw [updateFirst, if_neg hp] at h
      rcases List.mem_cons.1 h with h1 | h1
      · exact Or.inl (h1 ▸ List.mem_cons_self _ _)
      · rcases ih h1 with h2 | ⟨a, ha, hx⟩
        · exact Or.inl (List.mem_cons_of_mem _ h2)
        · exact Or.inr ⟨a, List.mem_cons_of_mem _ ha, hx⟩

/-- The operations other than `saveSecret` leave the keys and watermarks of the registry
entries as they are. -/
theorem step_registry_of_not_save (db : Db) (op : Op)
    (h : ∀ now ids p e k v u, op ≠ Op.saveSecret now ids p e k v u) :
    (step db op).projectSecretRegistry.map (fun r => (r.projectId, r.key, r.lastUpdatedAt)) =
      db.projectSecretRegistry.map (fun r => (r.projectId, r.key, r.lastUpdatedAt)) := by
  cases op with
  | saveSecret now ids p e k v u => exact absurd rfl (h now ids p e k v u)
  | updateSecretDescription now p k d =>
    simp only [step, updateSecretDescription]
    split
    · exact map_updateFirst_of_invariant _ _ _ _ (fun a => rfl)
    · rfl
  | syncSecret now sid =>
    simp only [step, syncSecret]
    split <;> rfl
  | deleteSecret now aid sid =>
    simp only [step, deleteSecret]
    split
    · split <;> rfl
    · rfl
  | deleteEnvironment now eid => rfl

theorem filter_getLast?_of_map_eq (l1 l2 : List RegistryEntry) (p : Id) (k : String)
    (h : l1.map (fun r => (r.projectId, r.key, r.lastUpdatedAt)) =
      l2.map (fun r => (r.projectId, r.key, r.lastUpdatedAt))) :
    ((l1.filter (fun r => r.projectId == p && r.key == k)).getLast?).map
        (fun r => r.lastUpdatedAt) =
      ((l2.filter (fun r => r.projectId == p && r.key == k)).getLast?).map
        (fun r => r.lastUpdatedAt) := by
  have key : ∀ l : List RegistryEntry,
      ((l.filter (fun r => r.projectId == p && r.key == k)).getLast?).map
          (fun r => r.lastUpdatedAt) =
        (((l.map (fun r => (r.projectId, r.key, r.lastUpdatedAt))).filter
          (fun x => x.1 == p && x.2.1 == k)).getLast?).map (fun x => x.2.2) := by
    intro l
    rw [List.filter_map, List.getLast?_map, Option.map_map]
    rfl
  rw [key l1, key l2, h]

/-- Every registry timestamp after a call is one that was there or the clock reading. -/
theorem step_registry_le (db : Db) (op : Op) (t : Timestamp)
    (h : ∀ r ∈ db.projectSecretRegistry, r.lastUpdatedAt ≤ t) (hop : op.now ≤ t) :
    ∀ r ∈ (step db op).projectSecretRegistry, r.lastUpdatedAt ≤ t := by
  cases op with
  | saveSecret now ids p e k v u =>
    intro r hr
    simp only [step, saveSecret] at hr
    split at hr
    · rcases mem_updateFirst _ _ _ _ hr with h1 | ⟨a, _, rfl⟩
      · exact h r h1
      · exact hop
    · rcases List.mem_append.1 hr with h1 | h1
      · exact h r h1
      · rw [List.mem_singleton.1 h1]; exact hop
  | updateSecretDescription now p k d =>
    intro r hr
    simp only [step, updateSecretDescription] at hr
    split at hr
    · rcases mem_updateFirst _ _ _ _ hr with h1 | ⟨a, ha, rfl⟩
      · exact h r h1
      · exact h a ha
    · exact h r hr
  | syncSecret now sid =>
    intro r hr
    simp only [step, syncSecret] at hr
    split at hr <;> exact h r hr
  | deleteSecret now aid sid =>
    intro r hr
    simp only [step, deleteSecret] at hr
    split at hr
    · split at hr <;> exact h r hr
    · exact h r hr
  | deleteEnvironment now eid =>
    intro r hr
    exact h r hr

/-- One call, made at a clock reading not earlier than the registry timestamps in the
store, does not lower the watermark of any key. -/
theorem step_watermark_mono (db : Db) (op : Op) (p : Id) (k : String)
    (h : ∀ r ∈ db.projectSecretRegistry, r.lastUpdatedAt ≤ op.now) :
    ∀ w, watermark db p k = some w →
      ∃ w2, watermark (step db op) p k = some w2 ∧ w ≤ w2 := by
  intro w hw
  by_cases hsave : ∀ now ids p e k v u, op ≠ Op.saveSecret now ids p e k v u
  · refine ⟨w, ?_, le_refl w⟩
    rw [watermark_eq] at hw ⊢
    rw [filter_getLast?_of_map_eq _ _ p k (step_registry_of_not_save db op hsave)]
    exact hw
  · push_neg at hsave
    obtain ⟨now, ids, p2, e, k2, v, u, rfl⟩ := hsave
    rw [watermark_eq] at hw ⊢
    simp only [step]
    by_cases hsame : p = p2 ∧ k = k2
    · obtain ⟨rfl, rfl⟩ := hsame
      rw [saveSecret_registry_filter_self]
      cases hfl : db.projectSecretRegistry.filter (fun r => r.projectId == p && r.key == k) with
      | nil => rw [hfl] at hw; cases hw
      | cons r t =>
        rw [hfl] at hw
        have hr : r ∈ db.projectSecretRegistry :=
          (List.mem_filter.1 (by rw [hfl]; exact List.mem_cons_self _ _)).1
        cases t with
        | nil =>
          simp only [List.getLast?_singleton, Option.map_some', Option.some.injEq] at hw ⊢
          exact ⟨now, rfl, by rw [← hw]; exact h r hr⟩
        | cons r2 t2 =>
          simp only [List.getLast?_cons_cons] at hw ⊢
          exact ⟨w, hw, le_refl w⟩
    · rw [saveSecret_registry_filter_other _ _ _ _ _ _ _ _ _ _ hsame]
      exact ⟨w, hw, le_refl w⟩

/-- C10 (monotonic watermark). Along every finite sequence of local-store operations
(`saveSecret`, `updateSecretDescription`, `syncSecret`, `deleteSecret`,
`deleteEnvironment`) executed with non-decreasing clock readings, none earlier than a
registry timestamp already in the store, the `lastUpdatedAt` that the registry reports
for (project, key) never decreases from one state to the next: once the key has an entry
it keeps one, with a watermark at least as late. -/
theorem C10_watermark_never_decreases (db : Db) (ops : List Op) (p : Id) (k : String)
    (hclock : (ops.map Op.now).Pairwise (fun a b => a ≤ b))
    (hstart : ∀ r ∈ db.projectSecretRegistry, ∀ op ∈ ops, r.lastUpdatedAt ≤ op.now) :
    List.Chain'
      (fun a b => ∀ w, watermark a p k = some w → ∃ w2, watermark b p k = some w2 ∧ w ≤ w2)
      (trace db ops) := by
  induction ops generalizing db with
  | nil => simp [trace]
  | cons op rest ih =>
    rw [List.map_cons, List.pairwise_cons] at hclock
    have hrest : List.Chain'
        (fun a b => ∀ w, watermark a p k = some w → ∃ w2, watermark b p k = some w2 ∧ w ≤ w2)
        (trace (step db op) rest) := by
      apply ih (step db op) hclock.2
      intro r hr op2 hop2
      refine step_registry_le db op op2.now ?_ ?_ r hr
      · intro r0 hr0
        exact hstart r0 hr0 op2 (List.mem_cons_of_mem _ hop2)
      · exact hclock.1 op2.now (List.mem_map_of_mem Op.now hop2)
    have hhead : ∀ w, watermark db p k = some w →
        ∃ w2, watermark (step db op) p k = some w2 ∧ w ≤ w2 :=
      step_watermark_mono db op p k
        (fun r hr => hstart r hr op (List.mem_cons_self _ _))
    cases rest with
    | nil => simpa [trace] using hhead
    | cons op2 rest2 =>
      simp only [trace] at hrest ⊢
      exact List.Chain'.cons hhead hrest

/-! ## The statements at the seed document -/

/-- C1 at the seed document with `s1` written at 100 and the registry entry at 200: the
row of (Development, DATABASE_URL) is `OUTDATED`. -/
theorem C1_witness_seed_development_outdated :
    Reports (getEnvironmentSyncStatus (initialData 100 200 200 0) "p1")
      "e1" "DATABASE_URL" "OUTDATED" :=
  ⟨(C1_status_outdated_iff_updatedAt_lt_watermark (initialData 100 200 200 0) "p1"
      { id := "e1", projectId := "p1", name := "Development", slug := "dev",
        isProduction := false, parentId := none }
      "DATABASE_URL"
      { id := "r1", projectId := "p1", key := "DATABASE_URL",
        description := "Connection string for the primary database", lastUpdatedAt := 200 }
      { id := "s1", projectId := "p1", environmentId := "e1", key := "DATABASE_URL",
        value := "postgres://localhost:5432/db", version := 1, updatedAt := 100,
        lastChangedBy := none }
      (by decide) rfl (by decide) (by decide)).1.1,
   fun row hrow he hk =>
    (((C1_status_outdated_iff_updatedAt_lt_watermark (initialData 100 200 200 0) "p1"
      { id := "e1", projectId := "p1", name := "Development", slug := "dev",
        isProduction := false, parentId := none }
      "DATABASE_URL"
      { id := "r1", projectId := "p1", key := "DATABASE_URL",
        description := "Connection string for the primary database", lastUpdatedAt := 200 }
      { id := "s1", projectId := "p1", environmentId := "e1", key := "DATABASE_URL",
        value := "postgres://localhost:5432/db", version := 1, updatedAt := 100,
        lastChangedBy := none }
      (by decide) rfl (by decide) (by decide)).1.2 row hrow he hk).1).2 (by decide)⟩

/-- C2 at the seed document: Production has no `DATABASE_URL`, the row is `MISSING`. -/
theorem C2_witness_seed_production_missing :
    Reports (getEnvironmentSyncStatus (initialData 100 200 200 0) "p1")
      "e3" "DATABASE_URL" "MISSING" :=
  ⟨(C2_missing_when_no_secret (initialData 100 200 200 0) "p1"
      { id := "e3", projectId := "p1", name := "Production", slug := "prod",
        isProduction := true, parentId := none }
      "DATABASE_URL"
      { id := "r1", projectId := "p1", key := "DATABASE_URL",
        description := "Connection string for the primary database", lastUpdatedAt := 200 }
      (by decide) rfl (by decide) rfl rfl (by decide)).1,
   fun row hrow he hk =>
    ((C2_missing_when_no_secret (initialData 100 200 200 0) "p1"
      { id := "e3", projectId := "p1", name := "Production", slug := "prod",
        isProduction := true, parentId := none }
      "DATABASE_URL"
      { id := "r1", projectId := "p1", key := "DATABASE_URL",
        description := "Connection string for the primary database", lastUpdatedAt := 200 }
      (by decide) rfl (by decide) rfl rfl (by decide)).2 row hrow he hk).1⟩

/-- C3 at the seed document: exactly one row for (Staging, DATABASE_URL). -/
theorem C3_witness_seed_one_row :
    (getEnvironmentSyncStatus (initialData 100 200 200 0) "p1").countP
      (fun row => row.environment_id == "e2" && row.key_name == "DATABASE_URL") = 1 :=
  (C3_one_row_per_environment_and_registry_key (initialData 100 200 200 0) "p1"
      (by decide)).1 "e2" "DATABASE_URL" (by decide)
    ⟨{ id := "e2", projectId := "p1", name := "Staging", slug := "staging",
       isProduction := false, parentId := none }, by decide, rfl, rfl⟩
    ⟨{ id := "r1", projectId := "p1", key := "DATABASE_URL",
       description := "Connection string for the primary database", lastUpdatedAt := 200 },
     by decide, rfl, rfl⟩

/-- C4 at the seed document with the new key `API_KEY`, written at 300, 400 and 500:
after the second write Development is `OUTDATED`. -/
theorem C4_witness_seed_api_key :
    Reports
      (getEnvironmentSyncStatus
        (saveSecret (saveSecret (initialData 100 200 200 0) 300 ⟨"r2", "s3", "a1"⟩ "p1" "e1"
          "API_KEY" "devkey" none).1 400 ⟨"r3", "s4", "a2"⟩ "p1" "e2" "API_KEY" "stagingkey"
          none).1 "p1")
      "e1" "API_KEY" "OUTDATED" :=
  (C4_scenario_write_write_propagate (initialData 100 200 200 0) "p1"
      { id := "e1", projectId := "p1", name := "Development", slug := "dev",
        isProduction := false, parentId := none }
      { id := "e2", projectId := "p1", name := "Staging", slug := "staging",
        isProduction := false, parentId := none }
      { id := "e3", projectId := "p1", name := "Production", slug := "prod",
        isProduction := true, parentId := none }
      "API_KEY" "devkey" "stagingkey" 300 400 500
      ⟨"r2", "s3", "a1"⟩ ⟨"r3", "s4", "a2"⟩ ⟨"r4", "s5", "a3"⟩ none none none
      (by decide) (by decide) (by decide) rfl rfl rfl (by decide) (by decide) (by decide)
      (by decide) (by decide) (by decide) (by decide)).2.1.2.1

/-- C5 at the seed document: saving `DATABASE_URL` again in Development, with the value
it already has, returns `s1` at version 2. -/
theorem C5_witness_seed_same_value_bumps_version :
    (saveSecret (initialData 100 200 200 0) 300 ⟨"r2", "s3", "a1"⟩ "p1" "e1" "DATABASE_URL"
        "postgres://localhost:5432/db" none).2 =
      { id := "s1", projectId := "p1", environmentId := "e1", key := "DATABASE_URL",
        value := "postgres://localhost:5432/db", version := 2, updatedAt := 300,
        lastChangedBy := some "Unknown" } ∧
    (saveSecret (initialData 100 200 200 0) 300 ⟨"r2", "s3", "a1"⟩ "p1" "e1" "DATABASE_URL"
        "postgres://localhost:5432/db" none).2.version = 1 + 1 :=
  ⟨((C5_saveSecret_upserts_secret (initialData 100 200 200 0) 300 ⟨"r2", "s3", "a1"⟩ "p1"
      "e1" "DATABASE_URL" "postgres://localhost:5432/db" none).1
    { id := "s1", projectId := "p1", environmentId := "e1", key := "DATABASE_URL",
      value := "postgres://localhost:5432/db", version := 1, updatedAt := 100,
      lastChangedBy := none }
    (by decide)).1,
   ((C5_saveSecret_upserts_secret (initialData 100 200 200 0) 300 ⟨"r2", "s3", "a1"⟩ "p1"
      "e1" "DATABASE_URL" "postgres://localhost:5432/db" none).1
    { id := "s1", projectId := "p1", environmentId := "e1", key := "DATABASE_URL",
      value := "postgres://localhost:5432/db", version := 1, updatedAt := 100,
      lastChangedBy := none }
    (by decide)).2.1 (by decide)⟩

/-- C6 at the seed document: the registry entry of `DATABASE_URL` takes the new watermark
and keeps its description. -/
theorem C6_witness_seed_registry_entry :
    (saveSecret (initialData 100 200 200 0) 300 ⟨"r2", "s3", "a1"⟩ "p1" "e3" "DATABASE_URL"
        "postgres://prod" none).1.projectSecretRegistry.find?
        (fun r => r.projectId == "p1" && r.key == "DATABASE_URL") =
      some { id := "r1", projectId := "p1", key := "DATABASE_URL",
             description := "Connection string for the primary database",
             lastUpdatedAt := 300 } :=
  ((C6_saveSecret_writes_registry (initialData 100 200 200 0) 300 ⟨"r2", "s3", "a1"⟩ "p1" "e3"
      "DATABASE_URL" "postgres://prod" none).2
    { id := "r1", projectId := "p1", key := "DATABASE_URL",
      description := "Connection string for the primary database", lastUpdatedAt := 200 }
    (by decide)).2

/-- C9 (amended) at the seed document: the description of `DATABASE_URL` is replaced,
the watermark stays. -/
theorem C9_witness_seed_description :
    JsObject.get
        (getSecretRegistry
          (updateSecretDescription (initialData 100 200 200 0) "p1" "DATABASE_URL"
            "primary db").1 "p1") "DATABASE_URL" =
      some { lastUpdatedAt := 200, description := "primary db" } :=
  (C9_updateSecretDescription_sets_existing_description (initialData 100 200 200 0) "p1"
      "DATABASE_URL" "primary db").1
    { id := "r1", projectId := "p1", key := "DATABASE_URL",
      description := "Connection string for the primary database", lastUpdatedAt := 200 }
    (by decide)

/-- C10 at the seed document, for one call of each operation at the readings 300 to 340. -/
theorem C10_witness_seed_sequence :
    List.Chain'
      (fun a b => ∀ w, watermark a "p1" "DATABASE_URL" = some w →
        ∃ w2, watermark b "p1" "DATABASE_URL" = some w2 ∧ w ≤ w2)
      (trace (initialData 100 200 200 0)
        [ Op.saveSecret 300 ⟨"r2", "s3", "a1"⟩ "p1" "e3" "DATABASE_URL" "postgres://prod" none,
          Op.updateSecretDescription 310 "p1" "DATABASE_URL" "primary db",
          Op.syncSecret 320 "s1",
          Op.deleteSecret 330 "a2" "s2",
          Op.deleteEnvironment 340 "e2" ]) :=
  C10_watermark_never_decreases (initialData 100 200 200 0)
    [ Op.saveSecret 300 ⟨"r2", "s3", "a1"⟩ "p1" "e3" "DATABASE_URL" "postgres://prod" none,
      Op.updateSecretDescription 310 "p1" "DATABASE_URL" "primary db",
      Op.syncSecret 320 "s1",
      Op.deleteSecret 330 "a2" "s2",
      Op.deleteEnvironment 340 "e2" ]
    "p1" "DATABASE_URL" (by decide) (by decide)

/-! ## Key format -/

/-- C11, as stated, fails: the key `db-url` does not match `[A-Z0-9_]+`, and
`saveSecret` with it on the seed document stores a secret, a registry entry and an
audit entry. -/
theorem C11_counterexample_malformed_key_is_written :
    matchesKeyFormat "db-url" = false ∧
    (saveSecret (initialData 100 200 200 0) 300 ⟨"r2", "s3", "a1"⟩ "p1" "e1" "db-url"
      "postgres://x" none).1.secrets.length = (initialData 100 200 200 0).secrets.length + 1 ∧
    (saveSecret (initialData 100 200 200 0) 300 ⟨"r2", "s3", "a1"⟩ "p1" "e1" "db-url"
      "postgres://x" none).1.projectSecretRegistry.length =
        (initialData 100 200 200 0).projectSecretRegistry.length + 1 ∧
    (saveSecret (initialData 100 200 200 0) 300 ⟨"r2", "s3", "a1"⟩ "p1" "e1" "db-url"
      "postgres://x" none).1.auditLogs.length = (initialData 100 200 200 0).auditLogs.length + 1 := by
  decide

/-- C11, amended. `saveSecret` makes no check of its key: for every key, it stores the
secret of the triple with that key and the given value, advances the registry entry of
the key to `now`, adds one `SECRET_UPDATE` audit entry and returns the secret.  The key
format is kept by the key input of the secret form alone: whatever is typed, the text it
keeps consists of characters of `[A-Z0-9_]` only. -/
theorem C11_saveSecret_accepts_every_key (db : Db) (now : Timestamp) (ids : SaveIds) (p e : Id)
    (k v : String) (u : Option User) (toUpperCase : String → String) (text : String) :
    ((saveSecret db now ids p e k v u).1.secrets.find?
        (fun s => s.projectId == p && s.environmentId == e && s.key == k) =
      some (saveSecret db now ids p e k v u).2 ∧
     (saveSecret db now ids p e k v u).2.key = k ∧
     (saveSecret db now ids p e k v u).2.value = v) ∧
    (∃ r, (saveSecret db now ids p e k v u).1.projectSecretRegistry.find?
        (fun r => r.projectId == p && r.key == k) = some r ∧ r.lastUpdatedAt = now) ∧
    (saveSecret db now ids p e k v u).1.auditLogs =
      { id := ids.auditId, projectId := p, environmentId := some e, action := "SECRET_UPDATE",
        description := "Updated secret " ++ k, timestamp := now,
        performedBy := some (userEmail u) } :: db.auditLogs ∧
    (∀ c ∈ (sanitizeKeyInput toUpperCase text).toList, isKeyChar c = true) := by
  refine ⟨⟨?_, ?_, ?_⟩, ?_, ?_, ?_⟩
  · cases hs : db.secrets.find?
        (fun s => s.projectId == p && s.environmentId == e && s.key == k) with
    | none =>
      simp only [saveSecret, hs]
      rw [List.find?_append, hs]
      simp
    | some s =>
      simp only [saveSecret, hs]
      refine (find?_updateFirst_self _ _ _ ?_).trans ?_
      · intro a ha; exact ha
      · rw [hs]; rfl
  · cases hs : db.secrets.find?
        (fun s => s.projectId == p && s.environmentId == e && s.key == k) with
    | none => simp only [saveSecret, hs]
    | some s =>
      have hk := List.find?_some hs
      simp only [Bool.and_eq_true, beq_iff_eq] at hk
      simp only [saveSecret, hs]
      exact hk.2
  · cases hs : db.secrets.find?
        (fun s => s.projectId == p && s.environmentId == e && s.key == k) with
    | none => simp only [saveSecret, hs]
    | some s => simp only [saveSecret, hs]
  · cases hr : db.projectSecretRegistry.find? (fun r => r.projectId == p && r.key == k) with
    | none =>
      refine ⟨{ id := ids.registryId, projectId := p, key := k, description := "",
                lastUpdatedAt := now }, ?_, rfl⟩
      simp only [saveSecret, hr]
      rw [List.find?_append, hr]
      simp
    | some r =>
      refine ⟨{ r with lastUpdatedAt := now }, ?_, rfl⟩
      simp only [saveSecret, hr]
      refine (find?_updateFirst_self _ _ _ ?_).trans ?_
      · intro a ha; exact ha
      · rw [hr]; rfl
  · rfl
  · intro c hc
    simp only [sanitizeKeyInput] at hc
    exact (List.mem_filter.1 hc).2

/-! ## Uniqueness of the secret of a triple -/

theorem saveSecret_secrets_triples (db : Db) (now : Timestamp) (ids : SaveIds) (p e : Id)
    (k v : String) (u : Option User) :
    (saveSecret db now ids p e k v u).1.secrets.map
        (fun s => (s.projectId, s.environmentId, s.key)) =
      match db.secrets.find?
          (fun s => s.projectId == p && s.environmentId == e && s.key == k) with
      | some _ => db.secrets.map (fun s => (s.projectId, s.environmentId, s.key))
      | none => db.secrets.map (fun s => (s.projectId, s.environmentId, s.key)) ++ [(p, e, k)] := by
  cases hs : db.secrets.find?
      (fun s => s.projectId == p && s.environmentId == e && s.key == k) with
  | none => simp only [saveSecret, hs, List.map_append, List.map_cons, List.map_nil]
  | some s =>
    simp only [saveSecret, hs]
    exact map_updateFirst_of_invariant _ _ _ _ (fun a => rfl)

theorem saveSecret_unique (db : Db) (now : Timestamp) (ids : SaveIds) (p e : Id)
    (k v : String) (u : Option User) (h : UniqueSecrets db) :
    UniqueSecrets (saveSecret db now ids p e k v u).1 := by
  unfold UniqueSecrets at h ⊢
  rw [saveSecret_secrets_triples]
  cases hs : db.secrets.find?
      (fun s => s.projectId == p && s.environmentId == e && s.key == k) with
  | some s => exact h
  | none =>
    simp only []
    refine List.Nodup.append h (List.nodup_singleton _) ?_
    rw [List.disjoint_singleton]
    intro hmem
    obtain ⟨s, hsmem, hst⟩ := List.mem_map.1 hmem
    have := List.find?_eq_none.1 hs s hsmem
    simp only [Prod.mk.injEq] at hst
    simp [hst.1, hst.2.1, hst.2.2] at this

theorem syncSecret_secrets_triples (db : Db) (now : Timestamp) (secretId : Id) :
    (syncSecret db now secretId).1.secrets.map (fun s => (s.projectId, s.environmentId, s.key)) =
      db.secrets.map (fun s => (s.projectId, s.environmentId, s.key)) := by
  simp only [syncSecret]
  split
  · exact map_updateFirst_of_invariant _ _ _ _ (fun a => rfl)
  · rfl

theorem deleteSecret_secrets_sublist (db : Db) (now : Timestamp) (auditId secretId : Id) :
    (deleteSecret db now auditId secretId).1.secrets.Sublist db.secrets := by
  simp only [deleteSecret]
  split
  · split
    · exact List.eraseIdx_sublist _ _
    · exact List.Sublist.refl _
  · exact List.Sublist.refl _

theorem updateSecretDescription_secrets (db : Db) (p : Id) (k d : String) :
    (updateSecretDescription db p k d).1.secrets = db.secrets := by
  simp only [updateSecretDescription]
  split <;> rfl

/-- C12 (secret uniqueness). If the store holds at most one secret per
(projectId, environmentId, key), it still does after any call, with any arguments, of
`saveSecret`, `updateSecretDescription`, `syncSecret`, `deleteSecret` or
`deleteEnvironment`. -/
theorem C12_unique_secret_per_triple_is_preserved (db : Db) (op : Op)
    (h : UniqueSecrets db) : UniqueSecrets (step db op) := by
  cases op with
  | saveSecret now ids p e k v u => exact saveSecret_unique db now ids p e k v u h
  | updateSecretDescription now p k d =>
    unfold UniqueSecrets at h ⊢
    simp only [step]
    rw [updateSecretDescription_secrets]
    exact h
  | syncSecret now sid =>
    unfold UniqueSecrets at h ⊢
    simp only [step]
    rw [syncSecret_secrets_triples]
    exact h
  | deleteSecret now aid sid =>
    unfold UniqueSecrets at h ⊢
    exact List.Nodup.sublist ((deleteSecret_secrets_sublist db now aid sid).map _) h
  | deleteEnvironment now eid =>
    unfold UniqueSecrets at h ⊢
    exact List.Nodup.sublist ((List.filter_sublist db.secrets).map _) h

/-! ## Coverage of the registry -/

theorem saveSecret_registry_keys (db : Db) (now : Timestamp) (ids : SaveIds) (p e : Id)
    (k v : String) (u : Option User) :
    (saveSecret db now ids p e k v u).1.projectSecretRegistry.map
        (fun r => (r.projectId, r.key)) =
      if (p, k) ∈ db.projectSecretRegistry.map (fun r => (r.projectId, r.key)) then
        db.projectSecretRegistry.map (fun r => (r.projectId, r.key))
      else db.projectSecretRegistry.map (fun r => (r.projectId, r.key)) ++ [(p, k)] := by
  cases hr : db.projectSecretRegistry.find? (fun r => r.projectId == p && r.key == k) with
  | none =>
    have hnot : (p, k) ∉ db.projectSecretRegistry.map (fun r => (r.projectId, r.key)) := by
      intro hmem
      obtain ⟨r, hrmem, hrp⟩ := List.mem_map.1 hmem
      have := List.find?_eq_none.1 hr r hrmem
      simp only [Prod.mk.injEq] at hrp
      simp [hrp.1, hrp.2] at this
    rw [if_neg hnot]
    simp only [saveSecret, hr, List.map_append, List.map_cons, List.map_nil]
  | some r =>
    have hmem : (p, k) ∈ db.projectSecretRegistry.map (fun r => (r.projectId, r.key)) := by
      have hk := List.find?_some hr
      simp only [Bool.and_eq_true, beq_iff_eq] at hk
      exact List.mem_map.2 ⟨r, List.mem_of_find?_eq_some hr, by rw [hk.1, hk.2]⟩
    rw [if_pos hmem]
    simp only [saveSecret, hr]
    exact map_updateFirst_of_invariant _ _ _ _ (fun a => rfl)

theorem step_registry_keys_of_not_save (db : Db) (op : Op)
    (h : ∀ now ids p e k v u, op ≠ Op.saveSecret now ids p e k v u) :
    (step db op).projectSecretRegistry.map (fun r => (r.projectId, r.key)) =
      db.projectSecretRegistry.map (fun r => (r.projectId, r.key)) := by
  have h3 := step_registry_of_not_save db op h
  have := congrArg (List.map (fun x : Id × String × Timestamp => (x.1, x.2.1))) h3
  simpa [List.map_map] using this

/-- No call removes a registry key, and no call leaves the same key twice. -/
theorem step_registry_keys (db : Db) (op : Op)
    (hn : (db.projectSecretRegistry.map (fun r => (r.projectId, r.key))).Nodup) :
    ((step db op).projectSecretRegistry.map (fun r => (r.projectId, r.key))).Nodup ∧
    (∀ x ∈ db.projectSecretRegistry.map (fun r => (r.projectId, r.key)),
      x ∈ (step db op).projectSecretRegistry.map (fun r => (r.projectId, r.key))) ∧
    (∀ now ids p e k v u, op = Op.saveSecret now ids p e k v u →
      (p, k) ∈ (step db op).projectSecretRegistry.map (fun r => (r.projectId, r.key))) := by
  by_cases hsave : ∀ now ids p e k v u, op ≠ Op.saveSecret now ids p e k v u
  · rw [step_registry_keys_of_not_save db op hsave]
    exact ⟨hn, fun x hx => hx, fun now ids p e k v u h => absurd h (hsave now ids p e k v u)⟩
  · push_neg at hsave
    obtain ⟨now, ids, p, e, k, v, u, rfl⟩ := hsave
    simp only [step]
    rw [saveSecret_registry_keys]
    by_cases hmem : (p, k) ∈ db.projectSecretRegistry.map (fun r => (r.projectId, r.key))
    · rw [if_pos hmem]
      refine ⟨hn, fun x hx => hx, ?_⟩
      intro now2 ids2 p2 e2 k2 v2 u2 h
      cases h
      exact hmem
    · rw [if_neg hmem]
      refine ⟨?_, fun x hx => List.mem_append_left _ hx, ?_⟩
      · refine List.Nodup.append hn (List.nodup_singleton _) ?_
        rw [List.disjoint_singleton]
        exact hmem
      · intro now2 ids2 p2 e2 k2 v2 u2 h
        cases h
        exact List.mem_append_right _ (List.mem_singleton_self _)

/-- Every secret after a call has the project and key of a secret before it, or of the
`saveSecret` just made. -/
theorem step_secret_keys (db : Db) (op : Op) (s : Secret) (hs : s ∈ (step db op).secrets) :
    (∃ s0 ∈ db.secrets, (s.projectId, s.key) = (s0.projectId, s0.key)) ∨
    (∃ now ids p e k v u, op = Op.saveSecret now ids p e k v u ∧ (s.projectId, s.key) = (p, k)) := by
  cases op with
  | saveSecret now ids p e k v u =>
    simp only [step, saveSecret] at hs
    split at hs
    · rcases mem_updateFirst _ _ _ _ hs with h1 | ⟨a, ha, rfl⟩
      · exact Or.inl ⟨s, h1, rfl⟩
      · exact Or.inl ⟨a, ha, rfl⟩
    · rcases List.mem_append.1 hs with h1 | h1
      · exact Or.inl ⟨s, h1, rfl⟩
      · rw [List.mem_singleton.1 h1]
        exact Or.inr ⟨now, ids, p, e, k, v, u, rfl, rfl⟩
  | updateSecretDescription now p k d =>
    simp only [step] at hs
    rw [updateSecretDescription_secrets] at hs
    exact Or.inl ⟨s, hs, rfl⟩
  | syncSecret now sid =>
    simp only [step, syncSecret] at hs
    split at hs
    · rcases mem_updateFirst _ _ _ _ hs with h1 | ⟨a, ha, rfl⟩
      · exact Or.inl ⟨s, h1, rfl⟩
      · exact Or.inl ⟨a, ha, rfl⟩
    · exact Or.inl ⟨s, hs, rfl⟩
  | deleteSecret now aid sid =>
    exact Or.inl ⟨s, (deleteSecret_secrets_sublist db now aid sid).subset hs, rfl⟩
  | deleteEnvironment now eid =>
    simp only [step, deleteEnvironment] at hs
    exact Or.inl ⟨s, (List.mem_filter.1 hs).1, rfl⟩

/-- The registry keys along a sequence of calls: no key twice, no key lost, a key for
every `saveSecret` made and for every secret stored. -/
theorem run_registry_keys (ops : List Op) (db : Db)
    (hn : (db.projectSecretRegistry.map (fun r => (r.projectId, r.key))).Nodup)
    (hcov : ∀ s ∈ db.secrets,
      (s.projectId, s.key) ∈ db.projectSecretRegistry.map (fun r => (r.projectId, r.key))) :
    ((run db ops).projectSecretRegistry.map (fun r => (r.projectId, r.key))).Nodup ∧
    (∀ x ∈ db.projectSecretRegistry.map (fun r => (r.projectId, r.key)),
      x ∈ (run db ops).projectSecretRegistry.map (fun r => (r.projectId, r.key))) ∧
    (∀ now ids p e k v u, Op.saveSecret now ids p e k v u ∈ ops →
      (p, k) ∈ (run db ops).projectSecretRegistry.map (fun r => (r.projectId, r.key))) ∧
    (∀ s ∈ (run db ops).secrets,
      (s.projectId, s.key) ∈
        (run db ops).projectSecretRegistry.map (fun r => (r.projectId, r.key))) := by
  induction ops generalizing db with
  | nil => exact ⟨hn, fun x hx => hx, fun _ _ _ _ _ _ _ h => absurd h (List.not_mem_nil _), hcov⟩
  | cons op rest ih =>
    obtain ⟨hn1, hkeep1, hsave1⟩ := step_registry_keys db op hn
    have hcov1 : ∀ s ∈ (step db op).secrets, (s.projectId, s.key) ∈
        (step db op).projectSecretRegistry.map (fun r => (r.projectId, r.key)) := by
      intro s hs
      rcases step_secret_keys db op s hs with ⟨s0, hs0, heq⟩ | ⟨now, ids, p, e, k, v, u, hop, heq⟩
      · rw [heq]; exact hkeep1 _ (hcov s0 hs0)
      · rw [heq]; exact hsave1 now ids p e k v u hop
    obtain ⟨hn2, hkeep2, hsave2, hcov2⟩ := ih (step db op) hn1 hcov1
    refine ⟨hn2, fun x hx => hkeep2 x (hkeep1 x hx), ?_, hcov2⟩
    intro now ids p e k v u hmem
    rcases List.mem_cons.1 hmem with h | h
    · exact hkeep2 _ (hsave1 now ids p e k v u h.symm)
    · exact hsave2 now ids p e k v u h

theorem length_filter_registry (l : List RegistryEntry) (p : Id) (k : String) :
    (l.filter (fun r => r.projectId == p && r.key == k)).length =
      l.countP (fun r => decide ((fun r : RegistryEntry => (r.projectId, r.key)) r = (p, k))) := by
  rw [List.countP_eq_length_filter]
  congr 2
  funext r
  rw [Bool.eq_iff_iff]
  simp

theorem countP_le_one_of_nodup_map {α β : Type} [DecidableEq β] (f : α → β) (x : β) :
    ∀ (l : List α), (l.map f).Nodup → l.countP (fun b => decide (f b = x)) ≤ 1 := by
  intro l hn
  by_cases h : ∃ a ∈ l, f a = x
  · exact le_of_eq (countP_eq_one_of_nodup_map f x l hn h)
  · have : l.countP (fun b => decide (f b = x)) = 0 := by
      rw [List.countP_eq_zero]
      intro a ha hfa
      exact h ⟨a, ha, by simpa using hfa⟩
    omega

/-- C13 (registry coverage). In every state reached from a store with no secrets and no
registry entries by `saveSecret`, `updateSecretDescription`, `syncSecret`, `deleteSecret`
and `deleteEnvironment`: there is exactly one registry entry for every (projectId, key)
that a `saveSecret` of the sequence has written, whatever was deleted afterwards; no
(projectId, key) has two entries; and every secret in the store has exactly one entry
for its (projectId, key). -/
theorem C13_one_registry_entry_per_written_key (db0 : Db) (ops : List Op)
    (h0s : db0.secrets = []) (h0r : db0.projectSecretRegistry = []) :
    (∀ (p : Id) (k : String),
      (∃ now ids e v u, Op.saveSecret now ids p e k v u ∈ ops) →
      ((run db0 ops).projectSecretRegistry.filter
        (fun r => r.projectId == p && r.key == k)).length = 1) ∧
    (∀ (p : Id) (k : String),
      ((run db0 ops).projectSecretRegistry.filter
        (fun r => r.projectId == p && r.key == k)).length ≤ 1) ∧
    (∀ s ∈ (run db0 ops).secrets,
      ((run db0 ops).projectSecretRegistry.filter
        (fun r => r.projectId == s.projectId && r.key == s.key)).length = 1) := by
  obtain ⟨hn, _, hsave, hcov⟩ := run_registry_keys ops db0
    (by rw [h0r]; exact List.nodup_nil)
    (by rw [h0s]; intro s hs; cases hs)
  refine ⟨?_, ?_, ?_⟩
  · rintro p k ⟨now, ids, e, v, u, hmem⟩
    rw [length_filter_registry]
    obtain ⟨r, hr, hrk⟩ := List.mem_map.1 (hsave now ids p e k v u hmem)
    exact countP_eq_one_of_nodup_map _ _ _ hn ⟨r, hr, hrk⟩
  · intro p k
    rw [length_filter_registry]
    exact countP_le_one_of_nodup_map _ _ _ hn
  · intro s hs
    rw [length_filter_registry]
    obtain ⟨r, hr, hrk⟩ := List.mem_map.1 (hcov s hs)
    exact countP_eq_one_of_nodup_map _ _ _ hn ⟨r, hr, hrk⟩

/-! ## Deleting a secret -/

theorem findIdx?_of_find? {α : Type} (p : α → Bool) (l : List α) (s : α)
    (h : l.find? p = some s) : ∃ i, l.findIdx? p = some i ∧ l[i]? = some s := by
  induction l with
  | nil => cases h
  | cons a t ih =>
    by_cases hp : p a = true
    · rw [List.find?_cons_of_pos _ hp] at h
      cases h
      exact ⟨0, by simp [List.findIdx?_cons, hp], by simp⟩
    · rw [List.find?_cons_of_neg _ hp] at h
      obtain ⟨i, hi, hget⟩ := ih h
      refine ⟨i + 1, ?_, by simpa using hget⟩
      rw [List.findIdx?_cons, if_neg hp, List.findIdx?_succ, hi]
      rfl

theorem find?_eraseIdx_of_false {α : Type} (P : α → Bool) (l : List α) (i : Nat) (s : α)
    (hget : l[i]? = some s) (hP : P s = false) : (l.eraseIdx i).find? P = l.find? P := by
  induction l generalizing i with
  | nil => rfl
  | cons a t ih =>
    cases i with
    | zero =>
      simp only [List.getElem?_cons_zero, Option.some.injEq] at hget
      subst hget
      simp [List.eraseIdx, List.find?_cons, hP]
    | succ j =>
      simp only [List.getElem?_cons_succ] at hget
      simp only [List.eraseIdx, List.find?_cons, ih j hget]

theorem find?_eraseIdx_eq_none {α : Type} (P : α → Bool) (l : List α) (i : Nat) (s : α)
    (hone : (l.filter P).length ≤ 1) (hget : l[i]? = some s) (hP : P s = true) :
    (l.eraseIdx i).find? P = none := by
  induction l generalizing i with
  | nil => rfl
  | cons a t ih =>
    cases i with
    | zero =>
      simp only [List.getElem?_cons_zero, Option.some.injEq] at hget
      subst hget
      simp only [List.filter_cons, hP, if_true, List.length_cons] at hone
      have hnil : t.filter P = [] := List.eq_nil_of_length_eq_zero (by omega)
      simp only [List.eraseIdx]
      rw [find?_eq_head?_filter, hnil]
      rfl
    | succ j =>
      simp only [List.getElem?_cons_succ] at hget
      have hs : s ∈ t.filter P :=
        List.mem_filter.2 ⟨List.getElem?_mem hget, hP⟩
      have hpos : 0 < (t.filter P).length := List.length_pos_of_mem hs
      by_cases hPa : P a = true
      · simp only [List.filter_cons, hPa, if_true, List.length_cons] at hone
        omega
      · simp only [List.filter_cons, hPa] at hone
        simp only [List.eraseIdx]
        rw [List.find?_cons_of_neg _ hPa]
        exact ih j hone hget

theorem deleteSecret_of_find? (db : Db) (now : Timestamp) (auditId secretId : Id) (s : Secret)
    (hfind : db.secrets.find? (fun x => x.id == secretId) = some s) :
    ∃ i, db.secrets[i]? = some s ∧
      (deleteSecret db now auditId secretId).1 =
        { db with
          secrets := db.secrets.eraseIdx i
          auditLogs :=
            { id := auditId, projectId := s.projectId, environmentId := some s.environmentId,
              action := "SECRET_DELETE", description := "Deleted secret " ++ s.key,
              timestamp := now, performedBy := none } :: db.auditLogs } := by
  obtain ⟨i, hi, hget⟩ := findIdx?_of_find? _ _ _ hfind
  refine ⟨i, hget, ?_⟩
  simp only [deleteSecret, hi, hget]

theorem find?_filter_project (l : List Secret) (p e : Id) (k : String) :
    (l.filter (fun s => s.projectId == p)).find?
        (fun s => s.environmentId == e && s.key == k) =
      l.find? (fun s => s.projectId == p && s.environmentId == e && s.key == k) := by
  rw [List.find?_filter]
  congr 1
  funext s
  rw [Bool.eq_iff_iff]
  simp [and_assoc]

/-- The row of a pair is computed from the first stored secret of its triple. -/
theorem syncRow_eq_of_find? (q : Id) (l1 l2 : List Secret) (env : Environment) (k : String)
    (d : RegData)
    (h : l1.find? (fun s => s.projectId == q && s.environmentId == env.id && s.key == k) =
      l2.find? (fun s => s.projectId == q && s.environmentId == env.id && s.key == k)) :
    syncRow q (l1.filter (fun s => s.projectId == q)) env k d =
      syncRow q (l2.filter (fun s => s.projectId == q)) env k d := by
  simp only [syncRow, find?_filter_project, h]

theorem syncRow_of_find?_none (q : Id) (l1 l2 : List Secret) (env : Environment) (k : String)
    (d : RegData)
    (h : l1.find? (fun s => s.projectId == q && s.environmentId == env.id && s.key == k) =
      none) :
    syncRow q (l1.filter (fun s => s.projectId == q)) env k d =
      (syncRow q (l2.filter (fun s => s.projectId == q)) env k d).missing := by
  simp only [syncRow, find?_filter_project, h, SyncRow.missing, Option.map_none']

/-- C14 (deleting a secret). For the secret `s` that `deleteSecret(secretId)` finds, the
call removes exactly the element `s` of the secrets list and leaves every other secret,
every registry entry and every environment as it was.  When `s` is the only secret of
its (project, environment, key), the re-evaluation by `getEnvironmentSyncStatus` is, for
every project, the evaluation before with the rows of (s.environment, s.key) turned to
`MISSING` with value `null` and every other row as before. -/
theorem C14_deleteSecret_removes_one_secret (db : Db) (now : Timestamp)
    (auditId secretId : Id) (s : Secret)
    (hfind : db.secrets.find? (fun x => x.id == secretId) = some s) :
    (∃ i, db.secrets[i]? = some s ∧
      (deleteSecret db now auditId secretId).1.secrets = db.secrets.eraseIdx i) ∧
    (deleteSecret db now auditId secretId).1.projectSecretRegistry =
      db.projectSecretRegistry ∧
    (deleteSecret db now auditId secretId).1.environments = db.environments ∧
    ((db.secrets.filter (fun x => x.projectId == s.projectId &&
        x.environmentId == s.environmentId && x.key == s.key)).length ≤ 1 →
      ∀ q : Id,
        getEnvironmentSyncStatus (deleteSecret db now auditId secretId).1 q =
          (getEnvironmentSyncStatus db q).map (fun row =>
            if q = s.projectId ∧ row.environment_id = s.environmentId ∧ row.key_name = s.key
            then row.missing else row)) := by
  obtain ⟨i, hget, hdb⟩ := deleteSecret_of_find? db now auditId secretId s hfind
  rw [hdb]
  refine ⟨⟨i, hget, rfl⟩, rfl, rfl, ?_⟩
  intro hone q
  unfold getEnvironmentSyncStatus
  simp only [List.map_flatMap, List.map_map]
  congr 1
  funext env
  congr 1
  funext x
  simp only [Function.comp]
  by_cases hT : q = s.projectId ∧ env.id = s.environmentId ∧ x.1 = s.key
  · have hcond : q = s.projectId ∧
        (syncRow q (db.secrets.filter (fun s => s.projectId == q)) env x.1 x.2).environment_id =
          s.environmentId ∧
        (syncRow q (db.secrets.filter (fun s => s.projectId == q)) env x.1 x.2).key_name =
          s.key := hT
    rw [if_pos hcond]
    apply syncRow_of_find?_none
    obtain ⟨h1, h2, h3⟩ := hT
    rw [h1, h2, h3]
    exact find?_eraseIdx_eq_none _ _ i s hone hget (by simp)
  · have hcond : ¬ (q = s.projectId ∧
        (syncRow q (db.secrets.filter (fun s => s.projectId == q)) env x.1 x.2).environment_id =
          s.environmentId ∧
        (syncRow q (db.secrets.filter (fun s => s.projectId == q)) env x.1 x.2).key_name =
          s.key) := hT
    rw [if_neg hcond]
    apply syncRow_eq_of_find?
    apply find?_eraseIdx_of_false _ _ i s hget
    rw [Bool.eq_false_iff]
    simp only [ne_eq, Bool.and_eq_true, beq_iff_eq, not_and]
    rintro ⟨ha, hb⟩ hc
    exact hT ⟨ha.symm, hb.symm, hc.symm⟩

/-! ## Mark-synced -/

/-- C15 (mark-synced frame). For the secret `s` that `syncSecret(secretId)` finds, the
call replaces `s`, at its position, by `s` with `updatedAt = now` (id, project,
environment, key, value, version and lastChangedBy as they were) and changes nothing
else in the store: every other secret, every registry entry, every environment and the
audit log are as before. -/
theorem C15_syncSecret_touches_updatedAt_only (db : Db) (now : Timestamp) (secretId : Id)
    (s : Secret) (hfind : db.secrets.find? (fun x => x.id == secretId) = some s) :
    ∃ i, db.secrets[i]? = some s ∧
      (syncSecret db now secretId).1 =
        { db with
          secrets := db.secrets.set i
            { id := s.id, projectId := s.projectId, environmentId := s.environmentId,
              key := s.key, value := s.value, version := s.version, updatedAt := now,
              lastChangedBy := s.lastChangedBy } } := by
  obtain ⟨i, hget, hset⟩ := updateFirst_eq_set (fun x : Secret => x.id == secretId)
    (fun x => { x with updatedAt := now }) db.secrets s hfind
  refine ⟨i, hget, ?_⟩
  simp only [syncSecret, hfind, hset]

theorem find?_updateFirst_of_same {α : Type} (p q : α → Bool) (f : α → α) (l : List α) (s : α)
    (hf : ∀ a, q (f a) = q a) (hp : l.find? p = some s) (hq : l.find? q = some s) :
    (updateFirst p f l).find? q = some (f s) := by
  induction l with
  | nil => cases hp
  | cons a t ih =>
    by_cases hpa : p a = true
    · rw [List.find?_cons_of_pos _ hpa] at hp
      have has : a = s := Option.some.inj hp
      subst has
      have hqa : q a = true := List.find?_some hq
      rw [updateFirst, if_pos hpa, List.find?_cons_of_pos _ (by rw [hf a]; exact hqa)]
    · rw [List.find?_cons_of_neg _ hpa] at hp
      by_cases hqa : q a = true
      · rw [List.find?_cons_of_pos _ hqa] at hq
        have has : a = s := Option.some.inj hq
        subst has
        exact absurd (List.find?_some hp) hpa
      · rw [List.find?_cons_of_neg _ hqa] at hq
        rw [updateFirst, if_neg hpa, List.find?_cons_of_neg _ hqa]
        exact ih hp hq

/-- C16 (mark-synced escape hatch). Let `s` be the secret that the evaluator finds for
(s.environment, s.key) and that `syncSecret(s.id)` finds by its id, classified `OUTDATED`
by `getEnvironmentSyncStatus`.  After `syncSecret(s.id)` at a time `now` not earlier than
the registry watermark of `s.key`, `getEnvironmentSyncStatus` classifies
(s.environment, s.key) as `SYNCED` and reports the value of `s`. -/
theorem C16_syncSecret_turns_outdated_into_synced (db : Db) (now : Timestamp) (s : Secret)
    (hs : (db.secrets.filter (fun x => x.projectId == s.projectId)).find?
            (fun x => x.environmentId == s.environmentId && x.key == s.key) = some s)
    (hid : db.secrets.find? (fun x => x.id == s.id) = some s)
    (hclass : Reports (getEnvironmentSyncStatus db s.projectId) s.environmentId s.key
      "OUTDATED")
    (hnow : ∀ w, watermark db s.projectId s.key = some w → w ≤ now) :
    Reports (getEnvironmentSyncStatus (syncSecret db now s.id).1 s.projectId)
      s.environmentId s.key "SYNCED" ∧
    ∀ row ∈ getEnvironmentSyncStatus (syncSecret db now s.id).1 s.projectId,
      row.environment_id = s.environmentId → row.key_name = s.key →
        row.value = some s.value := by
  obtain ⟨⟨row, hrow, he, hk⟩, _⟩ := hclass
  obtain ⟨env, henv, hp, k, d, hd, rfl⟩ :=
    (mem_getEnvironmentSyncStatus db s.projectId row).1 hrow
  rw [syncRow_environment_id] at he
  rw [syncRow_key_name] at hk
  subst hk
  have hdb : (syncSecret db now s.id).1 =
      { db with secrets :=
          (updateFirst (fun x : Secret => x.id == s.id) (fun x => { x with updatedAt := now })
            db.secrets) } := by
    simp only [syncSecret, hid]
  have hw : d.lastUpdatedAt ≤ now := by
    apply hnow
    unfold watermark
    rw [hd]
    rfl
  rw [find?_filter_project] at hs
  have hfind2 : (updateFirst (fun x : Secret => x.id == s.id)
      (fun x => { x with updatedAt := now }) db.secrets).find?
      (fun x => x.projectId == s.projectId && x.environmentId == env.id && x.key == s.key) =
      some { s with updatedAt := now } := by
    rw [he]
    exact find?_updateFirst_of_same _ _ _ _ s (fun a => rfl) hid hs
  have hd2 : JsObject.get (getSecretRegistry (syncSecret db now s.id).1 s.projectId) s.key =
      some d := by
    rw [hdb]; exact hd
  have henv2 : env ∈ (syncSecret db now s.id).1.environments := by
    rw [hdb]; exact henv
  obtain ⟨hex, hall⟩ := rows_of_pair (syncSecret db now s.id).1 s.projectId env s.key d
    henv2 hp hd2
  have hrowval : (syncRow s.projectId
      ((syncSecret db now s.id).1.secrets.filter (fun x => x.projectId == s.projectId))
      env s.key d).sync_status = "SYNCED" ∧
      (syncRow s.projectId
      ((syncSecret db now s.id).1.secrets.filter (fun x => x.projectId == s.projectId))
      env s.key d).value = some s.value := by
    rw [hdb]
    simp only [syncRow, find?_filter_project, hfind2, Option.map_some']
    have : ¬ (now < d.lastUpdatedAt) := not_lt.2 hw
    simp [this]
  rw [← he]
  refine ⟨⟨hex, ?_⟩, ?_⟩
  · intro row2 hrow2 he2 hk2
    rw [(hall row2 hrow2 he2 hk2).1]
    exact hrowval.1
  · intro row2 hrow2 he2 hk2
    rw [(hall row2 hrow2 he2 hk2).2]
    exact hrowval.2

/-! ## Propagation -/

theorem length_filter_secrets (l : List Secret) (p e : Id) (k : String) :
    (l.filter (fun s => s.projectId == p && s.environmentId == e && s.key == k)).length =
      l.countP (fun s => decide
        ((fun s : Secret => (s.projectId, s.environmentId, s.key)) s = (p, e, k))) := by
  rw [List.countP_eq_length_filter]
  congr 2
  funext s
  rw [Bool.eq_iff_iff]
  simp [and_assoc]

theorem length_filter_le_one_of_unique (db : Db) (h : UniqueSecrets db) (p e : Id)
    (k : String) :
    (db.secrets.filter
      (fun s => s.projectId == p && s.environmentId == e && s.key == k)).length ≤ 1 := by
  rw [length_filter_secrets]
  exact countP_le_one_of_nodup_map _ _ _ h

/-- One `saveSecret` with value `V` on the triple leaves exactly one secret of the triple,
with value `V`, when there was at most one before. -/
theorem saveSecret_filter_self_of_le_one (db : Db) (now : Timestamp) (ids : SaveIds) (p e : Id)
    (k v : String) (u : Option User)
    (h : (db.secrets.filter
      (fun s => s.projectId == p && s.environmentId == e && s.key == k)).length ≤ 1) :
    ∃ s, (saveSecret db now ids p e k v u).1.secrets.filter
        (fun s => s.projectId == p && s.environmentId == e && s.key == k) = [s] ∧
      s.value = v := by
  rw [saveSecret_secrets_filter_self]
  cases hfl : db.secrets.filter
      (fun s => s.projectId == p && s.environmentId == e && s.key == k) with
  | nil => exact ⟨_, rfl, rfl⟩
  | cons s t =>
    rw [hfl] at h
    cases t with
    | nil => exact ⟨_, rfl, rfl⟩
    | cons s2 t2 => simp at h

/-- The secrets of a triple along the calls of a propagation none of which is refused:
when every call on the triple carries the value `V` and the store has at most one secret of
the triple, it has at most one afterwards, and exactly one, with value `V`, as soon as one
of the calls is on the triple. -/
theorem callEach_secrets_of_triple (draws : Nat → Draw)
    (hok : ∀ n, (draws n).storageError = none) (p : Id) (u : Option User) (B : Id)
    (K V : String) :
    ∀ (calls : List ApiCall) (n : Nat) (db : Db),
      (∀ c ∈ calls, ∃ e k v, c = ApiCall.saveSecret p e k v u ∧ (e = B → k = K → v = V)) →
      (db.secrets.filter
        (fun s => s.projectId == p && s.environmentId == B && s.key == K)).length ≤ 1 →
      ((callEach draws n db calls).1.secrets.filter
        (fun s => s.projectId == p && s.environmentId == B && s.key == K)).length ≤ 1 ∧
      ((∃ s, db.secrets.filter
          (fun s => s.projectId == p && s.environmentId == B && s.key == K) = [s] ∧
          s.value = V) →
        ∃ s, (callEach draws n db calls).1.secrets.filter
          (fun s => s.projectId == p && s.environmentId == B && s.key == K) = [s] ∧
          s.value = V) ∧
      ((∃ v, ApiCall.saveSecret p B K v u ∈ calls) →
        ∃ s, (callEach draws n db calls).1.secrets.filter
          (fun s => s.projectId == p && s.environmentId == B && s.key == K) = [s] ∧
          s.value = V) := by
  intro calls
  induction calls with
  | nil =>
    intro n db _ hle
    exact ⟨hle, fun h => h, fun ⟨v, hv⟩ => absurd hv (List.not_mem_nil _)⟩
  | cons c rest ih =>
    intro n db hcalls hle
    obtain ⟨e, k, v, rfl, hv⟩ := hcalls c (List.mem_cons_self _ _)
    have hrest : ∀ c ∈ rest, ∃ e k v, c = ApiCall.saveSecret p e k v u ∧
        (e = B → k = K → v = V) := fun c hc => hcalls c (List.mem_cons_of_mem _ hc)
    have hstep : (callEach draws n db (ApiCall.saveSecret p e k v u :: rest)).1 =
        (callEach draws (n + 1)
          (saveSecret db (draws n).now (draws n).ids p e k v u).1 rest).1 := by
      simp only [callEach, ApiCall.attempt, hok n]
    rw [hstep]
    by_cases hsame : e = B ∧ k = K
    · obtain ⟨rfl, rfl⟩ := hsame
      have hV : v = V := hv rfl rfl
      subst hV
      obtain ⟨s, hs, hsv⟩ := saveSecret_filter_self_of_le_one db (draws n).now (draws n).ids
        p e k v u hle
      obtain ⟨h1, h2, _⟩ := ih (n + 1) (saveSecret db (draws n).now (draws n).ids p e k v u).1
        hrest (by rw [hs]; exact Nat.le_refl 1)
      exact ⟨h1, fun _ => h2 ⟨s, hs, hsv⟩, fun _ => h2 ⟨s, hs, hsv⟩⟩
    · have hother := saveSecret_secrets_filter_other db (draws n).now (draws n).ids p e k v u
        p B K (fun h => hsame ⟨h.2.1.symm, h.2.2.symm⟩)
      obtain ⟨h1, h2, h3⟩ := ih (n + 1)
        (saveSecret db (draws n).now (draws n).ids p e k v u).1 hrest (by rw [hother]; exact hle)
      refine ⟨h1, fun h => h2 (by rw [hother]; exact h), ?_⟩
      rintro ⟨v2, hv2⟩
      rcases List.mem_cons.1 hv2 with h | h
      · cases h
        exact absurd ⟨rfl, rfl⟩ hsame
      · exact h3 ⟨v2, h⟩

theorem handlePropagationConfirm_store (draws : Nat → Draw) (db : Db) (view : View)
    (targets : List Id) (hne : view.propagation.affectedSecrets ≠ []) :
    (handlePropagationConfirm draws db view targets).1 =
      (callEach draws 0 db (propagationCalls view targets)).1 := by
  have hlen : (view.propagation.affectedSecrets.length == 0) = false := by
    cases h : view.propagation.affectedSecrets with
    | nil => exact absurd h hne
    | cons a t => rfl
  simp only [handlePropagationConfirm, hlen, Bool.false_eq_true, if_false]
  cases promiseAll (callEach draws 0 db (propagationCalls view targets)).2 <;> rfl

/-- C17 (propagation is a broadcast). For committed pairs with pairwise distinct keys:
after `handlePropagationConfirm(targets)` completes with no call refused, for every
selected environment `B` (an environment id, so not the empty string) and every committed
`(K, V)`, whatever `B` held for `K` before (one secret with any value, or none),
`getSecrets(project, B)` holds exactly one secret with key `K`, and its value is `V`. -/
theorem C17_propagation_overwrites_every_target (draws : Nat → Draw) (db : Db) (view : View)
    (targets : List Id) (B : Id) (K V : String)
    (hok : ∀ n, (draws n).storageError = none)
    (hone : (db.secrets.filter (fun s => s.projectId == view.projectId &&
      s.environmentId == B && s.key == K)).length ≤ 1)
    (hkeys : (view.propagation.affectedSecrets.map (fun a => a.key)).Nodup)
    (hB : B ∈ targets) (hBne : B ≠ "")
    (hKV : { key := K, value := V } ∈ view.propagation.affectedSecrets) :
    ∃ s, (getSecrets (handlePropagationConfirm draws db view targets).1 view.projectId
        (some B)).filter (fun x => x.key == K) = [s] ∧ s.value = V := by
  have hne : view.propagation.affectedSecrets ≠ [] := List.ne_nil_of_mem hKV
  rw [handlePropagationConfirm_store draws db view targets hne]
  have hcalls : ∀ c ∈ propagationCalls view targets,
      ∃ e k v, c = ApiCall.saveSecret view.projectId e k v view.user ∧
        (e = B → k = K → v = V) := by
    intro c hc
    simp only [propagationCalls, List.mem_flatMap, List.mem_map] at hc
    obtain ⟨e, _, a, ha, rfl⟩ := hc
    refine ⟨e, a.key, a.value, rfl, ?_⟩
    intro _ hk
    have := List.inj_on_of_nodup_map hkeys ha hKV hk
    rw [this]
  have hmem : ∃ v, ApiCall.saveSecret view.projectId B K v view.user ∈
      propagationCalls view targets := by
    refine ⟨V, ?_⟩
    simp only [propagationCalls, List.mem_flatMap, List.mem_map]
    exact ⟨B, hB, { key := K, value := V }, hKV, rfl⟩
  obtain ⟨s, hs, hsv⟩ := (callEach_secrets_of_triple draws hok view.projectId view.user B K V
    (propagationCalls view targets) 0 db hcalls hone).2.2 hmem
  refine ⟨s, ?_, hsv⟩
  rw [← hs]
  simp only [getSecrets, hBne, ne_eq, not_false_eq_true, if_true, List.filter_filter]
  congr 1
  funext x
  rw [Bool.eq_iff_iff]
  simp [and_comm, and_assoc]

/-! ## Committing the drafts -/

theorem attempt_of_no_error (db : Db) (d : Draw) (c : ApiCall) (h : d.storageError = none) :
    (c.attempt db d).2 = none := by
  cases c with
  | saveSecret p e k v u => simp only [ApiCall.attempt, h]
  | updateSecretDescription p k desc =>
    simp only [ApiCall.attempt, h]
    split <;> simp_all

theorem awaitEach_of_no_error (draws : Nat → Draw) (hok : ∀ n, (draws n).storageError = none) :
    ∀ (calls : List ApiCall) (n : Nat) (db : Db), (awaitEach draws n db calls).2 = none := by
  intro calls
  induction calls with
  | nil => intro n db; rfl
  | cons c rest ih =>
    intro n db
    have h := attempt_of_no_error db (draws n) c (hok n)
    rw [awaitEach]
    cases hc : c.attempt db (draws n) with
    | mk db1 r =>
      rw [hc] at h
      simp only at h
      subst h
      exact ih (n + 1) db1

/-- C18, as stated, fails: on the seed document, with Development selected, no value
draft and one description draft, `handleGlobalSave` succeeds (no error is set, nothing is
committed as a value) and leaves the propagation modal open. -/
theorem C18_counterexample_description_only_save_opens_modal :
    pendingUpdates
      { loadSecrets (initialData 100 200 200 0) (initialView "p1" "e1" none) with
        descDrafts := [("DATABASE_URL", "Primary database")] } = [] ∧
    (handleGlobalSave (fun _ => { now := 300, ids := ⟨"r2", "s3", "a1"⟩, storageError := none })
      (initialData 100 200 200 0)
      { loadSecrets (initialData 100 200 200 0) (initialView "p1" "e1" none) with
        descDrafts := [("DATABASE_URL", "Primary database")] }).2.error = none ∧
    (handleGlobalSave (fun _ => { now := 300, ids := ⟨"r2", "s3", "a1"⟩, storageError := none })
      (initialData 100 200 200 0)
      { loadSecrets (initialData 100 200 200 0) (initialView "p1" "e1" none) with
        descDrafts := [("DATABASE_URL", "Primary database")] }).2.propagation.isOpen = true := by
  decide

theorem loadSecrets_propagation (db : Db) (view : View) :
    (loadSecrets db view).propagation = view.propagation := by
  unfold loadSecrets
  split <;> rfl

/-- The propagation state after a `handleGlobalSave` none of whose calls is refused. -/
theorem handleGlobalSave_propagation (draws : Nat → Draw)
    (hok : ∀ n, (draws n).storageError = none) (db : Db) (view : View) :
    (handleGlobalSave draws db view).2.propagation =
      if (pendingUpdates view).length > 0 ∨ (JsObject.entries view.descDrafts).length > 0 then
        { isOpen := true
          affectedSecrets := pendingUpdates view
          affectedDescriptions :=
            some ((JsObject.entries view.descDrafts).map
              (fun draft => { key := draft.1, value := draft.2 })) }
      else view.propagation := by
  have hle : (pendingUpdates view).length ≤ (JsObject.entries view.drafts).length :=
    List.length_filterMap_le _ _
  have hnone := awaitEach_of_no_error draws hok (globalSaveCalls view) 0 db
  unfold handleGlobalSave
  simp only [List.length_map]
  by_cases hearly : ((JsObject.entries view.drafts).length == 0 &&
      (JsObject.entries view.descDrafts).length == 0) = true
  · rw [if_pos hearly]
    simp only [Bool.and_eq_true, beq_iff_eq] at hearly
    have h1 : ¬ ((pendingUpdates view).length > 0 ∨
        (JsObject.entries view.descDrafts).length > 0) := by omega
    rw [if_neg h1]
  · rw [if_neg hearly]
    cases hrun : awaitEach draws 0 db (globalSaveCalls view) with
    | mk db1 r =>
      rw [hrun] at hnone
      simp only at hnone
      subst hnone
      simp only []
      by_cases hoff : (pendingUpdates view).length > 0 ∨
          (JsObject.entries view.descDrafts).length > 0
      · have hb : (decide ((pendingUpdates view).length > 0) ||
            decide ((JsObject.entries view.descDrafts).length > 0)) = true := by
          simpa using hoff
        rw [if_pos hb, if_pos hoff]
      · have hb : ¬ (decide ((pendingUpdates view).length > 0) ||
            decide ((JsObject.entries view.descDrafts).length > 0)) = true := by
          simpa using hoff
        rw [if_neg hb, if_neg hoff]
        exact loadSecrets_propagation db1 view

/-- C18, amended. A `handleGlobalSave` none of whose calls is refused opens the
propagation modal exactly when at least one secret value was committed or at least one
description draft was saved (otherwise it leaves the propagation state as it was).  After
a description-only save the modal is open with an empty `affectedSecrets`, and with it
`handlePropagationConfirm` returns at once for every selection of targets: no call is
made, the store and the state stay as they are. -/
theorem C18_global_save_opens_modal_for_values_or_descriptions (draws : Nat → Draw)
    (hok : ∀ n, (draws n).storageError = none) (db : Db) (view : View) :
    (((pendingUpdates view).length > 0 ∨ (JsObject.entries view.descDrafts).length > 0) →
      (handleGlobalSave draws db view).2.propagation.isOpen = true ∧
      (handleGlobalSave draws db view).2.propagation.affectedSecrets = pendingUpdates view) ∧
    (¬ ((pendingUpdates view).length > 0 ∨ (JsObject.entries view.descDrafts).length > 0) →
      (handleGlobalSave draws db view).2.propagation = view.propagation) ∧
    (pendingUpdates view = [] → (JsObject.entries view.descDrafts).length > 0 →
      (handleGlobalSave draws db view).2.propagation.isOpen = true ∧
      ∀ (draws2 : Nat → Draw) (targets : List Id),
        handlePropagationConfirm draws2 (handleGlobalSave draws db view).1
            (handleGlobalSave draws db view).2 targets =
          ((handleGlobalSave draws db view).1, (handleGlobalSave draws db view).2)) := by
  have hprop := handleGlobalSave_propagation draws hok db view
  refine ⟨?_, ?_, ?_⟩
  · intro h
    rw [if_pos h] at hprop
    rw [hprop]
    exact ⟨rfl, rfl⟩
  · intro h
    rw [if_neg h] at hprop
    exact hprop
  · intro hnil hdesc
    rw [if_pos (Or.inr hdesc)] at hprop
    refine ⟨by rw [hprop], ?_⟩
    intro draws2 targets
    have hempty : (handleGlobalSave draws db view).2.propagation.affectedSecrets = [] := by
      rw [hprop]; exact hnil
    simp only [handlePropagationConfirm, hempty, List.length_nil, beq_self_eq_true, if_true]

theorem getElem?_updateFirst_of_false {α : Type} (p : α → Bool) (f : α → α) (l : List α)
    (i : Nat) (x : α) (hget : l[i]? = some x) (hp : p x = false) :
    (updateFirst p f l)[i]? = some x := by
  induction l generalizing i with
  | nil => simp at hget
  | cons a t ih =>
    cases i with
    | zero =>
      simp only [List.getElem?_cons_zero, Option.some.injEq] at hget
      subst hget
      simp [updateFirst, hp]
    | succ j =>
      simp only [List.getElem?_cons_succ] at hget
      by_cases hpa : p a = true
      · simp [updateFirst, hpa, hget]
      · simp [updateFirst, hpa, ih j hget]

/-- A `saveSecret` leaves in place every secret that is not of its triple. -/
theorem saveSecret_getElem? (db : Db) (now : Timestamp) (ids : SaveIds) (p e : Id)
    (k v : String) (u : Option User) (i : Nat) (x : Secret)
    (hget : db.secrets[i]? = some x)
    (hx : ¬ (x.projectId = p ∧ x.environmentId = e ∧ x.key = k)) :
    (saveSecret db now ids p e k v u).1.secrets[i]? = some x := by
  have hpx : (fun s : Secret => s.projectId == p && s.environmentId == e && s.key == k) x
      = false := by
    rw [Bool.eq_false_iff]
    simp only [ne_eq, Bool.and_eq_true, beq_iff_eq, not_and]
    rintro ⟨h1, h2⟩ h3
    exact hx ⟨h1, h2, h3⟩
  cases hs : db.secrets.find?
      (fun s => s.projectId == p && s.environmentId == e && s.key == k) with
  | none =>
    simp only [saveSecret, hs]
    have hlt : i < db.secrets.length := (List.getElem?_eq_some_iff.1 hget).1
    rw [List.getElem?_append_left hlt]
    exact hget
  | some s =>
    simp only [saveSecret, hs]
    exact getElem?_updateFirst_of_false _ _ _ i x hget hpx

/-- A call of the `api` object, refused or not, leaves in place every secret that is not
of the triple of a `saveSecret`. -/
theorem attempt_getElem? (db : Db) (d : Draw) (c : ApiCall) (i : Nat) (x : Secret)
    (hget : db.secrets[i]? = some x)
    (hx : ∀ p e k v u, c = ApiCall.saveSecret p e k v u →
      ¬ (x.projectId = p ∧ x.environmentId = e ∧ x.key = k)) :
    (c.attempt db d).1.secrets[i]? = some x := by
  cases c with
  | saveSecret p e k v u =>
    simp only [ApiCall.attempt]
    split
    · exact hget
    · exact saveSecret_getElem? db d.now d.ids p e k v u i x hget (hx p e k v u rfl)
  | updateSecretDescription p k desc =>
    simp only [ApiCall.attempt]
    split
    · exact hget
    · rw [updateSecretDescription_secrets]
      exact hget

theorem awaitEach_getElem? (draws : Nat → Draw) (i : Nat) (x : Secret) :
    ∀ (calls : List ApiCall) (n : Nat) (db : Db),
      db.secrets[i]? = some x →
      (∀ c ∈ calls, ∀ p e k v u, c = ApiCall.saveSecret p e k v u →
        ¬ (x.projectId = p ∧ x.environmentId = e ∧ x.key = k)) →
      (awaitEach draws n db calls).1.secrets[i]? = some x := by
  intro calls
  induction calls with
  | nil => intro n db hget _; exact hget
  | cons c rest ih =>
    intro n db hget hx
    have h1 := attempt_getElem? db (draws n) c i x hget (hx c (List.mem_cons_self _ _))
    rw [awaitEach]
    cases hc : c.attempt db (draws n) with
    | mk db1 r =>
      rw [hc] at h1
      cases r with
      | some message => exact h1
      | none => exact ih (n + 1) db1 h1 (fun c hc => hx c (List.mem_cons_of_mem _ hc))

theorem handleGlobalSave_store (draws : Nat → Draw) (db : Db) (view : View) :
    (handleGlobalSave draws db view).1 = db ∨
    (handleGlobalSave draws db view).1 = (awaitEach draws 0 db (globalSaveCalls view)).1 := by
  unfold handleGlobalSave
  simp only []
  split
  · exact Or.inl rfl
  · refine Or.inr ?_
    cases hrun : awaitEach draws 0 db (globalSaveCalls view) with
    | mk db1 r =>
      cases r <;> rfl

/-- The `saveSecret` calls of `handleGlobalSave` are on the current environment, with the
key of a shown secret whose id is a key of `drafts`. -/
theorem globalSaveCalls_saveSecret (view : View) (c : ApiCall) (hc : c ∈ globalSaveCalls view)
    (p e : Id) (k v : String) (u : Option User) (h : c = ApiCall.saveSecret p e k v u) :
    p = view.projectId ∧ e = view.currentEnvId ∧
    ∃ sv ∈ view.secrets, sv.key = k ∧
      sv.id ∈ (JsObject.entries view.drafts).map Prod.fst := by
  subst h
  simp only [globalSaveCalls, List.mem_append, List.mem_map] at hc
  rcases hc with ⟨upd, hupd, heq⟩ | ⟨draft, _, heq⟩
  · cases heq
    simp only [pendingUpdates, List.mem_filterMap, Option.map_eq_some'] at hupd
    obtain ⟨draft, hdraft, sv, hsv, rfl⟩ := hupd
    refine ⟨rfl, rfl, sv, List.mem_of_find?_eq_some hsv, rfl, ?_⟩
    have hid := List.find?_some hsv
    simp only [beq_iff_eq] at hid
    rw [hid]
    exact List.mem_map_of_mem Prod.fst hdraft
  · cases heq

/-- C19 (committing writes to the current environment only). After `handleGlobalSave`,
whatever calls are refused, every secret of the store whose environment is not the current
one is in its place, unchanged.  When the secrets shown are secrets of the store in the
current project and environment (as `loadSecrets` sets them) and the store has at most
one secret per triple, every secret whose id is not a key of `drafts` is in its place,
unchanged as well. -/
theorem C19_global_save_writes_current_environment_only (draws : Nat → Draw) (db : Db)
    (view : View) :
    (∀ (i : Nat) (x : Secret), db.secrets[i]? = some x →
      x.environmentId ≠ view.currentEnvId →
      (handleGlobalSave draws db view).1.secrets[i]? = some x) ∧
    ((∀ sv ∈ view.secrets, sv ∈ db.secrets ∧ sv.projectId = view.projectId ∧
        sv.environmentId = view.currentEnvId) →
      UniqueSecrets db →
      ∀ (i : Nat) (x : Secret), db.secrets[i]? = some x →
        x.id ∉ (JsObject.entries view.drafts).map Prod.fst →
        (handleGlobalSave draws db view).1.secrets[i]? = some x) := by
  refine ⟨?_, ?_⟩
  · intro i x hget henv
    rcases handleGlobalSave_store draws db view with h | h
    · rw [h]; exact hget
    · rw [h]
      apply awaitEach_getElem? draws i x _ 0 db hget
      intro c hc p e k v u hcu hx
      obtain ⟨_, he, _⟩ := globalSaveCalls_saveSecret view c hc p e k v u hcu
      exact henv (by rw [hx.2.1, he])
  · intro hview huniq i x hget hid
    rcases handleGlobalSave_store draws db view with h | h
    · rw [h]; exact hget
    · rw [h]
      apply awaitEach_getElem? draws i x _ 0 db hget
      intro c hc p e k v u hcu hx
      obtain ⟨hp, he, sv, hsv, hk, hsvid⟩ := globalSaveCalls_saveSecret view c hc p e k v u hcu
      obtain ⟨hsvdb, hsvp, hsve⟩ := hview sv hsv
      have hxsv : x = sv := by
        apply List.inj_on_of_nodup_map huniq (List.getElem?_mem hget) hsvdb
        simp only [Prod.mk.injEq]
        exact ⟨by rw [hx.1, hp, hsvp], by rw [hx.2.1, he, hsve], by rw [hx.2.2, hk]⟩
      exact hid (by rw [hxsv]; exact hsvid)

theorem length_propagationCalls (view : View) (targets : List Id) :
    (propagationCalls view targets).length =
      targets.length * view.propagation.affectedSecrets.length := by
  unfold propagationCalls
  induction targets with
  | nil => simp
  | cons e rest ih =>
    rw [List.flatMap_cons, List.length_append, ih, List.length_map, List.length_cons,
      Nat.succ_mul, Nat.add_comm]

/-- The calls of a propagation, one by one: every call is made and is settled by its own
draw; the store at the end is the store after the calls that were not refused, made in
order. -/
theorem callEach_saveSecret_calls (draws : Nat → Draw) :
    ∀ (calls : List ApiCall) (n : Nat) (db : Db),
      (∀ c ∈ calls, ∃ p e k v u, c = ApiCall.saveSecret p e k v u) →
      (callEach draws n db calls).1 =
        ((List.enumFrom n calls).filter (fun ic => (draws ic.1).storageError.isNone)).foldl
          (fun acc ic => (ic.2.attempt acc (draws ic.1)).1) db ∧
      (callEach draws n db calls).2 =
        (List.range' n calls.length).map (fun i => (draws i).storageError) := by
  intro calls
  induction calls with
  | nil => intro n db _; exact ⟨rfl, rfl⟩
  | cons c rest ih =>
    intro n db hcalls
    obtain ⟨p, e, k, v, u, rfl⟩ := hcalls _ (List.mem_cons_self _ _)
    have hrest : ∀ c ∈ rest, ∃ p e k v u, c = ApiCall.saveSecret p e k v u :=
      fun c hc => hcalls c (List.mem_cons_of_mem _ hc)
    cases herr : (draws n).storageError with
    | none =>
      obtain ⟨h1, h2⟩ := ih (n + 1)
        ((ApiCall.saveSecret p e k v u).attempt db (draws n)).1 hrest
      refine ⟨?_, ?_⟩
      · simp only [callEach, List.enumFrom_cons, List.filter_cons, herr, Option.isNone_none,
          if_true, List.foldl_cons]
        exact h1
      · simp only [callEach, List.length_cons, List.range'_succ, List.map_cons, h2]
        simp only [ApiCall.attempt, herr]
    | some message =>
      have hdb : ((ApiCall.saveSecret p e k v u).attempt db (draws n)).1 = db := by
        simp only [ApiCall.attempt, herr]
      obtain ⟨h1, h2⟩ := ih (n + 1) db hrest
      refine ⟨?_, ?_⟩
      · simp only [callEach, List.enumFrom_cons, List.filter_cons, herr, Option.isNone_some,
          Bool.false_eq_true, if_false, hdb]
        exact h1
      · simp only [callEach, List.length_cons, List.range'_succ, List.map_cons, hdb, h2]
        simp only [ApiCall.attempt, herr]

theorem propagationCalls_of_nil (view : View) (targets : List Id)
    (h : view.propagation.affectedSecrets = []) : propagationCalls view targets = [] := by
  apply List.eq_nil_of_length_eq_zero
  rw [length_propagationCalls, h, List.length_nil, Nat.mul_zero]

/-- C20 (propagation is best-effort). For every selection of targets, every list of
committed secrets and every choice of the calls that the storage refuses:
`handlePropagationConfirm` makes the `saveSecret` call of every (selected environment,
committed secret) pair, each settled by its own draw alone; the store afterwards is the
store after exactly the calls that were not refused, made in order (nothing is rolled
back); when no call is refused the error state is left as it was (and the modal is closed,
if there was a committed secret); when some call is refused, the error state is set to
`Propagation failed: ` followed by a reason, and the modal stays as it was. -/
theorem C20_propagation_is_best_effort (draws : Nat → Draw) (db : Db) (view : View)
    (targets : List Id) :
    (propagationCalls view targets).length =
      targets.length * view.propagation.affectedSecrets.length ∧
    (callEach draws 0 db (propagationCalls view targets)).2 =
      (List.range (propagationCalls view targets).length).map
        (fun i => (draws i).storageError) ∧
    (handlePropagationConfirm draws db view targets).1 =
      ((List.enumFrom 0 (propagationCalls view targets)).filter
          (fun ic => (draws ic.1).storageError.isNone)).foldl
        (fun acc ic => (ic.2.attempt acc (draws ic.1)).1) db ∧
    ((∀ i, i < (propagationCalls view targets).length → (draws i).storageError = none) →
      (handlePropagationConfirm draws db view targets).2.error = view.error ∧
      (view.propagation.affectedSecrets ≠ [] →
        (handlePropagationConfirm draws db view targets).2.propagation.isOpen = false)) ∧
    ((∃ i, i < (propagationCalls view targets).length ∧ (draws i).storageError ≠ none) →
      (∃ message, (handlePropagationConfirm draws db view targets).2.error =
        some ("Propagation failed: " ++ message)) ∧
      (handlePropagationConfirm draws db view targets).2.propagation = view.propagation) := by
  have hcalls : ∀ c ∈ propagationCalls view targets,
      ∃ p e k v u, c = ApiCall.saveSecret p e k v u := by
    intro c hc
    simp only [propagationCalls, List.mem_flatMap, List.mem_map] at hc
    obtain ⟨e, _, a, _, rfl⟩ := hc
    exact ⟨_, _, _, _, _, rfl⟩
  obtain ⟨hstore, hsettled⟩ := callEach_saveSecret_calls draws (propagationCalls view targets)
    0 db hcalls
  rw [← List.range_eq_range'] at hsettled
  refine ⟨length_propagationCalls view targets, hsettled, ?_⟩
  by_cases hne : view.propagation.affectedSecrets = []
  · have hnil := propagationCalls_of_nil view targets hne
    have hres : handlePropagationConfirm draws db view targets = (db, view) := by
      simp only [handlePropagationConfirm, hne, List.length_nil, beq_self_eq_true, if_true]
    rw [hres, hnil]
    refine ⟨rfl, fun _ => ⟨rfl, fun h => absurd hne h⟩, ?_⟩
    rintro ⟨i, hi, _⟩
    exact absurd hi (Nat.not_lt_zero i)
  · have hlen : (view.propagation.affectedSecrets.length == 0) = false := by
      cases h : view.propagation.affectedSecrets with
      | nil => exact absurd h hne
      | cons a t => rfl
    refine ⟨?_, ?_, ?_⟩
    · rw [handlePropagationConfirm_store draws db view targets hne]
      exact hstore
    · intro hall
      have hnone :
          promiseAll (callEach draws 0 db (propagationCalls view targets)).2 = none := by
        rw [hsettled, promiseAll, List.findSome?_eq_none_iff]
        intro x hx
        obtain ⟨i, hi, rfl⟩ := List.mem_map.1 hx
        exact hall i (List.mem_range.1 hi)
      simp only [handlePropagationConfirm, hlen, Bool.false_eq_true, if_false, hnone]
      exact ⟨trivial, fun _ => trivial⟩
    · rintro ⟨i, hi, herr⟩
      have hsome : ∃ message,
          promiseAll (callEach draws 0 db (propagationCalls view targets)).2 =
            some message := by
        cases hp : promiseAll (callEach draws 0 db (propagationCalls view targets)).2 with
        | some message => exact ⟨message, rfl⟩
        | none =>
          rw [hsettled, promiseAll, List.findSome?_eq_none_iff] at hp
          exact absurd (hp _ (List.mem_map.2 ⟨i, List.mem_range.2 hi, rfl⟩)) herr
      obtain ⟨message, hmsg⟩ := hsome
      simp only [handlePropagationConfirm, hlen, Bool.false_eq_true, if_false, hmsg]
      refine ⟨⟨message, ?_⟩, ?_⟩ <;> trivial

/-! ## Invariants and handlers at the seed document -/

/-- C12 at the seed document: after saving `API_KEY` in Production the triples are still
distinct. -/
theorem C12_witness_seed_save :
    UniqueSecrets
      (step (initialData 100 200 200 0)
        (Op.saveSecret 300 ⟨"r2", "s3", "a1"⟩ "p1" "e3" "API_KEY" "k" none)) :=
  C12_unique_secret_per_triple_is_preserved (initialData 100 200 200 0)
    (Op.saveSecret 300 ⟨"r2", "s3", "a1"⟩ "p1" "e3" "API_KEY" "k" none)
    (by unfold UniqueSecrets; decide)

/-- C13 from the seed document emptied of secrets and registry entries: `API_KEY` is
written in Development, written again in Staging, and its Development secret is deleted;
one registry entry remains. -/
theorem C13_witness_entry_outlives_secret :
    ((run { initialData 100 200 200 0 with secrets := [], projectSecretRegistry := [] }
        [ Op.saveSecret 300 ⟨"r2", "s3", "a1"⟩ "p1" "e1" "API_KEY" "k" none,
          Op.saveSecret 310 ⟨"r3", "s4", "a2"⟩ "p1" "e2" "API_KEY" "k" none,
          Op.deleteSecret 320 "a3" "s3",
          Op.deleteSecret 330 "a4" "s4" ]).projectSecretRegistry.filter
      (fun r => r.projectId == "p1" && r.key == "API_KEY")).length = 1 :=
  (C13_one_registry_entry_per_written_key
      { initialData 100 200 200 0 with secrets := [], projectSecretRegistry := [] }
      [ Op.saveSecret 300 ⟨"r2", "s3", "a1"⟩ "p1" "e1" "API_KEY" "k" none,
        Op.saveSecret 310 ⟨"r3", "s4", "a2"⟩ "p1" "e2" "API_KEY" "k" none,
        Op.deleteSecret 320 "a3" "s3",
        Op.deleteSecret 330 "a4" "s4" ]
      rfl rfl).1 "p1" "API_KEY"
    ⟨300, ⟨"r2", "s3", "a1"⟩, "e1", "k", none, List.mem_cons_self _ _⟩

/-- C14 at the seed document: deleting `s2` removes the second element of the secrets
list. -/
theorem C14_witness_seed_delete_staging :
    ∃ i, (initialData 100 200 200 0).secrets[i]? =
        some { id := "s2", projectId := "p1", environmentId := "e2", key := "DATABASE_URL",
               value := "postgres://staging-db.internal:5432/db", version := 1,
               updatedAt := 200, lastChangedBy := none } ∧
      (deleteSecret (initialData 100 200 200 0) 300 "a1" "s2").1.secrets =
        (initialData 100 200 200 0).secrets.eraseIdx i :=
  (C14_deleteSecret_removes_one_secret (initialData 100 200 200 0) 300 "a1" "s2"
    { id := "s2", projectId := "p1", environmentId := "e2", key := "DATABASE_URL",
      value := "postgres://staging-db.internal:5432/db", version := 1,
      updatedAt := 200, lastChangedBy := none }
    (by decide)).1

/-- C15 at the seed document: mark-synced of `s1` at 300. -/
theorem C15_witness_seed_sync :
    ∃ i, (initialData 100 200 200 0).secrets[i]? =
        some { id := "s1", projectId := "p1", environmentId := "e1", key := "DATABASE_URL",
               value := "postgres://localhost:5432/db", version := 1, updatedAt := 100,
               lastChangedBy := none } ∧
      (syncSecret (initialData 100 200 200 0) 300 "s1").1 =
        { initialData 100 200 200 0 with
          secrets := (initialData 100 200 200 0).secrets.set i
            { id := "s1", projectId := "p1", environmentId := "e1", key := "DATABASE_URL",
              value := "postgres://localhost:5432/db", version := 1, updatedAt := 300,
              lastChangedBy := none } } :=
  C15_syncSecret_touches_updatedAt_only (initialData 100 200 200 0) 300 "s1"
    { id := "s1", projectId := "p1", environmentId := "e1", key := "DATABASE_URL",
      value := "postgres://localhost:5432/db", version := 1, updatedAt := 100,
      lastChangedBy := none }
    (by decide)

/-- C16 at the seed document: `s1`, written at 100 under the watermark 200, is `SYNCED`
after mark-synced at 300. -/
theorem C16_witness_seed_sync_development :
    Reports (getEnvironmentSyncStatus (syncSecret (initialData 100 200 200 0) 300 "s1").1 "p1")
      "e1" "DATABASE_URL" "SYNCED" :=
  (C16_syncSecret_turns_outdated_into_synced (initialData 100 200 200 0) 300
    { id := "s1", projectId := "p1", environmentId := "e1", key := "DATABASE_URL",
      value := "postgres://localhost:5432/db", version := 1, updatedAt := 100,
      lastChangedBy := none }
    (by decide) (by decide) (by unfold Reports; decide)
    (by
      intro w hw
      have h200 : watermark (initialData 100 200 200 0) "p1" "DATABASE_URL" = some 200 := by
        decide
      rw [show watermark (initialData 100 200 200 0)
          ({ id := "s1", projectId := "p1", environmentId := "e1", key := "DATABASE_URL",
             value := "postgres://localhost:5432/db", version := 1, updatedAt := 100,
             lastChangedBy := none } : Secret).projectId
          ({ id := "s1", projectId := "p1", environmentId := "e1", key := "DATABASE_URL",
             value := "postgres://localhost:5432/db", version := 1, updatedAt := 100,
             lastChangedBy := none } : Secret).key = some 200 from h200] at hw
      cases hw
      decide)).1

/-- C17 at the seed document: the committed `DATABASE_URL` is propagated to Staging and
Production; Production, which had none, holds exactly one, with the committed value. -/
theorem C17_witness_seed_propagate_to_production :
    ∃ s, (getSecrets
        (handlePropagationConfirm
          (fun _ => { now := 300, ids := ⟨"r2", "s3", "a1"⟩, storageError := none })
          (initialData 100 200 200 0)
          { loadSecrets (initialData 100 200 200 0) (initialView "p1" "e1" none) with
            propagation :=
              { isOpen := true
                affectedSecrets := [{ key := "DATABASE_URL", value := "postgres://new" }]
                affectedDescriptions := some [] } }
          ["e2", "e3"]).1
        "p1" (some "e3")).filter (fun x => x.key == "DATABASE_URL") = [s] ∧
      s.value = "postgres://new" :=
  C17_propagation_overwrites_every_target
    (fun _ => { now := 300, ids := ⟨"r2", "s3", "a1"⟩, storageError := none })
    (initialData 100 200 200 0)
    { loadSecrets (initialData 100 200 200 0) (initialView "p1" "e1" none) with
      propagation :=
        { isOpen := true
          affectedSecrets := [{ key := "DATABASE_URL", value := "postgres://new" }]
          affectedDescriptions := some [] } }
    ["e2", "e3"] "e3" "DATABASE_URL" "postgres://new"
    (fun _ => rfl) (by decide) (by decide) (by decide) (by decide) (by decide)

/-- C18 (amended) at the seed document: one value draft for `s1`; the modal opens. -/
theorem C18_witness_seed_value_draft_opens_modal :
    (handleGlobalSave
        (fun _ => { now := 300, ids := ⟨"r2", "s3", "a1"⟩, storageError := none })
        (initialData 100 200 200 0)
        { loadSecrets (initialData 100 200 200 0) (initialView "p1" "e1" none) with
          drafts := [("s1", "postgres://new")] }).2.propagation.isOpen = true :=
  ((C18_global_save_opens_modal_for_values_or_descriptions
      (fun _ => { now := 300, ids := ⟨"r2", "s3", "a1"⟩, storageError := none })
      (fun _ => rfl)
      (initialData 100 200 200 0)
      { loadSecrets (initialData 100 200 200 0) (initialView "p1" "e1" none) with
        drafts := [("s1", "postgres://new")] }).1 (Or.inl (by decide))).1

/-- C19 at the seed document: a value draft for `s1` in Development leaves the Staging
secret `s2` in its place. -/
theorem C19_witness_seed_staging_untouched :
    (handleGlobalSave
        (fun _ => { now := 300, ids := ⟨"r2", "s3", "a1"⟩, storageError := none })
        (initialData 100 200 200 0)
        { loadSecrets (initialData 100 200 200 0) (initialView "p1" "e1" none) with
          drafts := [("s1", "postgres://new")] }).1.secrets[1]? =
      some { id := "s2", projectId := "p1", environmentId := "e2", key := "DATABASE_URL",
             value := "postgres://staging-db.internal:5432/db", version := 1,
             updatedAt := 200, lastChangedBy := none } :=
  (C19_global_save_writes_current_environment_only
      (fun _ => { now := 300, ids := ⟨"r2", "s3", "a1"⟩, storageError := none })
      (initialData 100 200 200 0)
      { loadSecrets (initialData 100 200 200 0) (initialView "p1" "e1" none) with
        drafts := [("s1", "postgres://new")] }).1 1
    { id := "s2", projectId := "p1", environmentId := "e2", key := "DATABASE_URL",
      value := "postgres://staging-db.internal:5432/db", version := 1,
      updatedAt := 200, lastChangedBy := none }
    (by decide) (by decide)

/-- C20 at the seed document: of the two calls of a propagation to Staging and Production
the first is refused; an error is set. -/
theorem C20_witness_seed_first_call_refused :
    ∃ message,
      (handlePropagationConfirm
        (fun n => { now := 300, ids := ⟨"r2", "s3", "a1"⟩,
                    storageError := if n = 0 then some "QuotaExceededError" else none })
        (initialData 100 200 200 0)
        { loadSecrets (initialData 100 200 200 0) (initialView "p1" "e1" none) with
          propagation :=
            { isOpen := true
              affectedSecrets := [{ key := "DATABASE_URL", value := "postgres://new" }]
              affectedDescriptions := some [] } }
        ["e2", "e3"]).2.error = some ("Propagation failed: " ++ message) :=
  ((C20_propagation_is_best_effort
      (fun n => { now := 300, ids := ⟨"r2", "s3", "a1"⟩,
                  storageError := if n = 0 then some "QuotaExceededError" else none })
      (initialData 100 200 200 0)
      { loadSecrets (initialData 100 200 200 0) (initialView "p1" "e1" none) with
        propagation :=
          { isOpen := true
            affectedSecrets := [{ key := "DATABASE_URL", value := "postgres://new" }]
            affectedDescriptions := some [] } }
      ["e2", "e3"]).2.2.2.2 ⟨0, by decide, by decide⟩).1

/-! ## Visibility of projects and environments -/

/-- For a non-admin call with a non-empty `userId`, every environment `getProject` returns
is listed in the `environments` of the first member row of the project with that
`userId`; with no such row the returned project has no environment. -/
theorem getProject_environments_of_userId (db : Db) (slug : String) (u : Id) (hu : u ≠ "")
    (p : ProjectDetails) (h : getProject db slug (some u) false = some p) :
    ∃ project, db.projects.find? (fun q => q.slug == slug) = some project ∧
      (∀ e ∈ p.environments, e.projectId = project.id ∧ e ∈ db.environments ∧
        ∃ m, db.projectMembers.find?
            (fun m => m.projectId == project.id && m.userId == some u) = some m ∧
          e.id ∈ m.environments) ∧
      (db.projectMembers.find?
          (fun m => m.projectId == project.id && m.userId == some u) = none →
        p.environments = []) := by
  unfold getProject at h
  cases hp : db.projects.find? (fun q => q.slug == slug) with
  | none => rw [hp] at h; cases h
  | some project =>
    rw [hp] at h
    simp only [hu, ne_eq, not_false_eq_true, if_true, Option.some.injEq] at h
    subst h
    refine ⟨project, rfl, ?_, ?_⟩
    · intro e he
      cases hm : db.projectMembers.find?
          (fun m => m.projectId == project.id && m.userId == some u) with
      | none => simp [hm] at he
      | some m =>
        simp only [hm, List.mem_filter, List.contains_eq_any_beq, List.any_eq_true,
          beq_iff_eq] at he
        obtain ⟨⟨hmem, hproj⟩, x, hx, hxe⟩ := he
        exact ⟨hproj, hmem, m, rfl, by rw [hxe]; exact hx⟩
    · intro hm
      simp [hm]

/-- C21 (the code at the failing input). On the seed document, `getProject` called for
the slug `growth-platform` with no `userId` and `isAdmin` false, as
`CompareSecrets.loadProjectData` calls it, returns the three environments of the
project, though no member row of the project carries that identity; called for `u2` it
returns the one environment of the row of `u2`, and for `u9`, who has no row, none. -/
theorem C21_getProject_without_userId_returns_every_environment :
    (getProject (initialData 100 200 200 0) "growth-platform" none false).map
        (fun p => p.environments.map (fun e => e.id)) = some ["e1", "e2", "e3"] ∧
    (initialData 100 200 200 0).projectMembers.find?
        (fun m => m.projectId == "p1" && m.userId == none) = none ∧
    (getProject (initialData 100 200 200 0) "growth-platform" (some "u2") false).map
        (fun p => p.environments.map (fun e => e.id)) = some ["e1"] ∧
    (getProject (initialData 100 200 200 0) "growth-platform" (some "u9") false).map
        (fun p => p.environments.map (fun e => e.id)) = some [] := by
  decide

/-- For a non-admin, `getProjects` returns the projects that have a member row with the
given `userId` and `hasPermission` true, and for an admin every project. -/
theorem getProjects_eq (db : Db) (userId : Id) :
    getProjects db userId true = db.projects ∧
    getProjects db userId false =
      db.projects.filter (fun p => db.projectMembers.any
        (fun m => m.projectId == p.id && m.userId == some userId &&
          m.hasPermission == some true)) := by
  refine ⟨by simp [getProjects], ?_⟩
  simp only [getProjects, Bool.false_eq_true, if_false]
  apply List.filter_congr
  intro p _
  rw [Bool.eq_iff_iff]
  simp only [List.contains_eq_any_beq, List.any_eq_true, List.mem_map, List.mem_filter,
    Bool.and_eq_true, beq_iff_eq]
  constructor
  · rintro ⟨x, ⟨m, ⟨hm, h1, h2⟩, rfl⟩, hx⟩
    exact ⟨m, hm, ⟨hx.symm, h1⟩, h2⟩
  · rintro ⟨m, hm, ⟨hx, h1⟩, h2⟩
    exact ⟨m.projectId, ⟨m, ⟨hm, h1, h2⟩, rfl⟩, hx.symm⟩

/-- C22 (the code at the failing input). On the seed document the only member row of
`u2` is that of project `p1`, with environments `["e1"]` and no `hasPermission`;
`getProject` shows `u2` the environment `e1` of the project, and
`getProjects("u2", false)` returns no project. -/
theorem C22_getProjects_hides_project_of_seed_member :
    ((initialData 100 200 200 0).projectMembers.filter
        (fun m => m.userId == some "u2")).map
        (fun m => (m.projectId, m.environments, m.hasPermission)) =
      [("p1", ["e1"], none)] ∧
    (getProject (initialData 100 200 200 0) "growth-platform" (some "u2") false).map
        (fun p => (p.id, p.environments.map (fun e => e.id))) = some ("p1", ["e1"]) ∧
    getProjects (initialData 100 200 200 0) "u2" false = [] := by
  decide

/-- C23 (the code at the failing input). From the seed document, inviting `a@x.com`
to `p1` succeeds and adds the row `m2` with `userId` null and status `INVITED`; in the
document that results no user has the email `b@x.com` and no member row has it as
invite email, and `addProjectMember("p1", "b@x.com", ["e2"])` fails with the conflict
error. -/
theorem C23_second_invitation_is_refused :
    (addProjectMember (initialData 100 200 200 0) 300 "m2" "a1" "p1" "a@x.com"
        ["e1"]).toOption.map
        (fun r => r.1.projectMembers.map
          (fun m => (m.id, m.projectId, m.userId, m.inviteEmail, m.status))) =
      some [("m1", "p1", some "u2", none, "ACTIVE"),
            ("m2", "p1", none, some "a@x.com", "INVITED")] ∧
    (StoreOp.apply (initialData 100 200 200 0)
        (StoreOp.addProjectMember 300 "m2" "a1" "p1" "a@x.com" ["e1"])).users.find?
        (fun u => u.email == "b@x.com") = none ∧
    addProjectMember
        (StoreOp.apply (initialData 100 200 200 0)
          (StoreOp.addProjectMember 300 "m2" "a1" "p1" "a@x.com" ["e1"]))
        400 "m3" "a2" "p1" "b@x.com" ["e2"] =
      Except.error "User is already a member of this project" :=
  ⟨rfl, by decide, rfl⟩

/-! ## Deleting an environment -/

theorem findIdx?_cons_of_neg {α : Type} (p : α → Bool) (a : α) (t : List α)
    (hp : ¬ p a = true) : (a :: t).findIdx? p = (t.findIdx? p).map (fun i => i + 1) := by
  rw [List.findIdx?_cons, if_neg hp, List.findIdx?_succ]

theorem filter_eraseIdx_of_findIdx? {α : Type} (p : α → Bool) (l : List α) (i : Nat)
    (h : l.findIdx? p = some i) :
    (l.eraseIdx i).filter p = (l.filter p).tail ∧
    (l.eraseIdx i).filter (fun x => !p x) = l.filter (fun x => !p x) := by
  induction l generalizing i with
  | nil => simp at h
  | cons a t ih =>
    by_cases hp : p a = true
    · have h0 : i = 0 := by
        rw [List.findIdx?_cons, if_pos hp] at h
        exact (Option.some.inj h).symm
      subst h0
      simp [List.eraseIdx, List.filter_cons, hp]
    · rw [findIdx?_cons_of_neg p a t hp] at h
      cases hj : t.findIdx? p with
      | none => rw [hj] at h; cases h
      | some j =>
        rw [hj] at h
        have hi : i = j + 1 := (Option.some.inj h).symm
        subst hi
        obtain ⟨h1, h2⟩ := ih j hj
        simp only [Bool.not_eq_true] at hp
        simp [List.eraseIdx, List.filter_cons, hp, h1, h2]

theorem filter_eq_nil_of_findIdx?_eq_none {α : Type} (p : α → Bool) (l : List α)
    (h : l.findIdx? p = none) : l.filter p = [] := by
  induction l with
  | nil => rfl
  | cons a t ih =>
    by_cases hp : p a = true
    · rw [List.findIdx?_cons, if_pos hp] at h
      cases h
    · rw [findIdx?_cons_of_neg p a t hp] at h
      have ht : t.findIdx? p = none := by
        cases hj : t.findIdx? p with
        | none => rfl
        | some j => rw [hj] at h; cases h
      simp only [Bool.not_eq_true] at hp
      simp [List.filter_cons, hp, ih ht]

/-- The environments after `deleteEnvironment`: those with the id lose their first, the
others stay as they are. -/
theorem deleteEnvironment_environments (db : Db) (e : Id) :
    (deleteEnvironment db e).1.environments.filter (fun x => x.id == e) =
      (db.environments.filter (fun x => x.id == e)).tail ∧
    (deleteEnvironment db e).1.environments.filter (fun x => !(x.id == e)) =
      db.environments.filter (fun x => !(x.id == e)) := by
  simp only [deleteEnvironment]
  cases hidx : db.environments.findIdx? (fun x => x.id == e) with
  | none =>
    have hnil := filter_eq_nil_of_findIdx?_eq_none _ _ hidx
    exact ⟨by rw [hnil]; rfl, rfl⟩
  | some idx => exact filter_eraseIdx_of_findIdx? _ _ _ hidx

/-- C24. After `deleteEnvironment(e)` on the local store: the secrets are those of the
other environments, in their order and unchanged, so none with `environmentId = e`
remains; the environments with another id are as they were, in their order; the
registry, the projects, the users, the members and the audit log are unchanged; and
when at most one environment has the id `e`, no listed environment has it. -/
theorem C24_deleteEnvironment_cascades (db : Db) (e : Id) :
    (deleteEnvironment db e).1.secrets =
      db.secrets.filter (fun s => !(s.environmentId == e)) ∧
    (∀ s ∈ (deleteEnvironment db e).1.secrets, s.environmentId ≠ e) ∧
    (∀ s ∈ db.secrets, s.environmentId ≠ e → s ∈ (deleteEnvironment db e).1.secrets) ∧
    (deleteEnvironment db e).1.environments.filter (fun x => !(x.id == e)) =
      db.environments.filter (fun x => !(x.id == e)) ∧
    (deleteEnvironment db e).1.projectSecretRegistry = db.projectSecretRegistry ∧
    (deleteEnvironment db e).1.projects = db.projects ∧
    (deleteEnvironment db e).1.users = db.users ∧
    (deleteEnvironment db e).1.projectMembers = db.projectMembers ∧
    (deleteEnvironment db e).1.auditLogs = db.auditLogs ∧
    (deleteEnvironment db e).2 = true ∧
    ((db.environments.filter (fun x => x.id == e)).length ≤ 1 →
      ∀ x ∈ (deleteEnvironment db e).1.environments, x.id ≠ e) := by
  have hsec : (deleteEnvironment db e).1.secrets =
      db.secrets.filter (fun s => !(s.environmentId == e)) := by
    simp only [deleteEnvironment, bne]
  refine ⟨hsec, ?_, ?_, (deleteEnvironment_environments db e).2, rfl, rfl, rfl, rfl, rfl,
    rfl, ?_⟩
  · intro s hs
    rw [hsec] at hs
    simpa using (List.mem_filter.1 hs).2
  · intro s hs hne
    rw [hsec]
    exact List.mem_filter.2 ⟨hs, by simpa using hne⟩
  · intro hone x hx hxe
    have hmem : x ∈ (deleteEnvironment db e).1.environments.filter (fun x => x.id == e) :=
      List.mem_filter.2 ⟨hx, by simpa using hxe⟩
    rw [(deleteEnvironment_environments db e).1] at hmem
    have hnil : (db.environments.filter (fun x => x.id == e)).tail = [] :=
      List.eq_nil_of_length_eq_zero (by rw [List.length_tail]; omega)
    rw [hnil] at hmem
    cases hmem

/-- C24 at the seed document: deleting `e1` leaves the environments `e2`, `e3` and the
secret `s2`. -/
theorem C24_witness_seed_delete_development :
    (deleteEnvironment (initialData 100 200 200 0) "e1").1.secrets =
      (initialData 100 200 200 0).secrets.filter (fun s => !(s.environmentId == "e1")) ∧
    ∀ x ∈ (deleteEnvironment (initialData 100 200 200 0) "e1").1.environments, x.id ≠ "e1" :=
  ⟨(C24_deleteEnvironment_cascades (initialData 100 200 200 0) "e1").1,
   (C24_deleteEnvironment_cascades (initialData 100 200 200 0) "e1").2.2.2.2.2.2.2.2.2.2
     (by decide)⟩

/-! ## The audit log -/

theorem saveSecret_auditLogs (db : Db) (now : Timestamp) (ids : SaveIds) (projectId envId : Id)
    (key value : String) (user : Option User) :
    (saveSecret db now ids projectId envId key value user).1.auditLogs =
      { id := ids.auditId, projectId := projectId, environmentId := some envId,
        action := "SECRET_UPDATE", description := "Updated secret " ++ key,
        timestamp := now, performedBy := some (userEmail user) } :: db.auditLogs := by
  simp only [saveSecret]

theorem deleteSecret_auditLogs (db : Db) (now : Timestamp) (auditId secretId : Id) :
    (∀ s, db.secrets.find? (fun s => s.id == secretId) = some s →
      (deleteSecret db now auditId secretId).1.auditLogs =
        { id := auditId, projectId := s.projectId, environmentId := some s.environmentId,
          action := "SECRET_DELETE", description := "Deleted secret " ++ s.key,
          timestamp := now, performedBy := none } :: db.auditLogs) ∧
    (db.secrets.find? (fun s => s.id == secretId) = none →
      (deleteSecret db now auditId secretId).1 = db) := by
  constructor
  · intro s hs
    obtain ⟨i, hi, hget⟩ := findIdx?_of_find? _ _ _ hs
    simp only [deleteSecret, hi, hget]
  · intro hs
    have hidx : db.secrets.findIdx? (fun s => s.id == secretId) = none := by
      cases h : db.secrets.findIdx? (fun s => s.id == secretId) with
      | none => rfl
      | some i =>
        have hlt := (List.findIdx?_eq_some_iff_getElem.1 h).1
        have hp := (List.findIdx?_eq_some_iff_getElem.1 h).2.1
        have := List.find?_eq_none.1 hs _ (List.getElem_mem hlt)
        exact absurd hp this
    simp only [deleteSecret, hidx]

/-- Every call adds at most one entry, in front of the entries recorded before it. -/
theorem StoreOp.apply_auditLogs (db : Db) (op : StoreOp) :
    ∃ added, (StoreOp.apply db op).auditLogs = added ++ db.auditLogs ∧ added.length ≤ 1 := by
  cases op with
  | secrets op =>
    cases op with
    | saveSecret now ids projectId envId key value user =>
      exact ⟨[_], saveSecret_auditLogs db now ids projectId envId key value user, le_refl _⟩
    | updateSecretDescription now projectId keyName description =>
      refine ⟨[], ?_, Nat.zero_le _⟩
      simp only [StoreOp.apply, step, updateSecretDescription]
      split <;> rfl
    | syncSecret now secretId =>
      refine ⟨[], ?_, Nat.zero_le _⟩
      simp only [StoreOp.apply, step, syncSecret]
      split <;> rfl
    | deleteSecret now auditId secretId =>
      cases hs : db.secrets.find? (fun s => s.id == secretId) with
      | some s => exact ⟨[_], (deleteSecret_auditLogs db now auditId secretId).1 s hs, le_refl _⟩
      | none =>
        refine ⟨[], ?_, Nat.zero_le _⟩
        simp only [StoreOp.apply, step, (deleteSecret_auditLogs db now auditId secretId).2 hs]
        rfl
    | deleteEnvironment now envId => exact ⟨[], rfl, Nat.zero_le _⟩
  | addProjectMember now memberId auditId projectId email envIds =>
    simp only [StoreOp.apply, SecretsManager.addProjectMember]
    split
    · rename_i r hr
      split at hr
      · cases hr
      · cases hr
        exact ⟨[_], rfl, le_refl _⟩
    · exact ⟨[], rfl, Nat.zero_le _⟩
  | updateProjectMember now auditId projectId memberId envIds =>
    simp only [StoreOp.apply, SecretsManager.updateProjectMember]
    split
    · exact ⟨[_], rfl, le_refl _⟩
    · exact ⟨[], rfl, Nat.zero_le _⟩
  | removeProjectMember now auditId projectId memberId =>
    simp only [StoreOp.apply, SecretsManager.removeProjectMember]
    split
    · split
      · exact ⟨[_], rfl, le_refl _⟩
      · exact ⟨[], rfl, Nat.zero_le _⟩
    · exact ⟨[], rfl, Nat.zero_le _⟩

theorem foldl_apply_auditLogs (ops : List StoreOp) (db : Db) :
    ∃ added, (ops.foldl StoreOp.apply db).auditLogs = added ++ db.auditLogs ∧
      added.length ≤ ops.length := by
  induction ops generalizing db with
  | nil => exact ⟨[], rfl, le_refl _⟩
  | cons op ops ih =>
    obtain ⟨a1, h1, l1⟩ := StoreOp.apply_auditLogs db op
    obtain ⟨a2, h2, l2⟩ := ih (StoreOp.apply db op)
    refine ⟨a2 ++ a1, ?_, ?_⟩
    · rw [List.foldl_cons, h2, h1, List.append_assoc]
    · rw [List.length_append, List.length_cons]
      omega

/-- C25. The audit log is append-only. Each of the eight operations of the local store
puts at most one entry in front of the log and leaves the entries recorded before it as
they were and in their order, and so does every sequence of them. `saveSecret` puts
exactly one, with action `SECRET_UPDATE`, the written `projectId` and `environmentId`
and timestamp `now`; `deleteSecret` of a stored secret puts exactly one, with action
`SECRET_DELETE`, the project and environment of the secret and timestamp `now`. -/
theorem C25_audit_log_is_append_only (db : Db) :
    (∀ op : StoreOp, ∃ added,
      (StoreOp.apply db op).auditLogs = added ++ db.auditLogs ∧ added.length ≤ 1) ∧
    (∀ ops : List StoreOp, ∃ added,
      (ops.foldl StoreOp.apply db).auditLogs = added ++ db.auditLogs ∧
        added.length ≤ ops.length) ∧
    (∀ now ids projectId envId key value user, ∃ entry,
      (saveSecret db now ids projectId envId key value user).1.auditLogs =
        entry :: db.auditLogs ∧
      entry.action = "SECRET_UPDATE" ∧ entry.projectId = projectId ∧
      entry.environmentId = some envId ∧ entry.timestamp = now) ∧
    (∀ now auditId secretId s, db.secrets.find? (fun s => s.id == secretId) = some s →
      ∃ entry, (deleteSecret db now auditId secretId).1.auditLogs = entry :: db.auditLogs ∧
        entry.action = "SECRET_DELETE" ∧ entry.projectId = s.projectId ∧
        entry.environmentId = some s.environmentId ∧ entry.timestamp = now) := by
  refine ⟨StoreOp.apply_auditLogs db, fun ops => foldl_apply_auditLogs ops db, ?_, ?_⟩
  · intro now ids projectId envId key value user
    exact ⟨_, saveSecret_auditLogs db now ids projectId envId key value user, rfl, rfl, rfl,
      rfl⟩
  · intro now auditId secretId s hs
    exact ⟨_, (deleteSecret_auditLogs db now auditId secretId).1 s hs, rfl, rfl, rfl, rfl⟩

/-- C25 at the seed document after one write: deleting the stored secret `s2` at 400
puts one `SECRET_DELETE` entry in front of the `SECRET_UPDATE` entry of the write. -/
theorem C25_witness_seed_delete_after_write :
    ∃ entry,
      (deleteSecret
        (saveSecret (initialData 100 200 200 0) 300 ⟨"r2", "s3", "a1"⟩ "p1" "e3" "API_KEY"
          "k" none).1 400 "a2" "s2").1.auditLogs =
        entry ::
          (saveSecret (initialData 100 200 200 0) 300 ⟨"r2", "s3", "a1"⟩ "p1" "e3" "API_KEY"
            "k" none).1.auditLogs ∧
      entry.action = "SECRET_DELETE" ∧ entry.projectId = "p1" ∧
      entry.environmentId = some "e2" ∧ entry.timestamp = 400 :=
  (C25_audit_log_is_append_only
    (saveSecret (initialData 100 200 200 0) 300 ⟨"r2", "s3", "a1"⟩ "p1" "e3" "API_KEY"
      "k" none).1).2.2.2 400 "a2" "s2"
    { id := "s2", projectId := "p1", environmentId := "e2", key := "DATABASE_URL",
      value := "postgres://staging-db.internal:5432/db", version := 1,
      updatedAt := 200, lastChangedBy := none }
    (by decide)

/-- C26. For an environment argument that is absent or a non-empty id, `getAuditLogs`
on the local store returns the entries of the stored log whose `projectId` is the
project and, when an environment id is given, whose `environmentId` is that id: the
result is a rearrangement of that selection, each entry as often as it is stored, and
its timestamps never increase from one entry to the next. The function reads the
document and returns a list; the sort acts on the copy the selection makes. -/
theorem C26_getAuditLogs_selects_and_orders (db : Db) (projectId : Id) (envId : Option Id)
    (henv : envId ≠ some "") :
    (getAuditLogs db projectId envId).Perm
      (db.auditLogs.filter (fun log =>
        log.projectId == projectId && (envId.isNone || log.environmentId == envId))) ∧
    (∀ log, log ∈ getAuditLogs db projectId envId ↔
      log ∈ db.auditLogs ∧ log.projectId = projectId ∧
        ∀ e, envId = some e → log.environmentId = some e) ∧
    List.Sorted (fun a b : AuditLog => b.timestamp ≤ a.timestamp)
      (getAuditLogs db projectId envId) := by
  haveI : IsTotal AuditLog (fun a b : AuditLog => b.timestamp ≤ a.timestamp) :=
    ⟨fun a b => le_total b.timestamp a.timestamp⟩
  haveI : IsTrans AuditLog (fun a b : AuditLog => b.timestamp ≤ a.timestamp) :=
    ⟨fun _ _ _ hab hbc => le_trans hbc hab⟩
  have hperm : (getAuditLogs db projectId envId).Perm
      (db.auditLogs.filter (fun log =>
        log.projectId == projectId && (envId.isNone || log.environmentId == envId))) := by
    unfold getAuditLogs
    refine (List.perm_insertionSort _ _).trans ?_
    cases envId with
    | none => simp
    | some e =>
      have he : e ≠ "" := fun h => henv (by rw [h])
      simp only [he, ne_eq, not_false_eq_true, if_true, List.filter_filter, Option.isNone_some,
        Bool.false_or]
      refine List.Perm.of_eq (List.filter_congr ?_)
      intro log _
      exact Bool.and_comm _ _
  refine ⟨hperm, ?_, ?_⟩
  · intro log
    rw [hperm.mem_iff, List.mem_filter]
    cases envId with
    | none => simp
    | some e => simp
  · unfold getAuditLogs
    exact List.sorted_insertionSort _ _

/-- C26 after a write to production at 300, a write to development at 500 and the
deletion of `s2` at 400: the log of `p1` comes newest first. -/
theorem C26_witness_three_entries :
    List.Sorted (fun a b : AuditLog => b.timestamp ≤ a.timestamp)
      (getAuditLogs
        ([Op.saveSecret 300 ⟨"r2", "s3", "a1"⟩ "p1" "e3" "API_KEY" "k" none,
          Op.saveSecret 500 ⟨"r3", "s4", "a2"⟩ "p1" "e1" "API_KEY" "k" none,
          Op.deleteSecret 400 "a3" "s2"].foldl step (initialData 100 200 200 0))
        "p1" none) ∧
    (getAuditLogs
        ([Op.saveSecret 300 ⟨"r2", "s3", "a1"⟩ "p1" "e3" "API_KEY" "k" none,
          Op.saveSecret 500 ⟨"r3", "s4", "a2"⟩ "p1" "e1" "API_KEY" "k" none,
          Op.deleteSecret 400 "a3" "s2"].foldl step (initialData 100 200 200 0))
        "p1" none).map (fun log => (log.id, log.timestamp)) =
      [("a2", 500), ("a3", 400), ("a1", 300)] :=
  ⟨(C26_getAuditLogs_selects_and_orders _ "p1" none (by decide)).2.2, by decide⟩

/-! ## Operations on a secret that is not stored -/

/-- C27, as stated, fails: the seed document has no secret with id `s9`, and
`deleteSecret("s9")` and `syncSecret("s9")` both return `true`, the value they return
for a secret that is stored. -/
theorem C27_counterexample_unknown_secret_reports_success :
    (initialData 100 200 200 0).secrets.find? (fun s => s.id == "s9") = none ∧
    (deleteSecret (initialData 100 200 200 0) 300 "a1" "s9").2 = true ∧
    (syncSecret (initialData 100 200 200 0) 300 "s9").2 = true ∧
    (deleteSecret (initialData 100 200 200 0) 300 "a1" "s2").2 = true ∧
    (syncSecret (initialData 100 200 200 0) 300 "s2").2 = true := by
  decide

/-- C27 (amended). For a `secretId` that matches no stored secret, `deleteSecret` and
`syncSecret` on the local store return `true` and leave the document, audit log
included, as it was. -/
theorem C27_unknown_secret_is_a_silent_success (db : Db) (now : Timestamp) (auditId : Id)
    (secretId : Id) (h : db.secrets.find? (fun s => s.id == secretId) = none) :
    deleteSecret db now auditId secretId = (db, true) ∧
    syncSecret db now secretId = (db, true) := by
  constructor
  · have h1 := (deleteSecret_auditLogs db now auditId secretId).2 h
    have h2 : (deleteSecret db now auditId secretId).2 = true := by
      simp only [deleteSecret]
      split
      · split <;> rfl
      · rfl
    exact Prod.ext h1 h2
  · simp only [syncSecret, h]

/-- C27 (amended) at the seed document, for the id `nope`. -/
theorem C27_witness_seed_unknown_id :
    deleteSecret (initialData 100 200 200 0) 300 "a1" "nope" =
      (initialData 100 200 200 0, true) ∧
    syncSecret (initialData 100 200 200 0) 300 "nope" = (initialData 100 200 200 0, true) :=
  C27_unknown_secret_is_a_silent_success (initialData 100 200 200 0) 300 "a1" "nope"
    (by decide)

/-! ## The secret form -/

/-- After `saveSecret` the written pair is reported, for an environment of the project,
with a status that is not `MISSING`. -/
theorem saveSecret_reports_not_missing (db : Db) (now : Timestamp) (ids : SaveIds) (p : Id)
    (env : Environment) (k v : String) (u : Option User) (henv : env ∈ db.environments)
    (hp : env.projectId = p) :
    ∃ status, status ≠ "MISSING" ∧
      Reports (getEnvironmentSyncStatus (saveSecret db now ids p env.id k v u).1 p)
        env.id k status := by
  have hR := saveSecret_registry_filter_self db now ids p env.id k v u
  have hS := saveSecret_secrets_filter_self db now ids p env.id k v u
  have hr : ∃ r, ((saveSecret db now ids p env.id k v u).1.projectSecretRegistry.filter
      (fun r => r.projectId == p && r.key == k)).getLast? = some r := by
    rw [hR]
    cases db.projectSecretRegistry.filter (fun r => r.projectId == p && r.key == k) with
    | nil => exact ⟨_, rfl⟩
    | cons a t =>
      simp only []
      exact ⟨_, List.getLast?_eq_getLast _ (List.cons_ne_nil _ _)⟩
  have hs : ∃ s, ((saveSecret db now ids p env.id k v u).1.secrets.filter
      (fun s => s.projectId == p && s.environmentId == env.id && s.key == k)).head? =
      some s := by
    rw [hS]
    cases db.secrets.filter
      (fun s => s.projectId == p && s.environmentId == env.id && s.key == k) with
    | nil => exact ⟨_, rfl⟩
    | cons a t => exact ⟨_, rfl⟩
  obtain ⟨r, hr⟩ := hr
  obtain ⟨s, hs⟩ := hs
  have hrep := reports_of_stored (saveSecret db now ids p env.id k v u).1 p env k r
    (by rw [saveSecret_environments]; exact henv) hp hr
  rw [hs] at hrep
  refine ⟨_, ?_, hrep⟩
  simp only []
  split <;> decide

theorem attempt_updateSecretDescription_of_no_error (db : Db) (d : Draw) (p : Id)
    (k desc : String) (h : d.storageError = none) :
    (ApiCall.updateSecretDescription p k desc).attempt db d =
      ((updateSecretDescription db p k desc).1, none) := by
  simp only [ApiCall.attempt, h]
  split
  · rename_i heq
    cases heq
  · rfl

/-- C28, as stated, fails: on the seed document with Production selected, submitting
the form with the key `DATABASE_URL` (which matches the key format) and the empty
string as value leaves the document as it was; Production holds no secret for the key
and the evaluation reports the pair `MISSING`. -/
theorem C28_counterexample_empty_value_is_not_written :
    matchesKeyFormat "DATABASE_URL" = true ∧
    (handleSaveSecret
        (fun _ => { now := 300, ids := ⟨"r2", "s3", "a1"⟩, storageError := none })
        (initialData 100 200 200 0)
        { loadSecrets (initialData 100 200 200 0) (initialView "p1" "e3" none) with
          isSecretModalOpen := true
          secretForm := { key := "DATABASE_URL", value := "", description := "" } }).1 =
      initialData 100 200 200 0 ∧
    (initialData 100 200 200 0).secrets.find?
        (fun s => s.projectId == "p1" && s.environmentId == "e3" && s.key == "DATABASE_URL") =
      none ∧
    Reports (getEnvironmentSyncStatus (initialData 100 200 200 0) "p1")
      "e3" "DATABASE_URL" "MISSING" := by
  refine ⟨by decide, by decide, by decide, ?_⟩
  unfold Reports
  decide

/-- C28 (amended). The secret form does not submit an empty value: with an empty key
or an empty value in the form `handleSaveSecret` makes no call and leaves the document
and the state as they are; with both non-empty and a store that accepts the writes it
performs `saveSecret` on the current environment, followed by
`updateSecretDescription` when the form has a description. `saveSecret` itself accepts
the empty string: after `saveSecret(p, e, k, "")` the first secret of the triple has
value `""` and `updatedAt = now`, and for an environment `e` of the project the
evaluation reports `(e, k)` with a status other than `MISSING`. -/
theorem C28_form_requires_a_value_and_saveSecret_accepts_the_empty_string
    (draws : Nat → Draw) (db : Db) (view : View) :
    ((view.secretForm.key = "" ∨ view.secretForm.value = "") →
      handleSaveSecret draws db view = (db, view)) ∧
    (view.secretForm.key ≠ "" → view.secretForm.value ≠ "" →
      (∀ n, (draws n).storageError = none) →
      (handleSaveSecret draws db view).1 =
        (if view.secretForm.description = "" then
          (saveSecret db (draws 0).now (draws 0).ids view.projectId view.currentEnvId
            view.secretForm.key view.secretForm.value view.user).1
        else
          (updateSecretDescription
            (saveSecret db (draws 0).now (draws 0).ids view.projectId view.currentEnvId
              view.secretForm.key view.secretForm.value view.user).1
            view.projectId view.secretForm.key view.secretForm.description).1) ∧
      (handleSaveSecret draws db view).2.isSecretModalOpen = false ∧
      (handleSaveSecret draws db view).2.error = view.error) ∧
    (∀ (now : Timestamp) (ids : SaveIds) (p : Id) (env : Environment) (k : String)
        (u : Option User), env ∈ db.environments → env.projectId = p →
      (∃ s, (saveSecret db now ids p env.id k "" u).1.secrets.find?
          (fun s => s.projectId == p && s.environmentId == env.id && s.key == k) = some s ∧
        s.value = "" ∧ s.updatedAt = now) ∧
      ∃ status, status ≠ "MISSING" ∧
        Reports (getEnvironmentSyncStatus (saveSecret db now ids p env.id k "" u).1 p)
          env.id k status) := by
  refine ⟨?_, ?_, ?_⟩
  · intro h
    have hg : (view.secretForm.key == "" || view.secretForm.value == "") = true := by
      simpa using h
    simp only [handleSaveSecret, hg, if_true]
  · intro hk hv hok
    have hg : (view.secretForm.key == "" || view.secretForm.value == "") = false := by
      rw [Bool.eq_false_iff]
      simp [hk, hv]
    have h0 : (ApiCall.saveSecret view.projectId view.currentEnvId view.secretForm.key
        view.secretForm.value view.user).attempt db (draws 0) =
        ((saveSecret db (draws 0).now (draws 0).ids view.projectId view.currentEnvId
          view.secretForm.key view.secretForm.value view.user).1, none) := by
      simp only [ApiCall.attempt, hok 0]
    by_cases hd : view.secretForm.description = ""
    · simp only [handleSaveSecret, hg, hd, Bool.false_eq_true, if_false, ne_eq,
        not_true_eq_false, List.append_nil, awaitEach, h0, if_true]
      unfold loadSecrets
      split <;> exact ⟨trivial, rfl, rfl⟩
    · have h1 := attempt_updateSecretDescription_of_no_error
        (saveSecret db (draws 0).now (draws 0).ids view.projectId view.currentEnvId
          view.secretForm.key view.secretForm.value view.user).1 (draws (0 + 1))
        view.projectId view.secretForm.key view.secretForm.description (hok (0 + 1))
      simp only [handleSaveSecret, hg, hd, Bool.false_eq_true, if_false, ne_eq,
        not_false_eq_true, if_true, List.singleton_append, awaitEach, h0, h1]
      unfold loadSecrets
      split <;> exact ⟨trivial, rfl, rfl⟩
  · intro now ids p env k u henv hp
    refine ⟨?_, saveSecret_reports_not_missing db now ids p env k "" u henv hp⟩
    rw [find?_eq_head?_filter, saveSecret_secrets_filter_self]
    cases db.secrets.filter
      (fun s => s.projectId == p && s.environmentId == env.id && s.key == k) with
    | nil => exact ⟨_, rfl, rfl, rfl⟩
    | cons a t => exact ⟨_, rfl, rfl, rfl⟩

/-- C28 (amended) at the seed document: the form with key `API_KEY` and no value,
submitted with Development selected, changes neither the document nor the state. -/
theorem C28_witness_seed_form_without_value :
    handleSaveSecret
        (fun _ => { now := 300, ids := ⟨"r2", "s3", "a1"⟩, storageError := none })
        (initialData 100 200 200 0)
        { loadSecrets (initialData 100 200 200 0) (initialView "p1" "e1" none) with
          isSecretModalOpen := true
          secretForm := { key := "API_KEY", value := "", description := "" } } =
      (initialData 100 200 200 0,
        { loadSecrets (initialData 100 200 200 0) (initialView "p1" "e1" none) with
          isSecretModalOpen := true
          secretForm := { key := "API_KEY", value := "", description := "" } }) :=
  (C28_form_requires_a_value_and_saveSecret_accepts_the_empty_string
    (fun _ => { now := 300, ids := ⟨"r2", "s3", "a1"⟩, storageError := none })
    (initialData 100 200 200 0)
    { loadSecrets (initialData 100 200 200 0) (initialView "p1" "e1" none) with
      isSecretModalOpen := true
      secretForm := { key := "API_KEY", value := "", description := "" } }).1
    (Or.inr rfl)

/-! ## The status shown on a row -/

/-- The first element of the list sorted newest first is the element of greatest
`updatedAt` that comes first in the list. -/
theorem head?_insertionSort_eq_argmax (l : List Secret) :
    (List.insertionSort (fun a b : Secret => b.updatedAt ≤ a.updatedAt) l).head? =
      List.argmax (fun s : Secret => s.updatedAt) l := by
  induction l with
  | nil => rfl
  | cons a t ih =>
    rw [List.insertionSort, List.argmax_cons, ← ih]
    cases hs : List.insertionSort (fun a b : Secret => b.updatedAt ≤ a.updatedAt) t with
    | nil => rfl
    | cons b m =>
      simp only [List.orderedInsert, List.head?_cons]
      by_cases hab : b.updatedAt ≤ a.updatedAt
      · rw [if_pos hab, if_neg (not_lt.2 hab)]
        rfl
      · rw [if_neg hab, if_pos (not_le.1 hab)]
        rfl

/-- The value comparison `getSyncStatus` ends with. -/
theorem SecretRow.getSyncStatus_eq (secret : Secret) (registryEntry : RegistryValue)
    (allSecrets : List Secret) :
    SecretRow.getSyncStatus secret registryEntry allSecrets =
      if registryEntry.truthy = false then "synced"
      else if (∃ t, registryEntry.time = some t ∧ t ≤ secret.updatedAt) then "synced"
      else
        match specMostRecentlySharingKey allSecrets secret.key with
        | some latest => if latest.value = secret.value then "synced" else "outdated"
        | none => "outdated" := by
  unfold SecretRow.getSyncStatus
  cases htr : registryEntry.truthy with
  | false => simp
  | true =>
    cases hti : registryEntry.time with
    | none =>
      simp [specMostRecentlySharingKey, head?_insertionSort_eq_argmax]
    | some t =>
      by_cases hle : t ≤ secret.updatedAt
      · simp [hle]
      · simp [hle, specMostRecentlySharingKey, head?_insertionSort_eq_argmax]

/-- A property the registry object has itself is what `registry[key]` evaluates to. -/
theorem registryLookup_of_get (registry : JsObject RegData) (key : String) (data : RegData)
    (h : JsObject.get registry key = some data) :
    registryLookup registry key = RegistryValue.entry data := by
  simp only [registryLookup, h]

/-- On a registry without the key, `registry["constructor"]` is the inherited function:
a secret named `constructor` is shown `outdated` when the latest secret of the key has
another value, whatever the timestamps, and a name that is on no prototype is shown
`synced`. -/
theorem ProjectView.getSyncStatus_of_inherited_name :
    registryLookup [] "constructor" = RegistryValue.inherited true ∧
    ProjectView.getSyncStatus
        { initialView "p1" "e1" none with
          allSecrets :=
            [⟨"s1", "p1", "e1", "constructor", "a", 1, 100, none⟩,
             ⟨"s2", "p1", "e2", "constructor", "b", 1, 200, none⟩] }
        ⟨"s1", "p1", "e1", "constructor", "a", 1, 100, none⟩ = "outdated" ∧
    ProjectView.getSyncStatus
        { initialView "p1" "e1" none with
          allSecrets :=
            [⟨"s1", "p1", "e1", "API_KEY", "a", 1, 100, none⟩,
             ⟨"s2", "p1", "e2", "API_KEY", "b", 1, 200, none⟩] }
        ⟨"s1", "p1", "e1", "API_KEY", "a", 1, 100, none⟩ = "synced" := by
  decide

/-- C29. For a secret with a registry entry, `getSyncStatus` of `SecretRow` looks at the
most recently updated secret of `allSecrets` sharing the key (the first of them in the
list when several have the greatest `updatedAt`); it returns `outdated` exactly when
the secret's `updatedAt` is earlier than the entry's `lastUpdatedAt` and that secret,
if there is one, has another value, and `synced` in every other case. When the page
shows `outdated` for the stored secret of an environment of the project, against the
entry `registry[secret.key]` of the registry object read from the store,
`getEnvironmentSyncStatus` reports the pair `OUTDATED` (the key being a data-property
name, not `__proto__`). `getSyncStatus` of `ProjectView` is the same function of the
secret, of the value of `registry[secret.key]` and of `allSecrets`, and that value is
the entry whenever the registry object has one for the key. -/
theorem C29_row_status_only_downgrades_the_evaluation (secret : Secret) (entry : RegData)
    (allSecrets : List Secret) :
    (List.insertionSort (fun a b : Secret => b.updatedAt ≤ a.updatedAt)
        (allSecrets.filter (fun s => s.key == secret.key))).head? =
      specMostRecentlySharingKey allSecrets secret.key ∧
    (SecretRow.getSyncStatus secret (RegistryValue.entry entry) allSecrets = "outdated" ↔
      secret.updatedAt < entry.lastUpdatedAt ∧
        ∀ latest, specMostRecentlySharingKey allSecrets secret.key = some latest →
          latest.value ≠ secret.value) ∧
    (SecretRow.getSyncStatus secret (RegistryValue.entry entry) allSecrets ≠ "outdated" →
      SecretRow.getSyncStatus secret (RegistryValue.entry entry) allSecrets = "synced") ∧
    (∀ (db : Db) (p : Id) (env : Environment) (r : RegistryEntry),
      secret.key ≠ "__proto__" →
      env ∈ db.environments → env.projectId = p →
      (db.projectSecretRegistry.filter
        (fun r => r.projectId == p && r.key == secret.key)).getLast? = some r →
      (db.secrets.filter (fun s =>
        s.projectId == p && s.environmentId == env.id && s.key == secret.key)).head? =
        some secret →
      registryLookup (getSecretRegistry db p) secret.key = RegistryValue.entry r.data ∧
      (SecretRow.getSyncStatus secret
          (registryLookup (getSecretRegistry db p) secret.key) allSecrets = "outdated" →
        Reports (getEnvironmentSyncStatus db p) env.id secret.key "OUTDATED")) ∧
    (∀ view : View,
      ProjectView.getSyncStatus view secret =
        SecretRow.getSyncStatus secret (registryLookup view.registry secret.key)
          view.allSecrets ∧
      (JsObject.get view.registry secret.key = some entry →
        ProjectView.getSyncStatus view secret =
          SecretRow.getSyncStatus secret (RegistryValue.entry entry) view.allSecrets)) := by
  have hlt : ∀ d : RegData,
      SecretRow.getSyncStatus secret (RegistryValue.entry d) allSecrets = "outdated" →
      secret.updatedAt < d.lastUpdatedAt := by
    intro d hout
    rw [SecretRow.getSyncStatus_eq] at hout
    by_cases hle : d.lastUpdatedAt ≤ secret.updatedAt
    · simp [RegistryValue.truthy, RegistryValue.time, hle] at hout
    · exact not_le.1 hle
  have hiff : SecretRow.getSyncStatus secret (RegistryValue.entry entry) allSecrets =
        "outdated" ↔
      secret.updatedAt < entry.lastUpdatedAt ∧
        ∀ latest, specMostRecentlySharingKey allSecrets secret.key = some latest →
          latest.value ≠ secret.value := by
    rw [SecretRow.getSyncStatus_eq]
    by_cases hle : entry.lastUpdatedAt ≤ secret.updatedAt
    · simp [RegistryValue.truthy, RegistryValue.time, hle]
    · cases hl : specMostRecentlySharingKey allSecrets secret.key with
      | none => simp [RegistryValue.truthy, RegistryValue.time, hle, not_le.1 hle]
      | some latest =>
        by_cases hv : latest.value = secret.value
        · simp [RegistryValue.truthy, RegistryValue.time, hle, hv]
        · simp [RegistryValue.truthy, RegistryValue.time, hle, hv, not_le.1 hle]
  refine ⟨head?_insertionSort_eq_argmax _, hiff, ?_, ?_, ?_⟩
  · rw [SecretRow.getSyncStatus_eq]
    split
    · intro _; rfl
    · split
      · intro _; rfl
      · split
        · split
          · intro _; rfl
          · intro h; exact absurd rfl h
        · intro h; exact absurd rfl h
  · intro db p env r _ henv hp hr hs
    have hget : JsObject.get (getSecretRegistry db p) secret.key = some r.data := by
      rw [get_getSecretRegistry, hr]; rfl
    have hlook := registryLookup_of_get _ _ _ hget
    refine ⟨hlook, ?_⟩
    intro hout
    rw [hlook] at hout
    have hrep := reports_of_stored db p env secret.key r henv hp hr
    rw [hs] at hrep
    have h := hlt r.data hout
    simp only [RegistryEntry.data] at h
    simp only [h, if_true] at hrep
    exact hrep
  · intro view
    refine ⟨rfl, ?_⟩
    intro hget
    rw [← registryLookup_of_get _ _ _ hget]
    rfl

/-- C29 at the seed document: the Development secret `s1`, written at 100, against the
entry of `DATABASE_URL` with watermark 200; the latest secret of the key is `s2`, with
another value, so the row shows `outdated`, and the evaluation reports `OUTDATED`. -/
theorem C29_witness_seed_development_row :
    SecretRow.getSyncStatus
        { id := "s1", projectId := "p1", environmentId := "e1", key := "DATABASE_URL",
          value := "postgres://localhost:5432/db", version := 1, updatedAt := 100,
          lastChangedBy := none }
        (registryLookup (getSecretRegistry (initialData 100 200 200 0) "p1") "DATABASE_URL")
        (initialData 100 200 200 0).secrets = "outdated" ∧
    Reports (getEnvironmentSyncStatus (initialData 100 200 200 0) "p1")
      "e1" "DATABASE_URL" "OUTDATED" :=
  ⟨by decide,
   ((C29_row_status_only_downgrades_the_evaluation
      { id := "s1", projectId := "p1", environmentId := "e1", key := "DATABASE_URL",
        value := "postgres://localhost:5432/db", version := 1, updatedAt := 100,
        lastChangedBy := none }
      { lastUpdatedAt := 200, description := "Connection string for the primary database" }
      (initialData 100 200 200 0).secrets).2.2.2.1
      (initialData 100 200 200 0) "p1"
      { id := "e1", projectId := "p1", name := "Development", slug := "dev",
        isProduction := false, parentId := none }
      { id := "r1", projectId := "p1", key := "DATABASE_URL",
        description := "Connection string for the primary database", lastUpdatedAt := 200 }
      (by decide) (by decide) rfl (by decide) (by decide)).2 (by decide)⟩

/-! ## The source environment after a propagation -/

/-- C30, as stated, fails: on the seed document, after `saveSecret(e1, API_KEY, "k")`
at 300 and the propagation write `saveSecret(e2, API_KEY, "k")` at 400, the evaluation
reports `(e2, API_KEY)` as `SYNCED` and the source `(e1, API_KEY)` as `OUTDATED`. -/
theorem C30_counterexample_source_becomes_outdated :
    Reports
      (getEnvironmentSyncStatus
        (saveSecret
          (saveSecret (initialData 100 200 200 0) 300 ⟨"r2", "s3", "a1"⟩ "p1" "e1" "API_KEY"
            "k" none).1
          400 ⟨"r3", "s4", "a2"⟩ "p1" "e2" "API_KEY" "k" none).1 "p1")
      "e2" "API_KEY" "SYNCED" ∧
    Reports
      (getEnvironmentSyncStatus
        (saveSecret
          (saveSecret (initialData 100 200 200 0) 300 ⟨"r2", "s3", "a1"⟩ "p1" "e1" "API_KEY"
            "k" none).1
          400 ⟨"r3", "s4", "a2"⟩ "p1" "e2" "API_KEY" "k" none).1 "p1")
      "e1" "API_KEY" "OUTDATED" ∧
    ¬ Reports
      (getEnvironmentSyncStatus
        (saveSecret
          (saveSecret (initialData 100 200 200 0) 300 ⟨"r2", "s3", "a1"⟩ "p1" "e1" "API_KEY"
            "k" none).1
          400 ⟨"r3", "s4", "a2"⟩ "p1" "e2" "API_KEY" "k" none).1 "p1")
      "e1" "API_KEY" "SYNCED" := by
  unfold Reports
  decide

/-- C30 (amended). In a project whose registry has at most one entry for the key `K`,
with `A` and `B` environments of the project with different ids: after
`saveSecret(A, K, V)` at `T2` followed by the propagation write `saveSecret(B, K, V)`
at `T3`, the watermark of `K` is `T3`, the evaluation reports `(B, K)` as `SYNCED`,
and it reports the source `(A, K)` as `SYNCED` when `T3 = T2` and as `OUTDATED` when
`T2 < T3`. -/
theorem C30_propagation_outdates_the_source_unless_simultaneous (db : Db) (p : Id)
    (A B : Environment) (K V : String) (T2 T3 : Timestamp) (i2 i3 : SaveIds)
    (u2 u3 : Option User)
    (hA : A ∈ db.environments) (hB : B ∈ db.environments)
    (hpA : A.projectId = p) (hpB : B.projectId = p) (hAB : A.id ≠ B.id)
    (hreg : (db.projectSecretRegistry.filter
      (fun r => r.projectId == p && r.key == K)).length ≤ 1) :
    watermark (saveSecret (saveSecret db T2 i2 p A.id K V u2).1 T3 i3 p B.id K V u3).1 p K =
      some T3 ∧
    Reports (getEnvironmentSyncStatus
        (saveSecret (saveSecret db T2 i2 p A.id K V u2).1 T3 i3 p B.id K V u3).1 p)
      B.id K "SYNCED" ∧
    (T3 = T2 →
      Reports (getEnvironmentSyncStatus
          (saveSecret (saveSecret db T2 i2 p A.id K V u2).1 T3 i3 p B.id K V u3).1 p)
        A.id K "SYNCED") ∧
    (T2 < T3 →
      Reports (getEnvironmentSyncStatus
          (saveSecret (saveSecret db T2 i2 p A.id K V u2).1 T3 i3 p B.id K V u3).1 p)
        A.id K "OUTDATED") := by
  -- the registry entry of the key after the two writes
  have hR1 := saveSecret_registry_filter_self db T2 i2 p A.id K V u2
  have hR2 := saveSecret_registry_filter_self (saveSecret db T2 i2 p A.id K V u2).1
    T3 i3 p B.id K V u3
  have hR : ∃ r, ((saveSecret (saveSecret db T2 i2 p A.id K V u2).1 T3 i3 p B.id K V
      u3).1.projectSecretRegistry.filter
        (fun r => r.projectId == p && r.key == K)).getLast? = some r ∧
      r.lastUpdatedAt = T3 := by
    rw [hR2, hR1]
    cases hfl : db.projectSecretRegistry.filter (fun r => r.projectId == p && r.key == K) with
    | nil => exact ⟨_, rfl, rfl⟩
    | cons a t =>
      rw [hfl] at hreg
      have ht : t = [] := List.eq_nil_of_length_eq_zero (by
        simp only [List.length_cons] at hreg
        omega)
      subst ht
      exact ⟨_, rfl, rfl⟩
  obtain ⟨r, hr, hrT⟩ := hR
  -- the secrets of the two pairs after the two writes
  have hSB := saveSecret_secrets_filter_self (saveSecret db T2 i2 p A.id K V u2).1
    T3 i3 p B.id K V u3
  have hSA := saveSecret_secrets_filter_other (saveSecret db T2 i2 p A.id K V u2).1
    T3 i3 p B.id K V u3 p A.id K (fun h => hAB h.2.1)
  rw [saveSecret_secrets_filter_self db T2 i2 p A.id K V u2] at hSA
  have hsB : ∃ s, ((saveSecret (saveSecret db T2 i2 p A.id K V u2).1 T3 i3 p B.id K V
      u3).1.secrets.filter
        (fun s => s.projectId == p && s.environmentId == B.id && s.key == K)).head? = some s ∧
      s.updatedAt = T3 := by
    rw [hSB]
    cases (saveSecret db T2 i2 p A.id K V u2).1.secrets.filter
      (fun s => s.projectId == p && s.environmentId == B.id && s.key == K) with
    | nil => exact ⟨_, rfl, rfl⟩
    | cons a t => exact ⟨_, rfl, rfl⟩
  have hsA : ∃ s, ((saveSecret (saveSecret db T2 i2 p A.id K V u2).1 T3 i3 p B.id K V
      u3).1.secrets.filter
        (fun s => s.projectId == p && s.environmentId == A.id && s.key == K)).head? = some s ∧
      s.updatedAt = T2 := by
    rw [hSA]
    cases db.secrets.filter
      (fun s => s.projectId == p && s.environmentId == A.id && s.key == K) with
    | nil => exact ⟨_, rfl, rfl⟩
    | cons a t => exact ⟨_, rfl, rfl⟩
  obtain ⟨sB, hsB, hsBT⟩ := hsB
  obtain ⟨sA, hsA, hsAT⟩ := hsA
  have henvA : A ∈ (saveSecret (saveSecret db T2 i2 p A.id K V u2).1 T3 i3 p B.id K V
      u3).1.environments := by
    rw [saveSecret_environments, saveSecret_environments]; exact hA
  have henvB : B ∈ (saveSecret (saveSecret db T2 i2 p A.id K V u2).1 T3 i3 p B.id K V
      u3).1.environments := by
    rw [saveSecret_environments, saveSecret_environments]; exact hB
  have hrepA := reports_of_stored _ p A K r henvA hpA hr
  have hrepB := reports_of_stored _ p B K r henvB hpB hr
  rw [hsA] at hrepA
  rw [hsB] at hrepB
  simp only [hrT, hsAT] at hrepA
  simp only [hrT, hsBT, lt_irrefl, if_false] at hrepB
  refine ⟨?_, hrepB, ?_, ?_⟩
  · rw [watermark_eq, hr, Option.map_some', hrT]
  · intro h
    rw [if_neg (by rw [h]; exact lt_irrefl _)] at hrepA
    exact hrepA
  · intro h
    rw [if_pos h] at hrepA
    exact hrepA

/-- C30 (amended) at the seed document: `API_KEY` written to Development at 300 and
propagated to Staging at 400; Development is reported `OUTDATED`. -/
theorem C30_witness_seed_api_key_propagated :
    Reports
      (getEnvironmentSyncStatus
        (saveSecret
          (saveSecret (initialData 100 200 200 0) 300 ⟨"r2", "s3", "a1"⟩ "p1" "e1" "API_KEY"
            "k" none).1
          400 ⟨"r3", "s4", "a2"⟩ "p1" "e2" "API_KEY" "k" none).1 "p1")
      "e1" "API_KEY" "OUTDATED" :=
  (C30_propagation_outdates_the_source_unless_simultaneous (initialData 100 200 200 0) "p1"
    { id := "e1", projectId := "p1", name := "Development", slug := "dev",
      isProduction := false, parentId := none }
    { id := "e2", projectId := "p1", name := "Staging", slug := "staging",
      isProduction := false, parentId := none }
    "API_KEY" "k" 300 400 ⟨"r2", "s3", "a1"⟩ ⟨"r3", "s4", "a2"⟩ none none
    (by decide) (by decide) rfl rfl (by decide) (by decide)).2.2.2 (by decide)

end SecretsManager
